import Mathlib

/-
  Verification of the itchy NASDAQ ITCH 5.0 decoder (src/lib.rs, src/enums.rs).

  The Rust code is shallowly embedded: byte slices become `List Nat` (each
  entry a byte value), nom parsers become functions `List Nat → PResult α`,
  and the `MessageStream` iterator becomes an explicit state machine over a
  modelled byte source.  Rust panics (`unreachable!()`, `unwrap()` failures,
  slice-index panics, assertion failures) are modelled by explicit result
  constructors (`PResult.crash`, `StepOut.crash`, `StepOut.assertFail`)
  rather than being assumed away.
-/

namespace Itchy

/-- A byte of the wire stream, 0..255 in well-formed inputs. -/
abbrev Byte := Nat

/-- The nom error kinds that the embedded parsers can produce:
`char` from a mismatched character alternative, `mapOpt` from the
`map_opt!` enumeration tables in enums.rs, and `eof` from
`nom::number::complete::be_u8` (used by `parse_issue_classification`)
hitting an empty slice. -/
inductive ErrKind where
  | char
  | mapOpt
  | eof
  deriving DecidableEq

/-- Result of running a nom parser on a byte slice.  `ok rest val` mirrors
`IResult::Ok((rest, val))`; `error rest kind` mirrors
`Err::Error(nom::error::Error)` carrying the input at the failure point;
`incomplete needed` mirrors `Err::Incomplete(Needed)`; `crash` marks a Rust
panic (`unreachable!()` or a failed `unwrap()`), which nom never returns. -/
inductive PResult (α : Type) where
  | ok (rest : List Byte) (val : α)
  | error (rest : List Byte) (kind : ErrKind)
  | incomplete (needed : Nat)
  | crash
  deriving DecidableEq

/-- A parser over byte lists, the embedding of
`fn(&[u8]) -> IResult<&[u8], T>`. -/
def Parsr (α : Type) : Type := List Byte → PResult α

/-- Sequencing of parsers, the embedding of the
`let (input, x) = p(input)?;` chains in the Rust source.  Errors,
incompleteness and panics propagate. -/
def pbind {α β : Type} (p : Parsr α) (f : α → Parsr β) : Parsr β := fun i =>
  match p i with
  | .ok r v => f v r
  | .error r k => .error r k
  | .incomplete n => .incomplete n
  | .crash => .crash

/-- A parser consuming nothing and yielding a value. -/
def ppure {α : Type} (v : α) : Parsr α := fun i => .ok i v

instance : Monad Parsr where
  pure := ppure
  bind := pbind

@[simp] theorem bind_def {α β : Type} (p : Parsr α) (f : α → Parsr β) :
    (p >>= f) = pbind p f := rfl

@[simp] theorem pure_def {α : Type} (v : α) :
    (pure v : Parsr α) = ppure v := rfl

@[simp] theorem ppure_eval {α : Type} (v : α) (i : List Byte) :
    ppure v i = .ok i v := rfl

@[simp] theorem pbind_eval {α β : Type} (p : Parsr α) (f : α → Parsr β)
    (i : List Byte) :
    pbind p f i =
      match p i with
      | .ok r v => f v r
      | .error r k => .error r k
      | .incomplete n => .incomplete n
      | .crash => .crash := rfl

/-! ### Primitive field decoders

`be_u16p`, `be_u32p`, `be_u64p` embed nom streaming big-endian integer
parsers; on a short slice a streaming nom parser reports
`Incomplete(Needed::new(width - len))`.  `be_u48` is hand-written in the
Rust source with explicit shifts and a fixed `Needed::Size(6)`. -/

def be_u8p : Parsr Nat := fun i =>
  match i with
  | b :: r => .ok r b
  | [] => .incomplete 1

def be_u16p : Parsr Nat := fun i =>
  match i with
  | b0 :: b1 :: r => .ok r (b0 * 256 + b1)
  | _ => .incomplete (2 - i.length)

def be_u32p : Parsr Nat := fun i =>
  match i with
  | b0 :: b1 :: b2 :: b3 :: r =>
      .ok r (b0 * 16777216 + b1 * 65536 + b2 * 256 + b3)
  | _ => .incomplete (4 - i.length)

def be_u64p : Parsr Nat := fun i =>
  match i with
  | b0 :: b1 :: b2 :: b3 :: b4 :: b5 :: b6 :: b7 :: r =>
      .ok r (b0 * 72057594037927936 + b1 * 281474976710656 +
             b2 * 1099511627776 + b3 * 4294967296 +
             b4 * 16777216 + b5 * 65536 + b6 * 256 + b7)
  | _ => .incomplete (8 - i.length)

/-- The hand-rolled 48-bit big-endian parser from lib.rs; note the source
always reports `Needed::Size(6)` when fewer than 6 bytes remain. -/
def be_u48 : Parsr Nat := fun i =>
  match i with
  | b0 :: b1 :: b2 :: b3 :: b4 :: b5 :: r =>
      .ok r (b0 * 1099511627776 + b1 * 4294967296 + b2 * 16777216 +
             b3 * 65536 + b4 * 256 + b5)
  | _ => .incomplete 6

/-- nom `bytes::streaming::take(k)`. -/
def takeP (k : Nat) : Parsr (List Byte) := fun i =>
  if i.length < k then .incomplete (k - i.length)
  else .ok (i.drop k) (i.take k)

/-- First match in an association table of byte codes. -/
def lookupB {α : Type} : List (Byte × α) → Byte → Option α
  | [], _ => none
  | (c, v) :: t, b => if b = c then some v else lookupB t b

/-- Embedding of a nom `alt((map(char(c1), |_| v1), map(char(c2), |_| v2), ...))`
chain: on an empty slice the first streaming `char` reports incomplete; on a
byte matching some `ci` the corresponding value is produced consuming one
byte; otherwise every branch fails and the (last) `char` error, carrying the
whole input and `ErrorKind::Char`, is returned. -/
def altC {α : Type} (table : List (Byte × α)) : Parsr α := fun i =>
  match i with
  | [] => .incomplete 1
  | b :: r =>
    match lookupB table b with
    | some v => .ok r v
    | none => .error (b :: r) .char

/-! ### UTF-8 validation

`stock` and the mpid/reason fields call `str::from_utf8(..).unwrap()`.
`utf8Valid` embeds the UTF-8 well-formedness check of `str::from_utf8`
(RFC 3629 ranges); an invalid slice makes the `unwrap()` panic, which the
parsers below model as `PResult.crash`. -/

/-- A UTF-8 continuation byte, `0x80..=0xBF`. -/
def utf8Cont (b : Byte) : Bool := decide (128 ≤ b) && decide (b ≤ 191)

/-- UTF-8 well-formedness of a byte list, matching `str::from_utf8`. -/
def utf8Valid : List Byte → Bool
  | [] => true
  | b :: rest =>
    if b ≤ 127 then utf8Valid rest
    else if 194 ≤ b ∧ b ≤ 223 then
      match rest with
      | c1 :: rest2 => utf8Cont c1 && utf8Valid rest2
      | [] => false
    else if b = 224 then
      match rest with
      | c1 :: c2 :: rest2 =>
          decide (160 ≤ c1) && decide (c1 ≤ 191) && utf8Cont c2 && utf8Valid rest2
      | _ => false
    else if 225 ≤ b ∧ b ≤ 236 then
      match rest with
      | c1 :: c2 :: rest2 => utf8Cont c1 && utf8Cont c2 && utf8Valid rest2
      | _ => false
    else if b = 237 then
      match rest with
      | c1 :: c2 :: rest2 =>
          decide (128 ≤ c1) && decide (c1 ≤ 159) && utf8Cont c2 && utf8Valid rest2
      | _ => false
    else if 238 ≤ b ∧ b ≤ 239 then
      match rest with
      | c1 :: c2 :: rest2 => utf8Cont c1 && utf8Cont c2 && utf8Valid rest2
      | _ => false
    else if b = 240 then
      match rest with
      | c1 :: c2 :: c3 :: rest2 =>
          decide (144 ≤ c1) && decide (c1 ≤ 191) && utf8Cont c2 && utf8Cont c3 &&
            utf8Valid rest2
      | _ => false
    else if 241 ≤ b ∧ b ≤ 243 then
      match rest with
      | c1 :: c2 :: c3 :: rest2 =>
          utf8Cont c1 && utf8Cont c2 && utf8Cont c3 && utf8Valid rest2
      | _ => false
    else if b = 244 then
      match rest with
      | c1 :: c2 :: c3 :: rest2 =>
          decide (128 ≤ c1) && decide (c1 ≤ 143) && utf8Cont c2 && utf8Cont c3 &&
            utf8Valid rest2
      | _ => false
    else false

/-! ### Enumerations (src/enums.rs) -/

inductive EventCode where
  | StartOfMessages | StartOfSystemHours | StartOfMarketHours
  | EndOfMarketHours | EndOfSystemHours | EndOfMessages
  deriving DecidableEq

inductive MarketCategory where
  | NasdaqGlobalSelect | NasdaqGlobalMarket | NasdaqCapitalMarket
  | Nyse | NyseMkt | NyseArca | BatsZExchange | InvestorsExchange | Unavailable
  deriving DecidableEq

inductive FinancialStatus where
  | Normal | Deficient | Delinquent | Bankrupt | Suspended
  | DeficientBankrupt | DeficientDelinquent | DelinquentBankrupt
  | DeficientDelinquentBankrupt | EtpSuspended | Unavailable
  deriving DecidableEq

inductive IssueClassification where
  | AmericanDepositaryShare | Bond | CommonStock | DepositoryReceipt
  | A144 | LimitedPartnership | Notes | OrdinaryShare | PreferredStock
  | OtherSecurities | Right | SharesOfBeneficialInterest
  | ConvertibleDebenture | Unit | UnitsPerBenifInt | Warrant
  deriving DecidableEq

inductive IssueSubType where
  | PreferredTrustSecurities | AlphaIndexETNs | IndexBasedDerivative
  | CommonShares | CommodityBasedTrustShares | CommodityFuturesTrustShares
  | CommodityLinkedSecurities | CommodityIndexTrustShares
  | CollateralizedMortgageObligation | CurrencyTrustShares
  | CommodityCurrencyLinkedSecurities | CurrencyWarrants
  | GlobalDepositaryShares | ETFPortfolioDepositaryReceipt | EquityGoldShares
  | ETNEquityIndexLinkedSecurities | ExchangeTradedManagedFunds
  | ExchangeTradedNotes | EquityUnits | Holdrs
  | ETNFixedIncomeLinkedSecurities | ETNFuturesLinkedSecurities | GlobalShares
  | ETFIndexFundShares | InterestRate | IndexWarrant
  | IndexLinkedExchangeableNotes | CorporateBackedTrustSecurity
  | ContingentLitigationRight | Llc | EquityBasedDerivative | ManagedFundShares
  | ETNMultiFactorIndexLinkedSecurities | ManagedTrustSecurities
  | NYRegistryShares | OpenEndedMutualFund | PrivatelyHeldSecurity
  | PoisonPill | PartnershipUnits | ClosedEndFunds | RegS
  | CommodityRedeemableCommodityLinkedSecurities
  | ETNRedeemableFuturesLinkedSecurities | REIT
  | CommodityRedeemableCurrencyLinkedSecurities | Seed | SpotRateClosing
  | SpotRateIntraday | TrackingStock | TrustCertificates | TrustUnits
  | Portal | ContingentValueRight | TrustIssuedReceipts | WorldCurrencyOption
  | Trust | Other | NotApplicable
  deriving DecidableEq

inductive LuldRefPriceTier where
  | Tier1 | Tier2 | Na
  deriving DecidableEq

inductive MarketMakerMode where
  | Normal | Passive | Syndicate | Presyndicate | Penalty
  deriving DecidableEq

inductive MarketParticipantState where
  | Active | Excused | Withdrawn | Suspended | Deleted
  deriving DecidableEq

inductive RegShoAction where
  | None | Intraday | Extant
  deriving DecidableEq

inductive TradingState where
  | Halted | Paused | QuotationOnly | Trading
  deriving DecidableEq

inductive Side where
  | Buy | Sell
  deriving DecidableEq

inductive ImbalanceDirection where
  | Buy | Sell | NoImbalance | InsufficientOrders
  deriving DecidableEq

inductive CrossType where
  | Opening | Closing | IpoOrHalted | Intraday | ExtendedTradingClose
  deriving DecidableEq

inductive IpoReleaseQualifier where
  | Anticipated | Cancelled
  deriving DecidableEq

inductive LevelBreached where
  | L1 | L2 | L3
  deriving DecidableEq

inductive InterestFlag where
  | RPIAvailableBuySide | RPIAvailableSellSide | RPIAvailableBothSides
  | RPINoneAvailable
  deriving DecidableEq

/-- The `IssueClassification` byte table inside `parse_issue_classification`. -/
def issueClassificationTable : List (Byte × IssueClassification) :=
  [(65, .AmericanDepositaryShare), (66, .Bond), (67, .CommonStock),
   (70, .DepositoryReceipt), (73, .A144), (76, .LimitedPartnership),
   (78, .Notes), (79, .OrdinaryShare), (80, .PreferredStock),
   (81, .OtherSecurities), (82, .Right), (83, .SharesOfBeneficialInterest),
   (84, .ConvertibleDebenture), (85, .Unit), (86, .UnitsPerBenifInt),
   (87, .Warrant)]

/-- Embedding of `parse_issue_classification`:
`map_opt!(nom::number::complete::be_u8, table)`.  The complete-variant
`be_u8` reports `ErrorKind::Eof` on an empty slice (not `Incomplete`); a
byte outside the table makes `map_opt!` fail with `ErrorKind::MapOpt`. -/
def parse_issue_classification : Parsr IssueClassification := fun i =>
  match i with
  | [] => .error [] .eof
  | b :: r =>
    match lookupB issueClassificationTable b with
    | some v => .ok r v
    | none => .error (b :: r) .mapOpt

/-- First match in a two-byte-code association table. -/
def lookup2 {α : Type} : List ((Byte × Byte) × α) → Byte → Byte → Option α
  | [], _, _ => none
  | ((c1, c2), v) :: t, b1, b2 =>
    if b1 = c1 ∧ b2 = c2 then some v else lookup2 t b1 b2

/-- The two-character `IssueSubType` table inside `parse_issue_subtype`
(32 is the space character). -/
def issueSubTypeTable : List ((Byte × Byte) × IssueSubType) :=
  [((65, 32), .PreferredTrustSecurities), ((65, 73), .AlphaIndexETNs),
   ((66, 32), .IndexBasedDerivative), ((67, 32), .CommonShares),
   ((67, 66), .CommodityBasedTrustShares), ((67, 70), .CommodityFuturesTrustShares),
   ((67, 76), .CommodityLinkedSecurities), ((67, 77), .CommodityIndexTrustShares),
   ((67, 79), .CollateralizedMortgageObligation), ((67, 84), .CurrencyTrustShares),
   ((67, 85), .CommodityCurrencyLinkedSecurities), ((67, 87), .CurrencyWarrants),
   ((68, 32), .GlobalDepositaryShares), ((69, 32), .ETFPortfolioDepositaryReceipt),
   ((69, 71), .EquityGoldShares), ((69, 73), .ETNEquityIndexLinkedSecurities),
   ((69, 77), .ExchangeTradedManagedFunds), ((69, 78), .ExchangeTradedNotes),
   ((69, 85), .EquityUnits), ((70, 32), .Holdrs),
   ((70, 73), .ETNFixedIncomeLinkedSecurities), ((70, 76), .ETNFuturesLinkedSecurities),
   ((71, 32), .GlobalShares), ((73, 32), .ETFIndexFundShares),
   ((73, 82), .InterestRate), ((73, 87), .IndexWarrant),
   ((73, 88), .IndexLinkedExchangeableNotes), ((74, 32), .CorporateBackedTrustSecurity),
   ((76, 32), .ContingentLitigationRight), ((76, 76), .Llc),
   ((77, 32), .EquityBasedDerivative), ((77, 70), .ManagedFundShares),
   ((77, 76), .ETNMultiFactorIndexLinkedSecurities), ((77, 84), .ManagedTrustSecurities),
   ((78, 32), .NYRegistryShares), ((79, 32), .OpenEndedMutualFund),
   ((80, 32), .PrivatelyHeldSecurity), ((80, 80), .PoisonPill),
   ((80, 85), .PartnershipUnits), ((81, 32), .ClosedEndFunds),
   ((82, 32), .RegS), ((82, 67), .CommodityRedeemableCommodityLinkedSecurities),
   ((82, 70), .ETNRedeemableFuturesLinkedSecurities), ((82, 84), .REIT),
   ((82, 85), .CommodityRedeemableCurrencyLinkedSecurities), ((83, 32), .Seed),
   ((83, 67), .SpotRateClosing), ((83, 73), .SpotRateIntraday),
   ((84, 32), .TrackingStock), ((84, 67), .TrustCertificates),
   ((84, 85), .TrustUnits), ((85, 32), .Portal),
   ((86, 32), .ContingentValueRight), ((87, 32), .TrustIssuedReceipts),
   ((87, 67), .WorldCurrencyOption), ((88, 32), .Trust),
   ((89, 32), .Other), ((90, 32), .NotApplicable)]

/-- Embedding of `parse_issue_subtype`: `map_opt!(take!(2), table)`.
The streaming `take!(2)` reports incomplete below two bytes; a pair outside
the table makes `map_opt!` fail with `ErrorKind::MapOpt`. -/
def parse_issue_subtype : Parsr IssueSubType := fun i =>
  match i with
  | b1 :: b2 :: r =>
    match lookup2 issueSubTypeTable b1 b2 with
    | some v => .ok r v
    | none => .error (b1 :: b2 :: r) .mapOpt
  | _ => .incomplete (2 - i.length)

/-! ### Prices and message data model (src/lib.rs) -/

/-- Opaque price to four decimal places; `raw` is the wire `u32`. -/
structure Price4 where
  raw : Nat
  deriving DecidableEq

/-- Opaque price to eight decimal places; `raw` is the wire `u64`. -/
structure Price8 where
  raw : Nat
  deriving DecidableEq

/-- Embedding of `impl From<Price4> for Decimal`: `Decimal::from(raw) /
Decimal::from(10_000)`.  `rust_decimal::Decimal` has a 96-bit mantissa and
scale up to 28, so a `u32` over 4 decimal places is exactly representable
and the division is exact; `Decimal` values are therefore modelled as exact
rationals. -/
def price4ToDecimal (p : Price4) : ℚ := (p.raw : ℚ) / 10000

/-- Embedding of `impl From<Price8> for Decimal`: `Decimal::from(raw) /
Decimal::from(100_000_000)`; exact for every `u64` (mantissa below 2 to the
96th), modelled as an exact rational. -/
def price8ToDecimal (p : Price8) : ℚ := (p.raw : ℚ) / 100000000

/-- `ArrayString8` / `ArrayString4` values are modelled by their underlying
byte lists (length 8 resp. 4, valid UTF-8). -/
abbrev ByteStr := List Byte

structure StockDirectory where
  stock : ByteStr
  market_category : MarketCategory
  financial_status : FinancialStatus
  round_lot_size : Nat
  round_lots_only : Bool
  issue_classification : IssueClassification
  issue_subtype : IssueSubType
  authenticity : Bool
  short_sale_threshold : Option Bool
  ipo_flag : Option Bool
  luld_ref_price_tier : LuldRefPriceTier
  etp_flag : Option Bool
  etp_leverage_factor : Nat
  inverse_indicator : Bool
  deriving DecidableEq

structure MarketParticipantPosition where
  mpid : ByteStr
  stock : ByteStr
  primary_market_maker : Bool
  market_maker_mode : MarketMakerMode
  market_participant_state : MarketParticipantState
  deriving DecidableEq

structure AddOrder where
  reference : Nat
  side : Side
  shares : Nat
  stock : ByteStr
  price : Price4
  mpid : Option ByteStr
  deriving DecidableEq

structure ReplaceOrder where
  old_reference : Nat
  new_reference : Nat
  shares : Nat
  price : Price4
  deriving DecidableEq

/-- The `price_variation_indicator` is a raw byte stored `as char`; it is
modelled by the byte value. -/
structure ImbalanceIndicator where
  paired_shares : Nat
  imbalance_shares : Nat
  imbalance_direction : ImbalanceDirection
  stock : ByteStr
  far_price : Price4
  near_price : Price4
  current_ref_price : Price4
  cross_type : CrossType
  price_variation_indicator : Nat
  deriving DecidableEq

structure CrossTrade where
  shares : Nat
  stock : ByteStr
  cross_price : Price4
  match_number : Nat
  cross_type : CrossType
  deriving DecidableEq

structure RetailPriceImprovementIndicator where
  stock : ByteStr
  interest_flag : InterestFlag
  deriving DecidableEq

structure NonCrossTrade where
  reference : Nat
  side : Side
  shares : Nat
  stock : ByteStr
  price : Price4
  match_number : Nat
  deriving DecidableEq

structure IpoQuotingPeriod where
  stock : ByteStr
  release_time : Nat
  release_qualifier : IpoReleaseQualifier
  price : Price4
  deriving DecidableEq

/-- The message body, one variant per supported tag. -/
inductive Body where
  | AddOrder (order : AddOrder)
  | Breach (level : LevelBreached)
  | BrokenTrade (match_number : Nat)
  | CrossTrade (ct : CrossTrade)
  | DeleteOrder (reference : Nat)
  | Imbalance (ii : ImbalanceIndicator)
  | IpoQuotingPeriod (ipo : IpoQuotingPeriod)
  | LULDAuctionCollar (stock : ByteStr) (ref_price : Price4)
      (upper_price : Price4) (lower_price : Price4) (extension : Nat)
  | MwcbDeclineLevel (level1 : Price8) (level2 : Price8) (level3 : Price8)
  | NonCrossTrade (nct : NonCrossTrade)
  | OrderCancelled (reference : Nat) (cancelled : Nat)
  | OrderExecuted (reference : Nat) (executed : Nat) (match_number : Nat)
  | OrderExecutedWithPrice (reference : Nat) (executed : Nat)
      (match_number : Nat) (printable : Bool) (price : Price4)
  | ParticipantPosition (mpp : MarketParticipantPosition)
  | RegShoRestriction (stock : ByteStr) (action : RegShoAction)
  | ReplaceOrder (ro : ReplaceOrder)
  | StockDirectory (sd : StockDirectory)
  | SystemEvent (event : EventCode)
  | TradingAction (stock : ByteStr) (trading_state : TradingState)
      (reason : ByteStr)
  | RetailPriceImprovementIndicator (rpii : RetailPriceImprovementIndicator)
  deriving DecidableEq

/-- An ITCH protocol message (header fields plus body). -/
structure Message where
  tag : Byte
  stock_locate : Nat
  tracking_number : Nat
  timestamp : Nat
  body : Body
  deriving DecidableEq

/-! ### Field and per-message parsers (src/lib.rs) -/

/-- `char2bool`: `alt((map(char(Y), true), map(char(N), false)))`. -/
def char2bool : Parsr Bool := altC [(89, true), (78, false)]

/-- `maybe_char2bool`: `Y`, `N` or space. -/
def maybe_char2bool : Parsr (Option Bool) :=
  altC [(89, some true), (78, some false), (32, none)]

/-- `parse_etp_flag`: `Y`, `N`, space, plus the documented `M` exception
accepted as `Some(true)`. -/
def parse_etp_flag : Parsr (Option Bool) :=
  altC [(89, some true), (78, some false), (32, none), (77, some true)]

/-- `stock`: `map(take(8), |s| ArrayString::from(str::from_utf8(s).unwrap()).unwrap())`.
Takes exactly 8 bytes; invalid UTF-8 panics (`crash`). -/
def stock : Parsr ByteStr := fun i =>
  if i.length < 8 then .incomplete (8 - i.length)
  else if utf8Valid (i.take 8) then .ok (i.drop 8) (i.take 8)
  else .crash

/-- The inline `map(take(4), ..from_utf8..unwrap..)` used for mpid and
reason fields; takes exactly 4 bytes, panics on invalid UTF-8. -/
def take4str : Parsr ByteStr := fun i =>
  if i.length < 4 then .incomplete (4 - i.length)
  else if utf8Valid (i.take 4) then .ok (i.drop 4) (i.take 4)
  else .crash

/-- The event-code table in `parse_system_event`. -/
def eventCodeTable : List (Byte × EventCode) :=
  [(79, .StartOfMessages), (83, .StartOfSystemHours), (81, .StartOfMarketHours),
   (77, .EndOfMarketHours), (69, .EndOfSystemHours), (67, .EndOfMessages)]

def parse_system_event : Parsr Body := do
  let event ← altC eventCodeTable
  pure (Body.SystemEvent event)

/-- The market-category table in `parse_stock_directory`. -/
def marketCategoryTable : List (Byte × MarketCategory) :=
  [(81, .NasdaqGlobalSelect), (71, .NasdaqGlobalMarket), (83, .NasdaqCapitalMarket),
   (78, .Nyse), (65, .NyseMkt), (80, .NyseArca), (90, .BatsZExchange),
   (86, .InvestorsExchange), (32, .Unavailable)]

/-- The financial-status table in `parse_stock_directory`. -/
def financialStatusTable : List (Byte × FinancialStatus) :=
  [(78, .Normal), (68, .Deficient), (69, .Delinquent), (81, .Bankrupt),
   (83, .Suspended), (71, .DeficientBankrupt), (72, .DeficientDelinquent),
   (74, .DelinquentBankrupt), (75, .DeficientDelinquentBankrupt),
   (67, .EtpSuspended), (32, .Unavailable)]

/-- The LULD reference-price-tier table in `parse_stock_directory`. -/
def luldTable : List (Byte × LuldRefPriceTier) :=
  [(32, .Na), (49, .Tier1), (50, .Tier2)]

def parse_stock_directory : Parsr StockDirectory := do
  let st ← stock
  let market_category ← altC marketCategoryTable
  let financial_status ← altC financialStatusTable
  let round_lot_size ← be_u32p
  let round_lots_only ← char2bool
  let issue_classification ← parse_issue_classification
  let issue_subtype ← parse_issue_subtype
  let authenticity ← altC [(80, true), (84, false)]
  let short_sale_threshold ← maybe_char2bool
  let ipo_flag ← maybe_char2bool
  let luld_ref_price_tier ← altC luldTable
  let etp_flag ← parse_etp_flag
  let etp_leverage_factor ← be_u32p
  let inverse_indicator ← char2bool
  pure { stock := st, market_category, financial_status, round_lot_size,
         round_lots_only, issue_classification, issue_subtype, authenticity,
         short_sale_threshold, ipo_flag, luld_ref_price_tier, etp_flag,
         etp_leverage_factor, inverse_indicator }

/-- The market-maker-mode table in `parse_participant_position`. -/
def marketMakerModeTable : List (Byte × MarketMakerMode) :=
  [(78, .Normal), (80, .Passive), (83, .Syndicate), (82, .Presyndicate),
   (76, .Penalty)]

/-- The market-participant-state table in `parse_participant_position`. -/
def marketParticipantStateTable : List (Byte × MarketParticipantState) :=
  [(65, .Active), (69, .Excused), (87, .Withdrawn), (83, .Suspended),
   (68, .Deleted)]

def parse_participant_position : Parsr MarketParticipantPosition := do
  let mpid ← take4str
  let st ← stock
  let primary_market_maker ← char2bool
  let market_maker_mode ← altC marketMakerModeTable
  let market_participant_state ← altC marketParticipantStateTable
  pure { mpid, stock := st, primary_market_maker, market_maker_mode,
         market_participant_state }

/-- The Reg SHO action table in `parse_reg_sho_restriction`
(48, 49, 50 are the digit characters 0, 1, 2). -/
def regShoTable : List (Byte × RegShoAction) :=
  [(48, .None), (49, .Intraday), (50, .Extant)]

def parse_reg_sho_restriction : Parsr Body := do
  let st ← stock
  let action ← altC regShoTable
  pure (Body.RegShoRestriction st action)

/-- The trading-state table in `parse_trading_action`. -/
def tradingStateTable : List (Byte × TradingState) :=
  [(72, .Halted), (80, .Paused), (81, .QuotationOnly), (84, .Trading)]

def parse_trading_action : Parsr Body := do
  let st ← stock
  let trading_state ← altC tradingStateTable
  let _reserved ← be_u8p
  let reason ← take4str
  pure (Body.TradingAction st trading_state reason)

def sideTable : List (Byte × Side) := [(66, .Buy), (83, .Sell)]

def parse_add_order (attribution : Bool) : Parsr AddOrder := do
  let reference ← be_u64p
  let side ← altC sideTable
  let shares ← be_u32p
  let st ← stock
  let price ← be_u32p
  let mpid ←
    match attribution with
    | true => do
        let m ← take4str
        pure (some m)
    | false => pure none
  pure { reference, side, shares, stock := st, price := ⟨price⟩, mpid }

def parse_replace_order : Parsr ReplaceOrder := do
  let old_reference ← be_u64p
  let new_reference ← be_u64p
  let shares ← be_u32p
  let price ← be_u32p
  pure { old_reference, new_reference, shares, price := ⟨price⟩ }

/-- The imbalance-direction table in `parse_imbalance_indicator`. -/
def imbalanceDirectionTable : List (Byte × ImbalanceDirection) :=
  [(66, .Buy), (83, .Sell), (78, .NoImbalance), (79, .InsufficientOrders)]

/-- The four-entry cross-type table in `parse_imbalance_indicator`
(no `I` variant there). -/
def crossTypeTable4 : List (Byte × CrossType) :=
  [(79, .Opening), (67, .Closing), (72, .IpoOrHalted), (65, .ExtendedTradingClose)]

def parse_imbalance_indicator : Parsr ImbalanceIndicator := do
  let paired_shares ← be_u64p
  let imbalance_shares ← be_u64p
  let imbalance_direction ← altC imbalanceDirectionTable
  let st ← stock
  let far_price ← be_u32p
  let near_price ← be_u32p
  let current_ref_price ← be_u32p
  let cross_type ← altC crossTypeTable4
  let price_variation_indicator ← be_u8p
  pure { paired_shares, imbalance_shares, imbalance_direction, stock := st,
         far_price := ⟨far_price⟩, near_price := ⟨near_price⟩,
         current_ref_price := ⟨current_ref_price⟩, cross_type,
         price_variation_indicator }

/-- The five-entry cross-type table in `parse_cross_trade`. -/
def crossTypeTable5 : List (Byte × CrossType) :=
  [(79, .Opening), (67, .Closing), (72, .IpoOrHalted), (73, .Intraday),
   (65, .ExtendedTradingClose)]

def parse_cross_trade : Parsr CrossTrade := do
  let shares ← be_u64p
  let st ← stock
  let price ← be_u32p
  let match_number ← be_u64p
  let cross_type ← altC crossTypeTable5
  pure { shares, stock := st, cross_price := ⟨price⟩, match_number, cross_type }

/-- The interest-flag table in `parse_retail_price_improvement_indicator`. -/
def interestFlagTable : List (Byte × InterestFlag) :=
  [(66, .RPIAvailableBuySide), (83, .RPIAvailableSellSide),
   (65, .RPIAvailableBothSides), (78, .RPINoneAvailable)]

def parse_retail_price_improvement_indicator :
    Parsr RetailPriceImprovementIndicator := do
  let st ← stock
  let interest_flag ← altC interestFlagTable
  pure { stock := st, interest_flag }

def parse_noncross_trade : Parsr NonCrossTrade := do
  let reference ← be_u64p
  let side ← altC sideTable
  let shares ← be_u32p
  let st ← stock
  let price ← be_u32p
  let match_number ← be_u64p
  pure { reference, side, shares, stock := st, price := ⟨price⟩, match_number }

/-- The IPO release-qualifier table in `parse_ipo_quoting_period`. -/
def ipoQualifierTable : List (Byte × IpoReleaseQualifier) :=
  [(65, .Anticipated), (67, .Cancelled)]

def parse_ipo_quoting_period : Parsr IpoQuotingPeriod := do
  let st ← stock
  let release_time ← be_u32p
  let release_qualifier ← altC ipoQualifierTable
  let price ← be_u32p
  pure { stock := st, release_time, release_qualifier, price := ⟨price⟩ }

/-- The level-breached table for tag `W` (49, 50, 51 are digits 1, 2, 3). -/
def levelBreachedTable : List (Byte × LevelBreached) :=
  [(49, .L1), (50, .L2), (51, .L3)]

/-- The per-tag body dispatch inside `parse_message` (the `match tag` block).
Tags are ASCII byte values: 65 is `A`, 66 `B`, and so on.  A tag matched by
no arm hits `unreachable!()`, i.e. a panic, modelled by `crash`. -/
def bodyFor (tag : Byte) : Parsr Body :=
  if tag = 65 then do
    let a ← parse_add_order false
    pure (Body.AddOrder a)
  else if tag = 66 then do
    let match_number ← be_u64p
    pure (Body.BrokenTrade match_number)
  else if tag = 67 then do
    let reference ← be_u64p
    let executed ← be_u32p
    let match_number ← be_u64p
    let printable ← char2bool
    let price ← be_u32p
    pure (Body.OrderExecutedWithPrice reference executed match_number printable ⟨price⟩)
  else if tag = 68 then do
    let reference ← be_u64p
    pure (Body.DeleteOrder reference)
  else if tag = 69 then do
    let reference ← be_u64p
    let executed ← be_u32p
    let match_number ← be_u64p
    pure (Body.OrderExecuted reference executed match_number)
  else if tag = 70 then do
    let a ← parse_add_order true
    pure (Body.AddOrder a)
  else if tag = 72 then parse_trading_action
  else if tag = 73 then do
    let ii ← parse_imbalance_indicator
    pure (Body.Imbalance ii)
  else if tag = 74 then do
    let st ← stock
    let ref_p ← be_u32p
    let upper_p ← be_u32p
    let lower_p ← be_u32p
    let extension ← be_u32p
    pure (Body.LULDAuctionCollar st ⟨ref_p⟩ ⟨upper_p⟩ ⟨lower_p⟩ extension)
  else if tag = 75 then do
    let ipo ← parse_ipo_quoting_period
    pure (Body.IpoQuotingPeriod ipo)
  else if tag = 76 then do
    let mpp ← parse_participant_position
    pure (Body.ParticipantPosition mpp)
  else if tag = 78 then do
    let rpii ← parse_retail_price_improvement_indicator
    pure (Body.RetailPriceImprovementIndicator rpii)
  else if tag = 80 then do
    let nct ← parse_noncross_trade
    pure (Body.NonCrossTrade nct)
  else if tag = 81 then do
    let ct ← parse_cross_trade
    pure (Body.CrossTrade ct)
  else if tag = 82 then do
    let sd ← parse_stock_directory
    pure (Body.StockDirectory sd)
  else if tag = 83 then parse_system_event
  else if tag = 85 then do
    let ro ← parse_replace_order
    pure (Body.ReplaceOrder ro)
  else if tag = 86 then do
    let l1 ← be_u64p
    let l2 ← be_u64p
    let l3 ← be_u64p
    pure (Body.MwcbDeclineLevel ⟨l1⟩ ⟨l2⟩ ⟨l3⟩)
  else if tag = 87 then do
    let level ← altC levelBreachedTable
    pure (Body.Breach level)
  else if tag = 88 then do
    let reference ← be_u64p
    let cancelled ← be_u32p
    pure (Body.OrderCancelled reference cancelled)
  else if tag = 89 then parse_reg_sho_restriction
  else fun _ => .crash

/-- Embedding of `parse_message`: 2-byte length (read and discarded), tag
byte, stock locate, tracking number, 48-bit timestamp, then the per-tag
body. -/
def parse_message : Parsr Message := do
  let _length ← be_u16p
  let tag ← be_u8p
  let stock_locate ← be_u16p
  let tracking_number ← be_u16p
  let timestamp ← be_u48
  let body ← bodyFor tag
  pure { tag, stock_locate, tracking_number, timestamp, body }

/-! ### The message stream (MessageStream and its Iterator impl)

The byte source (`R: Read`) is modelled by a plan of per-call responses
plus the list of bytes it still holds; this covers ordinary sources
(each call hands out as much as fits), 1-byte-per-call sources, sources
that report an I/O error, and sources that return 0 bytes spuriously. -/

/-- Size of the parse buffer, `BUFSIZE = 8 * 1024`. -/
def BUFSIZE : Nat := 8192

/-- One planned response of the byte source: `emit n` lets the next read
call return up to `n` bytes; `fail` makes it return an I/O error. -/
inductive ReadStep where
  | emit (n : Nat)
  | fail
  deriving DecidableEq

/-- A modelled `Read` implementation: a plan of per-call responses and the
bytes it still holds.  A call past the end of the plan returns 0 bytes. -/
structure Source where
  plan : List ReadStep
  data : List Byte
  deriving DecidableEq

inductive ReadOut where
  | chunk (bytes : List Byte)
  | readFail
  deriving DecidableEq

/-- One `reader.read(&mut buffer[bufend..])` call: returns at most `space`
bytes, at most what the head plan entry allows, and at most what remains. -/
def srcRead (src : Source) (space : Nat) : ReadOut × Source :=
  match src.plan with
  | [] => (.chunk [], src)
  | .emit n :: rest =>
      let k := min n (min space src.data.length)
      (.chunk (src.data.take k), ⟨rest, src.data.drop k⟩)
  | .fail :: rest => (.readFail, ⟨rest, src.data⟩)

/-- The state of `MessageStream<R>`: reader, fixed-size buffer and the two
cursors, plus the error latch.  The counters (`bytes_read`, `read_calls`,
`message_ct`) do not influence iteration and are omitted. -/
structure MessageStream where
  reader : Source
  buffer : List Byte
  bufstart : Nat
  bufend : Nat
  in_error_state : Bool
  deriving DecidableEq

/-- The unread window `buffer[bufstart..bufend]` handed to `parse_message`. -/
def window (s : MessageStream) : List Byte :=
  (s.buffer.drop s.bufstart).take (s.bufend - s.bufstart)

/-- A fresh stream over a byte source: empty zeroed buffer, cursors at 0. -/
def freshStream (src : Source) : MessageStream :=
  ⟨src, List.replicate BUFSIZE 0, 0, 0, false⟩

/-- Overwrite `buf[pos .. pos + bytes.length)` with `bytes`: the model of
reading into `&mut buffer[bufend..]` and of `copy_from_slice`. -/
def setSlice (buf : List Byte) (pos : Nat) (bytes : List Byte) : List Byte :=
  buf.take pos ++ bytes ++ buf.drop (pos + bytes.length)

/-- The compaction step inside `fetch_more_bytes`: copy the unread remnant
`buffer[bufstart..]` to offset 0 and reset the cursors (the source sets
`bufend` to the remnant length `BUFSIZE - bufstart`). -/
def compactBuf (s : MessageStream) : MessageStream :=
  { s with buffer := setSlice s.buffer 0 (s.buffer.drop s.bufstart),
           bufstart := 0, bufend := BUFSIZE - s.bufstart }

inductive FetchOut where
  | bytes (ct : Nat)
  | readFail
  | assertFail
  deriving DecidableEq

/-- One read into the free tail `buffer[bufend..]`. -/
def readInto (s : MessageStream) : FetchOut × MessageStream :=
  match srcRead s.reader (BUFSIZE - s.bufend) with
  | (.chunk c, src) =>
      (.bytes c.length,
       { s with buffer := setSlice s.buffer s.bufend c, reader := src })
  | (.readFail, src) => (.readFail, { s with reader := src })

/-- Embedding of `fetch_more_bytes`: if the buffer is completely full,
check the two defensive assertions (`bufstart > BUFSIZE / 2` and
`BUFSIZE - bufstart < 100`) and compact; then issue one read.  A failed
assertion is a Rust panic, modelled as `assertFail`. -/
def fetch_more_bytes (s : MessageStream) : FetchOut × MessageStream :=
  if s.bufend = BUFSIZE then
    if BUFSIZE / 2 < s.bufstart ∧ BUFSIZE - s.bufstart < 100 then
      readInto (compactBuf s)
    else (.assertFail, s)
  else readInto s

/-- A stream error surfaced to the consumer.  `parse` carries the nom error
kind and the 20 context bytes `buffer[bufstart..bufstart + 20]` that the
source formats into the message; `readErr` is a propagated I/O error. -/
inductive StreamErr where
  | parse (kind : ErrKind) (context : List Byte)
  | unexpectedEof
  | readErr
  deriving DecidableEq

/-- One observable outcome of `next()`: a message (`Some(Ok(m))`), an error
(`Some(Err(e))`), iteration end (`None`), or a Rust panic (`crash` from the
parser or the context slicing, `assertFail` from the compaction asserts). -/
inductive StepOut where
  | msg (m : Message)
  | err (e : StreamErr)
  | done
  | crash
  | assertFail
  deriving DecidableEq

theorem readInto_plan_lt (s : MessageStream) (ct : Nat) (s1 : MessageStream)
    (h : readInto s = (.bytes ct, s1)) (hc : ct ≠ 0) :
    s1.reader.plan.length < s.reader.plan.length := by
  unfold readInto srcRead at h
  cases hp : s.reader.plan with
  | nil =>
      rw [hp] at h
      simp at h
      exact absurd h.1.symm hc
  | cons st rest =>
      cases st with
      | emit n =>
          rw [hp] at h
          simp at h
          rw [← h.2]
          simp
      | fail =>
          rw [hp] at h
          simp at h

theorem fetch_plan_lt (s : MessageStream) (ct : Nat) (s1 : MessageStream)
    (h : fetch_more_bytes s = (.bytes ct, s1)) (hc : ct ≠ 0) :
    s1.reader.plan.length < s.reader.plan.length := by
  unfold fetch_more_bytes at h
  split at h
  · split at h
    · have h2 := readInto_plan_lt _ _ _ h hc
      simpa [compactBuf] using h2
    · simp at h
  · exact readInto_plan_lt _ _ _ h hc

/-- Embedding of `<MessageStream<R> as Iterator>::next`.  Returns the
yielded item and the successor state.  On a successful parse the window
advances and the error latch clears; a non-`Eof` parse error latches and
yields a diagnostic whose context slice `buffer[bufstart..bufstart + 20]`
panics (`crash`) when it overruns the buffer; `Eof`-kind errors and
incompleteness trigger a refill and retry. -/
def nextMsg (s : MessageStream) : StepOut × MessageStream :=
  match parse_message (window s) with
  | .ok r m =>
      (.msg m, { s with bufstart := s.bufend - r.length, in_error_state := false })
  | .error _ k =>
      if s.in_error_state then (.done, s)
      else if k = .eof then
        match hf : fetch_more_bytes s with
        | (.assertFail, s1) => (.assertFail, s1)
        | (.readFail, s1) =>
            if s1.in_error_state then (.done, s1)
            else (.err .readErr, { s1 with in_error_state := true })
        | (.bytes ct, s1) =>
            if hc : ct = 0 then
              if s1.bufstart = s1.bufend then (.done, s1)
              else if s1.in_error_state then (.done, s1)
              else (.err .unexpectedEof, { s1 with in_error_state := true })
            else nextMsg { s1 with bufend := s1.bufend + ct }
      else
        if s.bufstart + 20 ≤ BUFSIZE then
          (.err (.parse k ((s.buffer.drop s.bufstart).take 20)),
           { s with in_error_state := true })
        else (.crash, s)
  | .incomplete _ =>
      match hf : fetch_more_bytes s with
      | (.assertFail, s1) => (.assertFail, s1)
      | (.readFail, s1) =>
          if s1.in_error_state then (.done, s1)
          else (.err .readErr, { s1 with in_error_state := true })
      | (.bytes ct, s1) =>
          if hc : ct = 0 then
            if s1.bufstart = s1.bufend then (.done, s1)
            else if s1.in_error_state then (.done, s1)
            else (.err .unexpectedEof, { s1 with in_error_state := true })
          else nextMsg { s1 with bufend := s1.bufend + ct }
  | .crash => (.crash, s)
termination_by s.reader.plan.length
decreasing_by
  · exact fetch_plan_lt s _ _ hf hc
  · exact fetch_plan_lt s _ _ hf hc

/-- The first `k` outcomes of repeatedly calling `next()`. -/
def runStream : Nat → MessageStream → List StepOut
  | 0, _ => []
  | k + 1, s =>
      let r := nextMsg s
      r.1 :: runStream k r.2

/-! ### Structural facts about the parsers

`NeedsMore` captures the two results that make `next()` refill and retry:
a nom `Incomplete` and, because enums.rs uses `nom::number::complete::be_u8`,
an `Error` of kind `Eof`.  `PFacts p lo hi` bundles what the stream proofs
need: a successful parse consumes between `lo` and `hi` bytes and returns
the corresponding suffix; a refill-triggering result only happens on
windows shorter than `hi`; and ok, non-`Eof` error and crash results are
stable under appending further input (the streaming-parser property). -/

def NeedsMore {α : Type} : PResult α → Prop
  | .incomplete _ => True
  | .error _ .eof => True
  | _ => False

structure PFacts {α : Type} (p : Parsr α) (lo hi : Nat) : Prop where
  ok_bound : ∀ i r v, p i = .ok r v →
    ∃ n, lo ≤ n ∧ n ≤ hi ∧ n ≤ i.length ∧ r = i.drop n
  needy_short : ∀ i, NeedsMore (p i) → i.length < hi
  ok_ext : ∀ i u r v, p i = .ok r v → p (i ++ u) = .ok (r ++ u) v
  err_ext : ∀ i u r k, k ≠ .eof → p i = .error r k → p (i ++ u) = .error (r ++ u) k
  crash_ext : ∀ i u, p i = .crash → p (i ++ u) = .crash

theorem PFacts.mono {α : Type} {p : Parsr α} {lo hi lo' hi' : Nat}
    (h : PFacts p lo hi) (hl : lo' ≤ lo) (hh : hi ≤ hi') : PFacts p lo' hi' := by
  refine ⟨?_, ?_, h.ok_ext, h.err_ext, h.crash_ext⟩
  · intro i r v hok
    obtain ⟨n, h1, h2, h3, h4⟩ := h.ok_bound i r v hok
    exact ⟨n, by omega, by omega, h3, h4⟩
  · intro i hn
    have := h.needy_short i hn
    omega

theorem PFacts.bindP {α β : Type} {p : Parsr α} {f : α → Parsr β}
    {l1 h1 l2 h2 : Nat} (hp : PFacts p l1 h1) (hf : ∀ v, PFacts (f v) l2 h2) :
    PFacts (p >>= f) (l1 + l2) (h1 + h2) := by
  refine ⟨?_, ?_, ?_, ?_, ?_⟩
  · intro i r v h
    simp only [bind_def, pbind_eval] at h
    cases hpi : p i with
    | ok r1 v1 =>
        rw [hpi] at h
        obtain ⟨n1, a1, a2, a3, a4⟩ := hp.ok_bound i r1 v1 hpi
        obtain ⟨n2, b1, b2, b3, b4⟩ := (hf v1).ok_bound r1 r v h
        refine ⟨n1 + n2, by omega, by omega, ?_, ?_⟩
        · subst a4
          simp at b3
          omega
        · subst a4
          rw [b4, List.drop_drop]
          try rw [Nat.add_comm n2 n1]
    | error r1 k => rw [hpi] at h; exact absurd h (by simp)
    | incomplete n => rw [hpi] at h; exact absurd h (by simp)
    | crash => rw [hpi] at h; exact absurd h (by simp)
  · intro i h
    simp only [bind_def, pbind_eval] at h
    cases hpi : p i with
    | ok r1 v1 =>
        rw [hpi] at h
        have hs := (hf v1).needy_short r1 h
        obtain ⟨n1, a1, a2, a3, a4⟩ := hp.ok_bound i r1 v1 hpi
        subst a4
        simp at hs
        omega
    | error r1 k =>
        rw [hpi] at h
        cases k with
        | eof =>
            have := hp.needy_short i (by rw [hpi]; trivial)
            omega
        | char => exact absurd h (by simp [NeedsMore])
        | mapOpt => exact absurd h (by simp [NeedsMore])
    | incomplete n =>
        have := hp.needy_short i (by rw [hpi]; trivial)
        omega
    | crash => rw [hpi] at h; exact absurd h (by simp [NeedsMore])
  · intro i u r v h
    simp only [bind_def, pbind_eval] at h ⊢
    cases hpi : p i with
    | ok r1 v1 =>
        rw [hpi] at h
        rw [hp.ok_ext i u r1 v1 hpi]
        exact (hf v1).ok_ext r1 u r v h
    | error r1 k => rw [hpi] at h; exact absurd h (by simp)
    | incomplete n => rw [hpi] at h; exact absurd h (by simp)
    | crash => rw [hpi] at h; exact absurd h (by simp)
  · intro i u r k hk h
    simp only [bind_def, pbind_eval] at h ⊢
    cases hpi : p i with
    | ok r1 v1 =>
        rw [hpi] at h
        rw [hp.ok_ext i u r1 v1 hpi]
        exact (hf v1).err_ext r1 u r k hk h
    | error r1 k1 =>
        rw [hpi] at h
        simp at h
        rw [hp.err_ext i u r1 k1 (by rw [h.2]; exact hk) hpi]
        simp [h.1, h.2]
    | incomplete n => rw [hpi] at h; exact absurd h (by simp)
    | crash => rw [hpi] at h; exact absurd h (by simp)
  · intro i u h
    simp only [bind_def, pbind_eval] at h ⊢
    cases hpi : p i with
    | ok r1 v1 =>
        rw [hpi] at h
        rw [hp.ok_ext i u r1 v1 hpi]
        exact (hf v1).crash_ext r1 u h
    | error r1 k => rw [hpi] at h; exact absurd h (by simp)
    | incomplete n => rw [hpi] at h; exact absurd h (by simp)
    | crash => rw [hp.crash_ext i u hpi]

theorem PFacts.pureP {α : Type} (v : α) : PFacts (pure v : Parsr α) 0 0 := by
  refine ⟨?_, ?_, ?_, ?_, ?_⟩ <;>
    intro i <;> simp [ppure, NeedsMore]

/-- A fixed-width parser: incomplete below `N` bytes, otherwise consuming
exactly `N` bytes with a value depending only on those bytes. -/
def IsFixed {α : Type} (p : Parsr α) (N : Nat) (val : List Byte → α) : Prop :=
  ∀ i, (i.length < N → ∃ m, p i = .incomplete m) ∧
       (N ≤ i.length → p i = .ok (i.drop N) (val (i.take N)))

theorem PFacts.ofFixed {α : Type} {p : Parsr α} {N : Nat}
    {val : List Byte → α} (h : IsFixed p N val) : PFacts p N N := by
  refine ⟨?_, ?_, ?_, ?_, ?_⟩
  · intro i r v hok
    rcases Nat.lt_or_ge i.length N with hlen | hlen
    · obtain ⟨m, hm⟩ := (h i).1 hlen
      rw [hm] at hok
      exact absurd hok (by simp)
    · have := (h i).2 hlen
      rw [this] at hok
      simp at hok
      exact ⟨N, le_refl N, le_refl N, hlen, hok.1.symm⟩
  · intro i hn
    rcases Nat.lt_or_ge i.length N with hlen | hlen
    · exact hlen
    · have := (h i).2 hlen
      rw [this] at hn
      exact absurd hn (by simp [NeedsMore])
  · intro i u r v hok
    rcases Nat.lt_or_ge i.length N with hlen | hlen
    · obtain ⟨m, hm⟩ := (h i).1 hlen
      rw [hm] at hok
      exact absurd hok (by simp)
    · have h1 := (h i).2 hlen
      rw [h1] at hok
      simp at hok
      have h2 := (h (i ++ u)).2 (by simp; omega)
      rw [h2, List.drop_append_of_le_length hlen,
          List.take_append_of_le_length hlen, hok.1, hok.2]
  · intro i u r k _ herr
    rcases Nat.lt_or_ge i.length N with hlen | hlen
    · obtain ⟨m, hm⟩ := (h i).1 hlen
      rw [hm] at herr
      exact absurd herr (by simp)
    · have := (h i).2 hlen
      rw [this] at herr
      exact absurd herr (by simp)
  · intro i u hcr
    rcases Nat.lt_or_ge i.length N with hlen | hlen
    · obtain ⟨m, hm⟩ := (h i).1 hlen
      rw [hm] at hcr
      exact absurd hcr (by simp)
    · have := (h i).2 hlen
      rw [this] at hcr
      exact absurd hcr (by simp)

theorem isFixed_be_u8 : IsFixed be_u8p 1 (fun b => b.getD 0 0) := by
  intro i
  rcases i with _ | ⟨b0, t⟩ <;> constructor <;> intro h <;> simp_all [be_u8p]

theorem isFixed_be_u16 :
    IsFixed be_u16p 2 (fun b => b.getD 0 0 * 256 + b.getD 1 0) := by
  intro i
  rcases i with _ | ⟨b0, _ | ⟨b1, t⟩⟩ <;> constructor <;> intro h <;>
    simp_all [be_u16p] <;> omega

theorem isFixed_be_u32 :
    IsFixed be_u32p 4
      (fun b => b.getD 0 0 * 16777216 + b.getD 1 0 * 65536 +
                b.getD 2 0 * 256 + b.getD 3 0) := by
  intro i
  rcases i with _ | ⟨b0, _ | ⟨b1, _ | ⟨b2, _ | ⟨b3, t⟩⟩⟩⟩ <;> constructor <;>
    intro h <;> simp_all [be_u32p] <;> omega

theorem isFixed_be_u48 :
    IsFixed be_u48 6
      (fun b => b.getD 0 0 * 1099511627776 + b.getD 1 0 * 4294967296 +
                b.getD 2 0 * 16777216 + b.getD 3 0 * 65536 +
                b.getD 4 0 * 256 + b.getD 5 0) := by
  intro i
  rcases i with _ | ⟨b0, _ | ⟨b1, _ | ⟨b2, _ | ⟨b3, _ | ⟨b4, _ | ⟨b5, t⟩⟩⟩⟩⟩⟩ <;>
    constructor <;> intro h <;> simp_all [be_u48] <;> omega

theorem isFixed_be_u64 :
    IsFixed be_u64p 8
      (fun b => b.getD 0 0 * 72057594037927936 + b.getD 1 0 * 281474976710656 +
                b.getD 2 0 * 1099511627776 + b.getD 3 0 * 4294967296 +
                b.getD 4 0 * 16777216 + b.getD 5 0 * 65536 +
                b.getD 6 0 * 256 + b.getD 7 0) := by
  intro i
  rcases i with
    _ | ⟨b0, _ | ⟨b1, _ | ⟨b2, _ | ⟨b3, _ | ⟨b4, _ | ⟨b5, _ | ⟨b6, _ | ⟨b7, t⟩⟩⟩⟩⟩⟩⟩⟩ <;>
    constructor <;> intro h <;> simp_all [be_u64p] <;> omega

theorem pf_be_u8 : PFacts be_u8p 1 1 := PFacts.ofFixed isFixed_be_u8
theorem pf_be_u16 : PFacts be_u16p 2 2 := PFacts.ofFixed isFixed_be_u16
theorem pf_be_u32 : PFacts be_u32p 4 4 := PFacts.ofFixed isFixed_be_u32
theorem pf_be_u48 : PFacts be_u48 6 6 := PFacts.ofFixed isFixed_be_u48
theorem pf_be_u64 : PFacts be_u64p 8 8 := PFacts.ofFixed isFixed_be_u64

theorem pf_altC {α : Type} (t : List (Byte × α)) : PFacts (altC t) 1 1 := by
  refine ⟨?_, ?_, ?_, ?_, ?_⟩
  · intro i r v h
    rcases i with _ | ⟨b, rest⟩
    · exact absurd h (by simp [altC])
    · refine ⟨1, le_refl 1, le_refl 1, by simp, ?_⟩
      simp only [altC] at h
      cases hl : lookupB t b with
      | none => rw [hl] at h; simp at h
      | some v1 => rw [hl] at h; simp at h; simp [h.1]
  · intro i h
    rcases i with _ | ⟨b, rest⟩
    · simp
    · simp only [altC] at h
      cases hl : lookupB t b with
      | none => rw [hl] at h; exact absurd h (by simp [NeedsMore])
      | some v1 => rw [hl] at h; exact absurd h (by simp [NeedsMore])
  · intro i u r v h
    rcases i with _ | ⟨b, rest⟩
    · exact absurd h (by simp [altC])
    · simp only [altC] at h ⊢
      cases hl : lookupB t b with
      | none => rw [hl] at h; simp at h
      | some v1 =>
          rw [hl] at h
          simp at h
          simp [hl, h.1, h.2]
  · intro i u r k hk h
    rcases i with _ | ⟨b, rest⟩
    · exact absurd h (by simp [altC])
    · simp only [altC] at h ⊢
      cases hl : lookupB t b with
      | none =>
          rw [hl] at h
          simp at h
          obtain ⟨h1, h2⟩ := h
          subst h1
          subst h2
          simp [hl]
      | some v1 => rw [hl] at h; simp at h
  · intro i u h
    rcases i with _ | ⟨b, rest⟩
    · exact absurd h (by simp [altC])
    · simp only [altC] at h
      cases hl : lookupB t b with
      | none => rw [hl] at h; simp at h
      | some v1 => rw [hl] at h; simp at h

theorem pf_issue_classification : PFacts parse_issue_classification 1 1 := by
  refine ⟨?_, ?_, ?_, ?_, ?_⟩
  · intro i r v h
    rcases i with _ | ⟨b, rest⟩
    · exact absurd h (by simp [parse_issue_classification])
    · refine ⟨1, le_refl 1, le_refl 1, by simp, ?_⟩
      simp only [parse_issue_classification] at h
      cases hl : lookupB issueClassificationTable b with
      | none => rw [hl] at h; simp at h
      | some v1 => rw [hl] at h; simp at h; simp [h.1]
  · intro i h
    rcases i with _ | ⟨b, rest⟩
    · simp
    · simp only [parse_issue_classification] at h
      cases hl : lookupB issueClassificationTable b with
      | none => rw [hl] at h; exact absurd h (by simp [NeedsMore])
      | some v1 => rw [hl] at h; exact absurd h (by simp [NeedsMore])
  · intro i u r v h
    rcases i with _ | ⟨b, rest⟩
    · exact absurd h (by simp [parse_issue_classification])
    · simp only [parse_issue_classification] at h ⊢
      cases hl : lookupB issueClassificationTable b with
      | none => rw [hl] at h; simp at h
      | some v1 =>
          rw [hl] at h
          simp at h
          simp [hl, h.1, h.2]
  · intro i u r k hk h
    rcases i with _ | ⟨b, rest⟩
    · simp only [parse_issue_classification] at h
      simp at h
      exact absurd h.2.symm hk
    · simp only [parse_issue_classification] at h ⊢
      cases hl : lookupB issueClassificationTable b with
      | none =>
          rw [hl] at h
          simp at h
          obtain ⟨h1, h2⟩ := h
          subst h1
          subst h2
          simp [hl]
      | some v1 => rw [hl] at h; simp at h
  · intro i u h
    rcases i with _ | ⟨b, rest⟩
    · exact absurd h (by simp [parse_issue_classification])
    · simp only [parse_issue_classification] at h
      cases hl : lookupB issueClassificationTable b with
      | none => rw [hl] at h; simp at h
      | some v1 => rw [hl] at h; simp at h

theorem pf_issue_subtype : PFacts parse_issue_subtype 2 2 := by
  refine ⟨?_, ?_, ?_, ?_, ?_⟩
  · intro i r v h
    rcases i with _ | ⟨b1, _ | ⟨b2, rest⟩⟩
    · exact absurd h (by simp [parse_issue_subtype])
    · exact absurd h (by simp [parse_issue_subtype])
    · refine ⟨2, le_refl 2, le_refl 2, by simp, ?_⟩
      simp only [parse_issue_subtype] at h
      cases hl : lookup2 issueSubTypeTable b1 b2 with
      | none => rw [hl] at h; simp at h
      | some v1 => rw [hl] at h; simp at h; simp [h.1]
  · intro i h
    rcases i with _ | ⟨b1, _ | ⟨b2, rest⟩⟩
    · simp
    · simp
    · simp only [parse_issue_subtype] at h
      cases hl : lookup2 issueSubTypeTable b1 b2 with
      | none => rw [hl] at h; exact absurd h (by simp [NeedsMore])
      | some v1 => rw [hl] at h; exact absurd h (by simp [NeedsMore])
  · intro i u r v h
    rcases i with _ | ⟨b1, _ | ⟨b2, rest⟩⟩
    · exact absurd h (by simp [parse_issue_subtype])
    · exact absurd h (by simp [parse_issue_subtype])
    · simp only [parse_issue_subtype] at h ⊢
      cases hl : lookup2 issueSubTypeTable b1 b2 with
      | none => rw [hl] at h; simp at h
      | some v1 =>
          rw [hl] at h
          simp at h
          simp [hl, h.1, h.2]
  · intro i u r k hk h
    rcases i with _ | ⟨b1, _ | ⟨b2, rest⟩⟩
    · exact absurd h (by simp [parse_issue_subtype])
    · exact absurd h (by simp [parse_issue_subtype])
    · simp only [parse_issue_subtype] at h ⊢
      cases hl : lookup2 issueSubTypeTable b1 b2 with
      | none =>
          rw [hl] at h
          simp at h
          obtain ⟨h1, h2⟩ := h
          subst h1
          subst h2
          simp [hl]
      | some v1 => rw [hl] at h; simp at h
  · intro i u h
    rcases i with _ | ⟨b1, _ | ⟨b2, rest⟩⟩
    · exact absurd h (by simp [parse_issue_subtype])
    · exact absurd h (by simp [parse_issue_subtype])
    · simp only [parse_issue_subtype] at h
      cases hl : lookup2 issueSubTypeTable b1 b2 with
      | none => rw [hl] at h; simp at h
      | some v1 => rw [hl] at h; simp at h

/-- Shared facts for the two fixed-width UTF-8-checked text parsers. -/
theorem pf_takeStr {p : Parsr ByteStr} {N : Nat} (hN : 0 < N)
    (hdef : ∀ i, p i =
      if i.length < N then .incomplete (N - i.length)
      else if utf8Valid (i.take N) then .ok (i.drop N) (i.take N)
      else .crash) :
    PFacts p N N := by
  refine ⟨?_, ?_, ?_, ?_, ?_⟩
  · intro i r v h
    rw [hdef] at h
    split at h
    · exact absurd h (by simp)
    · split at h
      · simp at h
        exact ⟨N, le_refl N, le_refl N, by omega, h.1.symm⟩
      · exact absurd h (by simp)
  · intro i h
    rw [hdef] at h
    split at h
    · omega
    · split at h <;> exact absurd h (by simp [NeedsMore])
  · intro i u r v h
    rw [hdef] at h
    rw [hdef]
    split at h
    · exact absurd h (by simp)
    · split at h
      · simp at h
        have hlen : N ≤ i.length := by omega
        rw [if_neg (by simp; omega),
            List.take_append_of_le_length hlen, if_pos (by assumption),
            List.drop_append_of_le_length hlen, h.1, h.2]
      · exact absurd h (by simp)
  · intro i u r k hk h
    rw [hdef] at h
    split at h
    · exact absurd h (by simp)
    · split at h <;> exact absurd h (by simp)
  · intro i u h
    rw [hdef] at h
    rw [hdef]
    split at h
    · exact absurd h (by simp)
    · split at h
      · exact absurd h (by simp)
      · have hlen : N ≤ i.length := by omega
        rw [if_neg (by simp; omega), List.take_append_of_le_length hlen,
            if_neg (by assumption)]

theorem pf_stock : PFacts stock 8 8 :=
  pf_takeStr (by omega) (fun i => rfl)

theorem pf_take4str : PFacts take4str 4 4 :=
  pf_takeStr (by omega) (fun i => rfl)

theorem pf_crash {α : Type} (lo hi : Nat) :
    PFacts (fun _ => (.crash : PResult α)) lo hi := by
  refine ⟨?_, ?_, ?_, ?_, ?_⟩ <;> intro i <;> simp [NeedsMore]

theorem pf_system_event : PFacts parse_system_event 1 1 := by
  suffices h : PFacts parse_system_event (1 + 0) (1 + 0) by
    exact h.mono (by norm_num) (by norm_num)
  unfold parse_system_event
  exact PFacts.bindP (pf_altC _) fun _ => PFacts.pureP _

theorem pf_stock_directory : PFacts parse_stock_directory 28 28 := by
  suffices h : PFacts parse_stock_directory
      (8+(1+(1+(4+(1+(1+(2+(1+(1+(1+(1+(1+(4+(1+0))))))))))))))
      (8+(1+(1+(4+(1+(1+(2+(1+(1+(1+(1+(1+(4+(1+0)))))))))))))) by
    exact h.mono (by norm_num) (by norm_num)
  unfold parse_stock_directory
  refine PFacts.bindP pf_stock fun _ => ?_
  refine PFacts.bindP (pf_altC _) fun _ => ?_
  refine PFacts.bindP (pf_altC _) fun _ => ?_
  refine PFacts.bindP pf_be_u32 fun _ => ?_
  refine PFacts.bindP (pf_altC _) fun _ => ?_
  refine PFacts.bindP pf_issue_classification fun _ => ?_
  refine PFacts.bindP pf_issue_subtype fun _ => ?_
  refine PFacts.bindP (pf_altC _) fun _ => ?_
  refine PFacts.bindP (pf_altC _) fun _ => ?_
  refine PFacts.bindP (pf_altC _) fun _ => ?_
  refine PFacts.bindP (pf_altC _) fun _ => ?_
  refine PFacts.bindP (pf_altC _) fun _ => ?_
  refine PFacts.bindP pf_be_u32 fun _ => ?_
  refine PFacts.bindP (pf_altC _) fun _ => ?_
  exact PFacts.pureP _

theorem pf_participant_position : PFacts parse_participant_position 15 15 := by
  suffices h : PFacts parse_participant_position
      (4+(8+(1+(1+(1+0))))) (4+(8+(1+(1+(1+0))))) by
    exact h.mono (by norm_num) (by norm_num)
  unfold parse_participant_position
  refine PFacts.bindP pf_take4str fun _ => ?_
  refine PFacts.bindP pf_stock fun _ => ?_
  refine PFacts.bindP (pf_altC _) fun _ => ?_
  refine PFacts.bindP (pf_altC _) fun _ => ?_
  exact PFacts.bindP (pf_altC _) fun _ => PFacts.pureP _

theorem pf_reg_sho : PFacts parse_reg_sho_restriction 9 9 := by
  suffices h : PFacts parse_reg_sho_restriction (8+(1+0)) (8+(1+0)) by
    exact h.mono (by norm_num) (by norm_num)
  unfold parse_reg_sho_restriction
  refine PFacts.bindP pf_stock fun _ => ?_
  exact PFacts.bindP (pf_altC _) fun _ => PFacts.pureP _

theorem pf_trading_action : PFacts parse_trading_action 14 14 := by
  suffices h : PFacts parse_trading_action
      (8+(1+(1+(4+0)))) (8+(1+(1+(4+0)))) by
    exact h.mono (by norm_num) (by norm_num)
  unfold parse_trading_action
  refine PFacts.bindP pf_stock fun _ => ?_
  refine PFacts.bindP (pf_altC _) fun _ => ?_
  refine PFacts.bindP pf_be_u8 fun _ => ?_
  exact PFacts.bindP pf_take4str fun _ => PFacts.pureP _

theorem pf_add_order_false : PFacts (parse_add_order false) 25 25 := by
  suffices h : PFacts (parse_add_order false)
      (8+(1+(4+(8+(4+(0+0)))))) (8+(1+(4+(8+(4+(0+0)))))) by
    exact h.mono (by norm_num) (by norm_num)
  unfold parse_add_order
  refine PFacts.bindP pf_be_u64 fun _ => ?_
  refine PFacts.bindP (pf_altC _) fun _ => ?_
  refine PFacts.bindP pf_be_u32 fun _ => ?_
  refine PFacts.bindP pf_stock fun _ => ?_
  refine PFacts.bindP pf_be_u32 fun _ => ?_
  exact PFacts.bindP (PFacts.pureP _) fun _ => PFacts.pureP _

theorem pf_add_order_true : PFacts (parse_add_order true) 29 29 := by
  suffices h : PFacts (parse_add_order true)
      (8+(1+(4+(8+(4+(4+(0+0))))))) (8+(1+(4+(8+(4+(4+(0+0))))))) by
    exact h.mono (by norm_num) (by norm_num)
  unfold parse_add_order
  refine PFacts.bindP pf_be_u64 fun _ => ?_
  refine PFacts.bindP (pf_altC _) fun _ => ?_
  refine PFacts.bindP pf_be_u32 fun _ => ?_
  refine PFacts.bindP pf_stock fun _ => ?_
  refine PFacts.bindP pf_be_u32 fun _ => ?_
  refine PFacts.bindP pf_take4str fun _ => ?_
  exact PFacts.bindP (PFacts.pureP _) fun _ => PFacts.pureP _

theorem pf_replace_order : PFacts parse_replace_order 24 24 := by
  suffices h : PFacts parse_replace_order
      (8+(8+(4+(4+0)))) (8+(8+(4+(4+0)))) by
    exact h.mono (by norm_num) (by norm_num)
  unfold parse_replace_order
  refine PFacts.bindP pf_be_u64 fun _ => ?_
  refine PFacts.bindP pf_be_u64 fun _ => ?_
  refine PFacts.bindP pf_be_u32 fun _ => ?_
  exact PFacts.bindP pf_be_u32 fun _ => PFacts.pureP _

theorem pf_imbalance : PFacts parse_imbalance_indicator 39 39 := by
  suffices h : PFacts parse_imbalance_indicator
      (8+(8+(1+(8+(4+(4+(4+(1+(1+0)))))))))
      (8+(8+(1+(8+(4+(4+(4+(1+(1+0))))))))) by
    exact h.mono (by norm_num) (by norm_num)
  unfold parse_imbalance_indicator
  refine PFacts.bindP pf_be_u64 fun _ => ?_
  refine PFacts.bindP pf_be_u64 fun _ => ?_
  refine PFacts.bindP (pf_altC _) fun _ => ?_
  refine PFacts.bindP pf_stock fun _ => ?_
  refine PFacts.bindP pf_be_u32 fun _ => ?_
  refine PFacts.bindP pf_be_u32 fun _ => ?_
  refine PFacts.bindP pf_be_u32 fun _ => ?_
  refine PFacts.bindP (pf_altC _) fun _ => ?_
  exact PFacts.bindP pf_be_u8 fun _ => PFacts.pureP _

theorem pf_cross_trade : PFacts parse_cross_trade 29 29 := by
  suffices h : PFacts parse_cross_trade
      (8+(8+(4+(8+(1+0))))) (8+(8+(4+(8+(1+0))))) by
    exact h.mono (by norm_num) (by norm_num)
  unfold parse_cross_trade
  refine PFacts.bindP pf_be_u64 fun _ => ?_
  refine PFacts.bindP pf_stock fun _ => ?_
  refine PFacts.bindP pf_be_u32 fun _ => ?_
  refine PFacts.bindP pf_be_u64 fun _ => ?_
  exact PFacts.bindP (pf_altC _) fun _ => PFacts.pureP _

theorem pf_rpii : PFacts parse_retail_price_improvement_indicator 9 9 := by
  suffices h : PFacts parse_retail_price_improvement_indicator
      (8+(1+0)) (8+(1+0)) by
    exact h.mono (by norm_num) (by norm_num)
  unfold parse_retail_price_improvement_indicator
  refine PFacts.bindP pf_stock fun _ => ?_
  exact PFacts.bindP (pf_altC _) fun _ => PFacts.pureP _

theorem pf_noncross_trade : PFacts parse_noncross_trade 33 33 := by
  suffices h : PFacts parse_noncross_trade
      (8+(1+(4+(8+(4+(8+0)))))) (8+(1+(4+(8+(4+(8+0)))))) by
    exact h.mono (by norm_num) (by norm_num)
  unfold parse_noncross_trade
  refine PFacts.bindP pf_be_u64 fun _ => ?_
  refine PFacts.bindP (pf_altC _) fun _ => ?_
  refine PFacts.bindP pf_be_u32 fun _ => ?_
  refine PFacts.bindP pf_stock fun _ => ?_
  refine PFacts.bindP pf_be_u32 fun _ => ?_
  exact PFacts.bindP pf_be_u64 fun _ => PFacts.pureP _

theorem pf_ipo_quoting_period : PFacts parse_ipo_quoting_period 17 17 := by
  suffices h : PFacts parse_ipo_quoting_period
      (8+(4+(1+(4+0)))) (8+(4+(1+(4+0)))) by
    exact h.mono (by norm_num) (by norm_num)
  unfold parse_ipo_quoting_period
  refine PFacts.bindP pf_stock fun _ => ?_
  refine PFacts.bindP pf_be_u32 fun _ => ?_
  refine PFacts.bindP (pf_altC _) fun _ => ?_
  exact PFacts.bindP pf_be_u32 fun _ => PFacts.pureP _

set_option maxHeartbeats 1000000 in
/-- Every per-tag body parser consumes at most 39 bytes (the imbalance
body) and obeys the structural parser facts; the unreachable-tag branch is
a constant crash. -/
theorem pf_bodyFor (tag : Byte) : PFacts (bodyFor tag) 0 39 := by
  unfold bodyFor
  by_cases h65 : tag = 65
  · rw [if_pos h65]
    exact @PFacts.mono _ _ (25+0) (25+0) 0 39
        (PFacts.bindP pf_add_order_false fun _ => PFacts.pureP _)
        (by norm_num) (by norm_num)
  rw [if_neg h65]
  by_cases h66 : tag = 66
  · rw [if_pos h66]
    exact @PFacts.mono _ _ (8+0) (8+0) 0 39
        (PFacts.bindP pf_be_u64 fun _ => PFacts.pureP _)
        (by norm_num) (by norm_num)
  rw [if_neg h66]
  by_cases h67 : tag = 67
  · rw [if_pos h67]
    exact @PFacts.mono _ _ (8+(4+(8+(1+(4+0))))) (8+(4+(8+(1+(4+0))))) 0 39
        (PFacts.bindP pf_be_u64 fun _ =>
          PFacts.bindP pf_be_u32 fun _ =>
          PFacts.bindP pf_be_u64 fun _ =>
          PFacts.bindP (pf_altC _) fun _ =>
          PFacts.bindP pf_be_u32 fun _ => PFacts.pureP _)
        (by norm_num) (by norm_num)
  rw [if_neg h67]
  by_cases h68 : tag = 68
  · rw [if_pos h68]
    exact @PFacts.mono _ _ (8+0) (8+0) 0 39
        (PFacts.bindP pf_be_u64 fun _ => PFacts.pureP _)
        (by norm_num) (by norm_num)
  rw [if_neg h68]
  by_cases h69 : tag = 69
  · rw [if_pos h69]
    exact @PFacts.mono _ _ (8+(4+(8+0))) (8+(4+(8+0))) 0 39
        (PFacts.bindP pf_be_u64 fun _ =>
          PFacts.bindP pf_be_u32 fun _ =>
          PFacts.bindP pf_be_u64 fun _ => PFacts.pureP _)
        (by norm_num) (by norm_num)
  rw [if_neg h69]
  by_cases h70 : tag = 70
  · rw [if_pos h70]
    exact @PFacts.mono _ _ (29+0) (29+0) 0 39
        (PFacts.bindP pf_add_order_true fun _ => PFacts.pureP _)
        (by norm_num) (by norm_num)
  rw [if_neg h70]
  by_cases h72 : tag = 72
  · rw [if_pos h72]
    exact pf_trading_action.mono (by norm_num) (by norm_num)
  rw [if_neg h72]
  by_cases h73 : tag = 73
  · rw [if_pos h73]
    exact @PFacts.mono _ _ (39+0) (39+0) 0 39
        (PFacts.bindP pf_imbalance fun _ => PFacts.pureP _)
        (by norm_num) (by norm_num)
  rw [if_neg h73]
  by_cases h74 : tag = 74
  · rw [if_pos h74]
    exact @PFacts.mono _ _ (8+(4+(4+(4+(4+0))))) (8+(4+(4+(4+(4+0))))) 0 39
        (PFacts.bindP pf_stock fun _ =>
          PFacts.bindP pf_be_u32 fun _ =>
          PFacts.bindP pf_be_u32 fun _ =>
          PFacts.bindP pf_be_u32 fun _ =>
          PFacts.bindP pf_be_u32 fun _ => PFacts.pureP _)
        (by norm_num) (by norm_num)
  rw [if_neg h74]
  by_cases h75 : tag = 75
  · rw [if_pos h75]
    exact @PFacts.mono _ _ (17+0) (17+0) 0 39
        (PFacts.bindP pf_ipo_quoting_period fun _ => PFacts.pureP _)
        (by norm_num) (by norm_num)
  rw [if_neg h75]
  by_cases h76 : tag = 76
  · rw [if_pos h76]
    exact @PFacts.mono _ _ (15+0) (15+0) 0 39
        (PFacts.bindP pf_participant_position fun _ => PFacts.pureP _)
        (by norm_num) (by norm_num)
  rw [if_neg h76]
  by_cases h78 : tag = 78
  · rw [if_pos h78]
    exact @PFacts.mono _ _ (9+0) (9+0) 0 39
        (PFacts.bindP pf_rpii fun _ => PFacts.pureP _)
        (by norm_num) (by norm_num)
  rw [if_neg h78]
  by_cases h80 : tag = 80
  · rw [if_pos h80]
    exact @PFacts.mono _ _ (33+0) (33+0) 0 39
        (PFacts.bindP pf_noncross_trade fun _ => PFacts.pureP _)
        (by norm_num) (by norm_num)
  rw [if_neg h80]
  by_cases h81 : tag = 81
  · rw [if_pos h81]
    exact @PFacts.mono _ _ (29+0) (29+0) 0 39
        (PFacts.bindP pf_cross_trade fun _ => PFacts.pureP _)
        (by norm_num) (by norm_num)
  rw [if_neg h81]
  by_cases h82 : tag = 82
  · rw [if_pos h82]
    exact @PFacts.mono _ _ (28+0) (28+0) 0 39
        (PFacts.bindP pf_stock_directory fun _ => PFacts.pureP _)
        (by norm_num) (by norm_num)
  rw [if_neg h82]
  by_cases h83 : tag = 83
  · rw [if_pos h83]
    exact pf_system_event.mono (by norm_num) (by norm_num)
  rw [if_neg h83]
  by_cases h85 : tag = 85
  · rw [if_pos h85]
    exact @PFacts.mono _ _ (24+0) (24+0) 0 39
        (PFacts.bindP pf_replace_order fun _ => PFacts.pureP _)
        (by norm_num) (by norm_num)
  rw [if_neg h85]
  by_cases h86 : tag = 86
  · rw [if_pos h86]
    exact @PFacts.mono _ _ (8+(8+(8+0))) (8+(8+(8+0))) 0 39
        (PFacts.bindP pf_be_u64 fun _ =>
          PFacts.bindP pf_be_u64 fun _ =>
          PFacts.bindP pf_be_u64 fun _ => PFacts.pureP _)
        (by norm_num) (by norm_num)
  rw [if_neg h86]
  by_cases h87 : tag = 87
  · rw [if_pos h87]
    exact @PFacts.mono _ _ (1+0) (1+0) 0 39
        (PFacts.bindP (pf_altC _) fun _ => PFacts.pureP _)
        (by norm_num) (by norm_num)
  rw [if_neg h87]
  by_cases h88 : tag = 88
  · rw [if_pos h88]
    exact @PFacts.mono _ _ (8+(4+0)) (8+(4+0)) 0 39
        (PFacts.bindP pf_be_u64 fun _ =>
          PFacts.bindP pf_be_u32 fun _ => PFacts.pureP _)
        (by norm_num) (by norm_num)
  rw [if_neg h88]
  by_cases h89 : tag = 89
  · rw [if_pos h89]
    exact pf_reg_sho.mono (by norm_num) (by norm_num)
  rw [if_neg h89]
  exact pf_crash 0 39

/-- `parse_message` consumes between 13 bytes (the frame overhead on a
tag with an empty body never happens, but the header alone is 13) and 52
bytes (header plus the largest body) and obeys the structural parser
facts. -/
theorem pf_parse_message : PFacts parse_message 13 52 := by
  suffices h : PFacts parse_message
      (2+(1+(2+(2+(6+(0+0)))))) (2+(1+(2+(2+(6+(39+0)))))) by
    exact h.mono (by norm_num) (by norm_num)
  unfold parse_message
  refine PFacts.bindP pf_be_u16 fun _ => ?_
  refine PFacts.bindP pf_be_u8 fun tag => ?_
  refine PFacts.bindP pf_be_u16 fun _ => ?_
  refine PFacts.bindP pf_be_u16 fun _ => ?_
  refine PFacts.bindP pf_be_u48 fun _ => ?_
  exact PFacts.bindP (pf_bodyFor tag) fun _ => PFacts.pureP _

/-! ### Buffer and window lemmas -/

@[simp] theorem setSlice_nil (buf : List Byte) (pos : Nat) :
    setSlice buf pos [] = buf := by
  simp [setSlice]

theorem setSlice_length (buf : List Byte) (pos : Nat) (c : List Byte)
    (h : pos + c.length ≤ buf.length) :
    (setSlice buf pos c).length = buf.length := by
  simp [setSlice]
  omega

theorem setSlice_take (buf : List Byte) (pos : Nat) (c : List Byte)
    (h : pos ≤ buf.length) :
    (setSlice buf pos c).take pos = buf.take pos := by
  unfold setSlice
  rw [List.append_assoc, List.take_append_of_le_length (by simp; omega),
      List.take_take]
  congr 1
  omega

theorem window_length (s : MessageStream) (h1 : s.bufstart ≤ s.bufend)
    (h2 : s.bufend ≤ s.buffer.length) :
    (window s).length = s.bufend - s.bufstart := by
  simp [window]
  omega

/-- Advancing `bufstart` drops a prefix of the window. -/
theorem drop_take_shift (l : List Byte) (bs x be : Nat) (h1 : bs ≤ x) :
    (l.drop x).take (be - x) = ((l.drop bs).take (be - bs)).drop (x - bs) := by
  rw [List.drop_take, List.drop_drop]
  congr 1
  · omega
  · congr 1
    omega

/-- The core list identity behind `window_read`. -/
theorem take_drop_setSlice (buf c : List Byte) (bs be : Nat)
    (h1 : bs ≤ be) (h2 : be + c.length ≤ buf.length) :
    ((buf.take be ++ c ++ buf.drop (be + c.length)).drop bs).take
        (be + c.length - bs)
      = (buf.drop bs).take (be - bs) ++ c := by
  have hbe : (buf.take be).length = be := by simp; omega
  have hA : ((buf.take be).drop bs).length = be - bs := by simp; omega
  calc ((buf.take be ++ c ++ buf.drop (be + c.length)).drop bs).take
        (be + c.length - bs)
      = ((buf.take be).drop bs ++
          (c ++ buf.drop (be + c.length))).take (be + c.length - bs) := by
        rw [List.append_assoc, List.drop_append_of_le_length (by omega)]
    _ = ((buf.take be).drop bs).take (be + c.length - bs) ++
          (c ++ buf.drop (be + c.length)).take
            (be + c.length - bs - ((buf.take be).drop bs).length) := by
        rw [List.take_append_eq_append_take]
    _ = (buf.take be).drop bs ++ (c ++ buf.drop (be + c.length)).take c.length := by
        rw [List.take_of_length_le (by omega), hA]
        congr 2
        omega
    _ = (buf.take be).drop bs ++ c := by
        rw [List.take_append_eq_append_take, List.take_length, Nat.sub_self,
            List.take_zero, List.append_nil]
    _ = (buf.drop bs).take (be - bs) ++ c := by
        rw [List.drop_take]

/-- Reading `c` into the free tail and advancing `bufend` appends `c` to
the unread window. -/
theorem window_read (s : MessageStream) (c : List Byte)
    (hlen : s.buffer.length = BUFSIZE) (h1 : s.bufstart ≤ s.bufend)
    (h2 : s.bufend + c.length ≤ BUFSIZE) :
    window { s with
               buffer := setSlice s.buffer s.bufend c
               bufend := s.bufend + c.length } = window s ++ c := by
  unfold window setSlice
  exact take_drop_setSlice s.buffer c s.bufstart s.bufend h1 (by omega)

/-- Compaction moves the unread window to the front unchanged and keeps
the buffer length. -/
theorem window_compact (s : MessageStream)
    (hlen : s.buffer.length = BUFSIZE) (hbe : s.bufend = BUFSIZE)
    (h1 : s.bufstart ≤ s.bufend) :
    window (compactBuf s) = window s ∧
    (compactBuf s).buffer.length = BUFSIZE ∧
    (compactBuf s).bufstart = 0 ∧
    (compactBuf s).bufend = s.bufend - s.bufstart := by
  have hd : (s.buffer.drop s.bufstart).length = BUFSIZE - s.bufstart := by
    simp [hlen]
  have hwin : window s = s.buffer.drop s.bufstart := by
    unfold window
    rw [hbe, ← hd]
    exact List.take_length _
  refine ⟨?_, ?_, rfl, ?_⟩
  · unfold compactBuf window setSlice
    simp only [List.take_zero, List.nil_append, List.drop_zero, Nat.sub_zero,
      Nat.zero_add]
    rw [hbe, ← hd, List.take_left, List.take_length]
  · unfold compactBuf setSlice
    simp only [List.take_zero, List.nil_append, Nat.zero_add]
    rw [List.length_append, hd]
    simp [hlen]
  · simp [compactBuf]
    omega

/-! ### Fetch characterization -/

/-- The buffer-cursor invariant: fixed buffer size and
`0 ≤ bufstart ≤ bufend ≤ BUFSIZE`. -/
def BInv (s : MessageStream) : Prop :=
  s.buffer.length = BUFSIZE ∧ s.bufstart ≤ s.bufend ∧ s.bufend ≤ BUFSIZE

/-- The state `fetch_more_bytes` reads into: compacted when the buffer is
completely full, unchanged otherwise. -/
def normS (s : MessageStream) : MessageStream :=
  if s.bufend = BUFSIZE then compactBuf s else s

/-- When the unread window is small (as it always is at a refill point,
by `pf_parse_message`), the compaction assertions hold and
`fetch_more_bytes` is exactly a read into the normalized state, which has
the same window, reader and error flag and a strictly free tail. -/
theorem fetch_eq_norm (s : MessageStream) (hB : BInv s)
    (hshort : s.bufend - s.bufstart < 100) :
    fetch_more_bytes s = readInto (normS s) ∧
    window (normS s) = window s ∧
    BInv (normS s) ∧
    (normS s).reader = s.reader ∧
    (normS s).in_error_state = s.in_error_state ∧
    (normS s).bufend - (normS s).bufstart = s.bufend - s.bufstart ∧
    (normS s).bufend < BUFSIZE := by
  obtain ⟨hlen, h1, h2⟩ := hB
  unfold fetch_more_bytes normS
  by_cases hbe : s.bufend = BUFSIZE
  · obtain ⟨hw, hl, hs, he⟩ := window_compact s hlen hbe h1
    rw [if_pos hbe, if_pos hbe,
        if_pos (show BUFSIZE / 2 < s.bufstart ∧ BUFSIZE - s.bufstart < 100 by
          unfold BUFSIZE at hbe h2 ⊢
          omega)]
    refine ⟨rfl, hw, ⟨hl, ?_, ?_⟩, rfl, rfl, ?_, ?_⟩ <;>
      simp [hs, he] <;> unfold BUFSIZE at hbe h2 ⊢ <;> omega
  · rw [if_neg hbe, if_neg hbe]
    exact ⟨rfl, rfl, ⟨hlen, h1, h2⟩, rfl, rfl, rfl, by omega⟩

/-- A read with an exhausted plan returns 0 bytes and leaves the state
unchanged. -/
theorem readInto_nil (s : MessageStream) (h : s.reader.plan = []) :
    readInto s = (.bytes 0, s) := by
  unfold readInto srcRead
  rw [h]
  simp

/-- A read whose head plan step is `emit n`. -/
theorem readInto_emit (s : MessageStream) (n : Nat) (rest : List ReadStep)
    (h : s.reader.plan = .emit n :: rest) :
    readInto s = (.bytes (min n (min (BUFSIZE - s.bufend) s.reader.data.length)),
      { s with
          buffer := setSlice s.buffer s.bufend
            (s.reader.data.take (min n (min (BUFSIZE - s.bufend) s.reader.data.length)))
          reader := ⟨rest, s.reader.data.drop
            (min n (min (BUFSIZE - s.bufend) s.reader.data.length))⟩ }) := by
  unfold readInto srcRead
  rw [h]
  simp

/-- A read whose head plan step is `fail`. -/
theorem readInto_fail (s : MessageStream) (rest : List ReadStep)
    (h : s.reader.plan = .fail :: rest) :
    readInto s = (.readFail, { s with reader := ⟨rest, s.reader.data⟩ }) := by
  unfold readInto srcRead
  rw [h]

/-- The refill-and-retry continuation of `next()`, shared by the
`Incomplete` and `Error(Eof)` branches. -/
def fetchCase (s : MessageStream) : StepOut × MessageStream :=
  match hf : fetch_more_bytes s with
  | (.assertFail, s1) => (.assertFail, s1)
  | (.readFail, s1) =>
      if s1.in_error_state then (.done, s1)
      else (.err .readErr, { s1 with in_error_state := true })
  | (.bytes ct, s1) =>
      if hc : ct = 0 then
        if s1.bufstart = s1.bufend then (.done, s1)
        else if s1.in_error_state then (.done, s1)
        else (.err .unexpectedEof, { s1 with in_error_state := true })
      else nextMsg { s1 with bufend := s1.bufend + ct }

/-- When the stream is not latched and the parse needs more bytes,
`next()` is exactly the refill-and-retry continuation. -/
theorem nextMsg_eq_fetchCase (s : MessageStream)
    (hflag : s.in_error_state = false)
    (hneed : NeedsMore (parse_message (window s))) :
    nextMsg s = fetchCase s := by
  rw [nextMsg]
  cases hp : parse_message (window s) with
  | ok r m => rw [hp] at hneed; exact absurd hneed (by simp [NeedsMore])
  | crash => rw [hp] at hneed; exact absurd hneed (by simp [NeedsMore])
  | incomplete n =>
      simp only [hp]
      rfl
  | error r k =>
      rw [hp] at hneed
      have hk : k = .eof := by
        cases k with
        | eof => rfl
        | char => exact absurd hneed (by simp [NeedsMore])
        | mapOpt => exact absurd hneed (by simp [NeedsMore])
      subst hk
      simp only [hp, hflag]
      rfl

theorem fetchCase_readFail (s s1 : MessageStream)
    (h : fetch_more_bytes s = (.readFail, s1)) :
    fetchCase s = if s1.in_error_state then (.done, s1)
      else (.err .readErr, { s1 with in_error_state := true }) := by
  rw [fetchCase]
  split
  · rename_i s1' heq
    rw [h] at heq
    simp at heq
  · rename_i s1' heq
    rw [h] at heq
    simp at heq
    rw [heq]
  · rename_i ct s1' heq
    rw [h] at heq
    simp at heq

theorem fetchCase_bytes (s : MessageStream) (ct : Nat) (s1 : MessageStream)
    (h : fetch_more_bytes s = (.bytes ct, s1)) :
    fetchCase s =
      if ct = 0 then
        if s1.bufstart = s1.bufend then (.done, s1)
        else if s1.in_error_state then (.done, s1)
        else (.err .unexpectedEof, { s1 with in_error_state := true })
      else nextMsg { s1 with bufend := s1.bufend + ct } := by
  rw [fetchCase]
  split
  · rename_i s1' heq
    rw [h] at heq
    simp at heq
  · rename_i s1' heq
    rw [h] at heq
    simp at heq
  · rename_i ct' s1' heq
    rw [h] at heq
    simp at heq
    rw [heq.1, heq.2, dite_eq_ite]

/-! ### The stream simulation -/

/-- The simulation invariant for honest chunked byte sources: buffer
bounds hold, the stream is not latched, each planned read step allows at
least one byte, and the plan has enough steps to deliver all remaining
data. -/
def StreamInv (s : MessageStream) : Prop :=
  BInv s ∧ s.in_error_state = false ∧
  (∀ st ∈ s.reader.plan, ∃ n, st = ReadStep.emit n ∧ 1 ≤ n) ∧
  s.reader.data.length ≤ s.reader.plan.length

/-- The undecoded part of the logical byte stream: the unread window plus
whatever the source still holds. -/
def remaining (s : MessageStream) : List Byte := window s ++ s.reader.data

/-- Combined effect of a refill through an `emit` plan step: the returned
chunk is a prefix of the source data, and re-adding it to the window (as
`next()` does by bumping `bufend`) extends the window by that prefix. -/
theorem fetch_emit_step (s : MessageStream) (hB : BInv s)
    (h100 : s.bufend - s.bufstart < 100)
    (n' : Nat) (rest : List ReadStep) (hpl : s.reader.plan = .emit n' :: rest) :
    ∃ k s1,
      fetch_more_bytes s = (.bytes k, s1) ∧
      k = min n' (min (BUFSIZE - (normS s).bufend) s.reader.data.length) ∧
      s1.reader = ⟨rest, s.reader.data.drop k⟩ ∧
      s1.in_error_state = s.in_error_state ∧
      s1.bufstart = (normS s).bufstart ∧
      s1.bufend = (normS s).bufend ∧
      window { s1 with bufend := s1.bufend + k } = window s ++ s.reader.data.take k ∧
      BInv { s1 with bufend := s1.bufend + k } := by
  obtain ⟨hfeq, hwinN, hBn, hrdr, hflagN, hdiff, hben⟩ := fetch_eq_norm s hB h100
  obtain ⟨hlenN, hseN, hebN⟩ := hBn
  have hplN : (normS s).reader.plan = .emit n' :: rest := by rw [hrdr, hpl]
  have hread := readInto_emit (normS s) n' rest hplN
  have hdN : (normS s).reader.data = s.reader.data := by rw [hrdr]
  rw [hdN] at hread
  set k := min n' (min (BUFSIZE - (normS s).bufend) s.reader.data.length) with hk
  have hkd : k ≤ s.reader.data.length := by omega
  have hks : (normS s).bufend + k ≤ BUFSIZE := by omega
  have hclen : (s.reader.data.take k).length = k := by
    simp
    omega
  refine ⟨k,
    { normS s with
        buffer := setSlice (normS s).buffer (normS s).bufend (s.reader.data.take k)
        reader := ⟨rest, s.reader.data.drop k⟩ },
    by rw [hfeq, hread], rfl, rfl, hflagN, rfl, rfl, ?_, ?_⟩
  · have hwr := window_read (normS s) (s.reader.data.take k) hlenN hseN
      (by rw [hclen]; exact hks)
    rw [hclen] at hwr
    rw [← hwinN]
    exact hwr
  · refine ⟨?_, ?_, ?_⟩
    · show (setSlice (normS s).buffer (normS s).bufend (s.reader.data.take k)).length
        = BUFSIZE
      rw [setSlice_length _ _ _ (by rw [hclen, hlenN]; exact hks), hlenN]
    · show (normS s).bufstart ≤ (normS s).bufend + k
      omega
    · show (normS s).bufend + k ≤ BUFSIZE
      exact hks

/-- The step correspondence: from a state satisfying the simulation
invariant, one `next()` call either yields the next message of the
canonical decode of the remaining bytes (and re-establishes the
invariant), or terminates in the way the parse result of the remaining
bytes dictates (with a decode failure surfacing as either an error or the
context-slice panic). -/
def StepDisj (s : MessageStream) : Prop :=
  (∃ m s2, nextMsg s = (.msg m, s2) ∧ StreamInv s2 ∧
     parse_message (remaining s) = .ok (remaining s2) m ∧
     (remaining s2).length < (remaining s).length) ∨
  (∃ r k, parse_message (remaining s) = .error r k ∧ k ≠ .eof ∧
     ((∃ ctx s2, nextMsg s = (.err (.parse k ctx), s2)) ∨
      (∃ s2, nextMsg s = (.crash, s2)))) ∨
  (NeedsMore (parse_message (remaining s)) ∧ remaining s ≠ [] ∧
     (∃ s2, nextMsg s = (.err .unexpectedEof, s2))) ∨
  (remaining s = [] ∧ (∃ s2, nextMsg s = (.done, s2))) ∨
  (parse_message (remaining s) = .crash ∧ (∃ s2, nextMsg s = (.crash, s2)))

theorem StepDisj_transfer (s s3 : MessageStream)
    (hout : nextMsg s = nextMsg s3) (hrem : remaining s3 = remaining s)
    (h : StepDisj s3) : StepDisj s := by
  unfold StepDisj
  rw [hout, ← hrem]
  exact h

/-- The refill path of the step correspondence: when the window parse
needs more bytes, `next()` refills (possibly recursively) and ends up
either yielding the next outcome of the remaining bytes or recursing into
a state with the same remaining bytes and a shorter plan. -/
theorem step_needy (N : Nat)
    (IH : ∀ M, M < N → ∀ s1 : MessageStream,
      s1.reader.plan.length = M → StreamInv s1 → StepDisj s1)
    (s : MessageStream) (hN : s.reader.plan.length = N) (hinv : StreamInv s)
    (hneed : NeedsMore (parse_message (window s))) : StepDisj s := by
  obtain ⟨⟨hlen, hse, heb⟩, hflag, hplanOK, hdata⟩ := hinv
  have hwl : (window s).length = s.bufend - s.bufstart :=
    window_length s hse (by rw [hlen]; exact heb)
  have hshort : (window s).length < 52 := pf_parse_message.needy_short _ hneed
  have h100 : s.bufend - s.bufstart < 100 := by omega
  have hrw := nextMsg_eq_fetchCase s hflag hneed
  obtain ⟨hfeq, hwinN, hBn, hrdr, hflagN, hdiff, hben⟩ :=
    fetch_eq_norm s ⟨hlen, hse, heb⟩ h100
  obtain ⟨hlenN, hseN, hebN⟩ := hBn
  have hflagN0 : (normS s).in_error_state = false := by rw [hflagN, hflag]
  cases hpl : s.reader.plan with
  | nil =>
      have hdnil : s.reader.data = [] := by
        rw [hpl] at hdata
        simp at hdata
        exact hdata
      have hfetch : fetch_more_bytes s = (.bytes 0, normS s) := by
        rw [hfeq, readInto_nil _ (by rw [hrdr, hpl])]
      have hfc := fetchCase_bytes s 0 (normS s) hfetch
      rw [if_pos rfl] at hfc
      have hremw : remaining s = window s := by
        rw [remaining, hdnil, List.append_nil]
      by_cases hempty : (normS s).bufstart = (normS s).bufend
      · rw [if_pos hempty] at hfc
        refine Or.inr (Or.inr (Or.inr (Or.inl ⟨?_, normS s, by rw [hrw, hfc]⟩)))
        rw [hremw]
        have hz : (window s).length = 0 := by omega
        exact List.eq_nil_of_length_eq_zero hz
      · rw [if_neg hempty, if_neg (by rw [hflagN0]; simp)] at hfc
        refine Or.inr (Or.inr (Or.inl ⟨?_, ?_, _, by rw [hrw, hfc]⟩))
        · rw [hremw]
          exact hneed
        · rw [hremw]
          intro hw
          have h0 : (window s).length = 0 := by rw [hw]; rfl
          omega
  | cons st rest =>
      obtain ⟨n', hst, hn1⟩ := hplanOK st (by rw [hpl]; exact List.mem_cons_self _ _)
      subst hst
      obtain ⟨k, s1, hfetch, hk, hrdr1, hflag1, hbs1, hbe1, hwin1, hB1⟩ :=
        fetch_emit_step s ⟨hlen, hse, heb⟩ h100 n' rest hpl
      have hfc := fetchCase_bytes s k s1 hfetch
      by_cases hd0 : s.reader.data = []
      · have hk0 : k = 0 := by rw [hk, hd0]; simp
        rw [hk0, if_pos rfl] at hfc
        have hremw : remaining s = window s := by
          rw [remaining, hd0, List.append_nil]
        by_cases hempty : s1.bufstart = s1.bufend
        · rw [if_pos hempty] at hfc
          refine Or.inr (Or.inr (Or.inr (Or.inl ⟨?_, s1, by rw [hrw, hfc]⟩)))
          rw [hremw]
          have hz : (window s).length = 0 := by omega
          exact List.eq_nil_of_length_eq_zero hz
        · rw [if_neg hempty, if_neg (by rw [hflag1, hflag]; simp)] at hfc
          refine Or.inr (Or.inr (Or.inl ⟨?_, ?_, _, by rw [hrw, hfc]⟩))
          · rw [hremw]
            exact hneed
          · rw [hremw]
            intro hw
            have h0 : (window s).length = 0 := by rw [hw]; rfl
            omega
      · have hk1 : 1 ≤ k := by
          rw [hk]
          have h1 : 1 ≤ s.reader.data.length := by
            cases hq : s.reader.data with
            | nil => exact absurd hq hd0
            | cons a b => simp
          omega
        rw [if_neg (by omega)] at hfc
        have hout : nextMsg s = nextMsg { s1 with bufend := s1.bufend + k } := by
          rw [hrw, hfc]
        have hplan3 : ({ s1 with bufend := s1.bufend + k }).reader.plan = rest := by
          show s1.reader.plan = rest
          rw [hrdr1]
        have hdata3 : ({ s1 with bufend := s1.bufend + k }).reader.data
            = s.reader.data.drop k := by
          show s1.reader.data = _
          rw [hrdr1]
        have hinv3 : StreamInv { s1 with bufend := s1.bufend + k } := by
          refine ⟨hB1, ?_, ?_, ?_⟩
          · show s1.in_error_state = false
            rw [hflag1, hflag]
          · rw [hplan3]
            intro st hm
            exact hplanOK st (by rw [hpl]; exact List.mem_cons_of_mem _ hm)
          · rw [hplan3, hdata3]
            have hNval : rest.length + 1 = N := by
              rw [hpl] at hN
              simpa using hN
            simp
            omega
        have hrem3 : remaining { s1 with bufend := s1.bufend + k } = remaining s := by
          rw [remaining, remaining, hwin1, hdata3, List.append_assoc,
              List.take_append_drop]
        exact StepDisj_transfer s _ hout hrem3
          (IH rest.length (by rw [hpl] at hN; simp at hN; omega) _
            (by rw [hplan3]) hinv3)

theorem step_sim_aux : ∀ (N : Nat) (s : MessageStream),
    s.reader.plan.length = N → StreamInv s → StepDisj s := by
  intro N
  induction N using Nat.strong_induction_on with
  | _ N IH =>
  intro s hN hinv
  obtain ⟨⟨hlen, hse, heb⟩, hflag, hplanOK, hdata⟩ := hinv
  have hwl : (window s).length = s.bufend - s.bufstart :=
    window_length s hse (by rw [hlen]; exact heb)
  cases hp : parse_message (window s) with
  | ok r m =>
      obtain ⟨n, hn13, hn52, hnlen, hr⟩ := pf_parse_message.ok_bound _ _ _ hp
      have hrlen : r.length = (window s).length - n := by rw [hr]; simp
      have hnext : nextMsg s = (.msg m,
          { s with bufstart := s.bufend - r.length, in_error_state := false }) := by
        rw [nextMsg, hp]
      have hbx : s.bufstart ≤ s.bufend - r.length := by omega
      have hws2 : window { s with
          bufstart := s.bufend - r.length
          in_error_state := false } = r := by
        show (s.buffer.drop (s.bufend - r.length)).take
            (s.bufend - (s.bufend - r.length)) = r
        rw [drop_take_shift s.buffer s.bufstart (s.bufend - r.length) s.bufend hbx]
        have hx : s.bufend - r.length - s.bufstart = n := by omega
        rw [hx]
        exact hr.symm
      refine Or.inl ⟨m, _, hnext, ?_, ?_, ?_⟩
      · exact ⟨⟨hlen, by show s.bufend - r.length ≤ s.bufend; omega, heb⟩, rfl,
          hplanOK, hdata⟩
      · show parse_message (remaining s) = .ok (remaining _) m
        rw [remaining, remaining, hws2]
        exact pf_parse_message.ok_ext _ _ _ _ hp
      · rw [remaining, remaining, hws2]
        simp only [List.length_append]
        omega
  | error r k =>
      by_cases hke : k = ErrKind.eof
      · subst hke
        exact step_needy N IH s hN
          ⟨⟨hlen, hse, heb⟩, hflag, hplanOK, hdata⟩ (by rw [hp]; trivial)
      · have hspec := pf_parse_message.err_ext _ s.reader.data _ _ hke hp
        refine Or.inr (Or.inl ⟨r ++ s.reader.data, k, ?_, hke, ?_⟩)
        · rw [remaining]
          exact hspec
        · have hnext : nextMsg s = if s.bufstart + 20 ≤ BUFSIZE
              then (.err (.parse k ((s.buffer.drop s.bufstart).take 20)),
                { s with in_error_state := true })
              else (.crash, s) := by
            rw [nextMsg, hp]
            simp [hflag, hke]
          by_cases hctx : s.bufstart + 20 ≤ BUFSIZE
          · exact Or.inl ⟨_, _, by rw [hnext, if_pos hctx]⟩
          · exact Or.inr ⟨_, by rw [hnext, if_neg hctx]⟩
  | incomplete n =>
      exact step_needy N IH s hN
        ⟨⟨hlen, hse, heb⟩, hflag, hplanOK, hdata⟩ (by rw [hp]; trivial)
  | crash =>
      refine Or.inr (Or.inr (Or.inr (Or.inr ⟨?_, s, ?_⟩)))
      · rw [remaining]
        exact pf_parse_message.crash_ext _ _ hp
      · rw [nextMsg, hp]

/-- One `next()` call from an invariant state behaves as the canonical
parse of the remaining bytes dictates. -/
theorem step_sim (s : MessageStream) (hinv : StreamInv s) : StepDisj s :=
  step_sim_aux s.reader.plan.length s rfl hinv

/-- Terminal outcome of the canonical straight-line decode of a byte
sequence. -/
inductive SpecTerm where
  | clean
  | truncated
  | failed (k : ErrKind)
  | crashed
  deriving DecidableEq

/-- The canonical decode: run `parse_message` repeatedly; a success emits
a message and continues on the rest; an `Incomplete` or `Eof`-kind result
on a nonempty suffix is truncation; on the empty suffix it is a clean
end. -/
def specTrace (bytes : List Byte) : List Message × SpecTerm :=
  match h : parse_message bytes with
  | .ok r m =>
      have hdec : r.length < bytes.length := by
        obtain ⟨n, hn13, _, hnlen, hr⟩ := pf_parse_message.ok_bound _ _ _ h
        rw [hr]
        simp
        omega
      let t := specTrace r
      (m :: t.1, t.2)
  | .error _ k => ([], if k = .eof then .truncated else .failed k)
  | .incomplete _ => ([], if bytes.isEmpty then .clean else .truncated)
  | .crash => ([], .crashed)
termination_by bytes.length

theorem specTrace_ok (bytes r : List Byte) (m : Message)
    (h : parse_message bytes = .ok r m) :
    specTrace bytes = (m :: (specTrace r).1, (specTrace r).2) := by
  rw [specTrace]
  split
  · rename_i r' m' heq
    rw [h] at heq
    injection heq with h1 h2
    subst h1
    subst h2
    rfl
  · rename_i r' k' heq
    rw [h] at heq
    simp at heq
  · rename_i n' heq
    rw [h] at heq
    simp at heq
  · rename_i heq
    rw [h] at heq
    simp at heq

theorem specTrace_error (bytes r : List Byte) (k : ErrKind)
    (h : parse_message bytes = .error r k) (hk : k ≠ .eof) :
    specTrace bytes = ([], .failed k) := by
  rw [specTrace]
  split
  · rename_i r' m' heq
    rw [h] at heq
    simp at heq
  · rename_i r' k' heq
    rw [h] at heq
    injection heq with h1 h2
    subst h2
    rw [if_neg hk]
  · rename_i n' heq
    rw [h] at heq
    simp at heq
  · rename_i heq
    rw [h] at heq
    simp at heq

theorem specTrace_needy (bytes : List Byte)
    (h : NeedsMore (parse_message bytes)) (hne : bytes ≠ []) :
    specTrace bytes = ([], .truncated) := by
  rw [specTrace]
  split
  · rename_i r' m' heq
    rw [heq] at h
    exact absurd h (by simp [NeedsMore])
  · rename_i r' k' heq
    rw [heq] at h
    cases k' with
    | eof => rfl
    | char => exact absurd h (by simp [NeedsMore])
    | mapOpt => exact absurd h (by simp [NeedsMore])
  · rename_i n' heq
    rw [if_neg (by simpa using hne)]
  · rename_i heq
    rw [heq] at h
    exact absurd h (by simp [NeedsMore])

theorem specTrace_nil : specTrace [] = ([], .clean) := by
  rw [specTrace]
  split
  · rename_i r' m' heq
    exact absurd heq (by simp [parse_message, be_u16p, bind_def, pbind_eval])
  · rename_i r' k' heq
    exact absurd heq (by simp [parse_message, be_u16p, bind_def, pbind_eval])
  · rfl
  · rename_i heq
    exact absurd heq (by simp [parse_message, be_u16p, bind_def, pbind_eval])

theorem specTrace_crash (bytes : List Byte)
    (h : parse_message bytes = .crash) :
    specTrace bytes = ([], .crashed) := by
  rw [specTrace]
  split
  · rename_i r' m' heq
    rw [h] at heq
    simp at heq
  · rename_i r' k' heq
    rw [h] at heq
    simp at heq
  · rename_i n' heq
    rw [h] at heq
    simp at heq
  · rfl

/-- Terminal outcome of a finite stream run. -/
inductive StreamTerm where
  | cleanT
  | truncatedT
  | failedT (k : ErrKind)
  | readFailT
  | crashedT
  | assertT
  | fuelOut
  deriving DecidableEq

/-- The messages yielded by the iterator until it stops (first non-message
outcome), plus how it stopped, with the given recursion budget. -/
def streamTrace : Nat → MessageStream → List Message × StreamTerm
  | 0, _ => ([], .fuelOut)
  | fuel + 1, s =>
    match nextMsg s with
    | (.msg m, s2) =>
        let t := streamTrace fuel s2
        (m :: t.1, t.2)
    | (.err (.parse k _), _) => ([], .failedT k)
    | (.err .unexpectedEof, _) => ([], .truncatedT)
    | (.err .readErr, _) => ([], .readFailT)
    | (.done, _) => ([], .cleanT)
    | (.crash, _) => ([], .crashedT)
    | (.assertFail, _) => ([], .assertT)

theorem streamTrace_msg (fuel : Nat) (s s2 : MessageStream) (m : Message)
    (h : nextMsg s = (.msg m, s2)) :
    streamTrace (fuel + 1) s
      = (m :: (streamTrace fuel s2).1, (streamTrace fuel s2).2) := by
  simp only [streamTrace, h]

/-- How a terminal outcome of `next()` shows up in the trace. -/
def termOfOut : StepOut → StreamTerm
  | .msg _ => .fuelOut
  | .err (.parse k _) => .failedT k
  | .err .unexpectedEof => .truncatedT
  | .err .readErr => .readFailT
  | .done => .cleanT
  | .crash => .crashedT
  | .assertFail => .assertT

theorem streamTrace_stop (fuel : Nat) (s s2 : MessageStream) (o : StepOut)
    (h : nextMsg s = (o, s2)) (ho : ∀ m, o ≠ .msg m) :
    streamTrace (fuel + 1) s = ([], termOfOut o) := by
  cases o with
  | msg m => exact absurd rfl (ho m)
  | err e =>
      cases e with
      | parse k ctx => simp only [streamTrace, h, termOfOut]
      | unexpectedEof => simp only [streamTrace, h, termOfOut]
      | readErr => simp only [streamTrace, h, termOfOut]
  | done => simp only [streamTrace, h, termOfOut]
  | crash => simp only [streamTrace, h, termOfOut]
  | assertFail => simp only [streamTrace, h, termOfOut]

/-- Relation between the canonical terminal outcome and the stream's: they
agree, except that a decode failure may surface as the context-slice panic
instead of the error value. -/
def TermRel : SpecTerm → StreamTerm → Prop
  | .clean, .cleanT => True
  | .truncated, .truncatedT => True
  | .crashed, .crashedT => True
  | .failed k, .failedT k2 => k = k2
  | .failed _, .crashedT => True
  | _, _ => False

/-- The chunk-invariance simulation: over any honest byte source holding
`remaining s`, the iterator yields exactly the messages of the canonical
decode, and stops in the related terminal state. -/
theorem stream_sim (fuel : Nat) (s : MessageStream) (hinv : StreamInv s)
    (hf : (remaining s).length < fuel) :
    (streamTrace fuel s).1 = (specTrace (remaining s)).1 ∧
    TermRel (specTrace (remaining s)).2 (streamTrace fuel s).2 := by
  induction fuel generalizing s with
  | zero => omega
  | succ fuel IH =>
    rcases step_sim s hinv with
      ⟨m, s2, hnext, hinv2, hspec, hlt⟩ |
      ⟨r, k, hspec, hke, hout⟩ |
      ⟨hneed, hne, s2, hnext⟩ |
      ⟨hrem, s2, hnext⟩ |
      ⟨hspec, s2, hnext⟩
    · rw [streamTrace_msg fuel s s2 m hnext,
         specTrace_ok (remaining s) (remaining s2) m hspec]
      have hrec := IH s2 hinv2 (by omega)
      exact ⟨by rw [hrec.1], hrec.2⟩
    · rw [specTrace_error (remaining s) r k hspec hke]
      rcases hout with ⟨ctx, s2, hnext⟩ | ⟨s2, hnext⟩
      · rw [streamTrace_stop fuel s s2 _ hnext (by intro m h; simp at h)]
        exact ⟨rfl, rfl⟩
      · rw [streamTrace_stop fuel s s2 _ hnext (by intro m h; simp at h)]
        exact ⟨rfl, trivial⟩
    · rw [specTrace_needy (remaining s) hneed hne,
          streamTrace_stop fuel s s2 _ hnext (by intro m h; simp at h)]
      exact ⟨rfl, trivial⟩
    · rw [hrem, specTrace_nil,
          streamTrace_stop fuel s s2 _ hnext (by intro m h; simp at h)]
      exact ⟨rfl, trivial⟩
    · rw [specTrace_crash (remaining s) hspec,
          streamTrace_stop fuel s s2 _ hnext (by intro m h; simp at h)]
      exact ⟨rfl, trivial⟩

theorem nextMsg_incomplete_eq_fetchCase (s : MessageStream) (n : Nat)
    (h : parse_message (window s) = .incomplete n) :
    nextMsg s = fetchCase s := by
  rw [nextMsg, h]
  rfl

/-- Invariant preservation and assert-safety along the refill path,
parameterized by the induction hypothesis on shorter plans. -/
theorem fetchCase_B (N : Nat)
    (IH : ∀ M, M < N → ∀ s1 : MessageStream, s1.reader.plan.length = M →
      BInv s1 → BInv (nextMsg s1).2 ∧ (nextMsg s1).1 ≠ .assertFail)
    (s : MessageStream) (hN : s.reader.plan.length = N) (hB : BInv s)
    (h100 : s.bufend - s.bufstart < 100) :
    BInv (fetchCase s).2 ∧ (fetchCase s).1 ≠ .assertFail := by
  obtain ⟨hfeq, hwinN, hBn, hrdr, hflagN, hdiff, hben⟩ :=
    fetch_eq_norm s hB h100
  obtain ⟨hlenN, hseN, hebN⟩ := hBn
  cases hpl : s.reader.plan with
  | nil =>
      have hfetch : fetch_more_bytes s = (.bytes 0, normS s) := by
        rw [hfeq, readInto_nil _ (by rw [hrdr, hpl])]
      have hfc := fetchCase_bytes s 0 (normS s) hfetch
      rw [if_pos rfl] at hfc
      by_cases hempty : (normS s).bufstart = (normS s).bufend
      · rw [if_pos hempty] at hfc
        rw [hfc]
        exact ⟨⟨hlenN, hseN, hebN⟩, by simp⟩
      · rw [if_neg hempty] at hfc
        by_cases hflg : (normS s).in_error_state
        · rw [if_pos hflg] at hfc
          rw [hfc]
          exact ⟨⟨hlenN, hseN, hebN⟩, by simp⟩
        · rw [if_neg hflg] at hfc
          rw [hfc]
          exact ⟨⟨hlenN, hseN, hebN⟩, by simp⟩
  | cons st rest =>
      cases st with
      | fail =>
          have hfetch : fetch_more_bytes s
              = (.readFail, { normS s with reader := ⟨rest, (normS s).reader.data⟩ }) := by
            rw [hfeq, readInto_fail _ rest (by rw [hrdr, hpl])]
          have hfc := fetchCase_readFail s _ hfetch
          by_cases hflg : ({ normS s with
              reader := (⟨rest, (normS s).reader.data⟩ : Source) }).in_error_state
          · rw [if_pos hflg] at hfc
            rw [hfc]
            exact ⟨⟨hlenN, hseN, hebN⟩, by simp⟩
          · rw [if_neg hflg] at hfc
            rw [hfc]
            exact ⟨⟨hlenN, hseN, hebN⟩, by simp⟩
      | emit n' =>
          obtain ⟨k, s1, hfetch, hk, hrdr1, hflag1, hbs1, hbe1, hwin1, hB1⟩ :=
            fetch_emit_step s hB h100 n' rest hpl
          have hfc := fetchCase_bytes s k s1 hfetch
          by_cases hk0 : k = 0
          · rw [if_pos hk0] at hfc
            have hBs1 : BInv s1 := by
              refine ⟨hB1.1, ?_, ?_⟩
              · have h2 := hB1.2.1
                rw [hk0] at h2
                simpa using h2
              · have h2 := hB1.2.2
                rw [hk0] at h2
                simpa using h2
            by_cases hempty : s1.bufstart = s1.bufend
            · rw [if_pos hempty] at hfc
              rw [hfc]
              exact ⟨hBs1, by simp⟩
            · rw [if_neg hempty] at hfc
              by_cases hflg : s1.in_error_state
              · rw [if_pos hflg] at hfc
                rw [hfc]
                exact ⟨hBs1, by simp⟩
              · rw [if_neg hflg] at hfc
                rw [hfc]
                exact ⟨hBs1, by simp⟩
          · rw [if_neg hk0] at hfc
            rw [hfc]
            refine IH rest.length (by rw [hpl] at hN; simp at hN; omega) _ ?_ hB1
            show s1.reader.plan.length = rest.length
            rw [hrdr1]

/-- Every `next()` call from a state satisfying the buffer invariant
preserves it and never trips the compaction assertions, over any byte
source whatsoever. -/
theorem nextMsg_B_aux : ∀ (N : Nat) (s : MessageStream),
    s.reader.plan.length = N → BInv s →
    BInv (nextMsg s).2 ∧ (nextMsg s).1 ≠ .assertFail := by
  intro N
  induction N using Nat.strong_induction_on with
  | _ N IH =>
  intro s hN hB
  obtain ⟨hlen, hse, heb⟩ := hB
  have hwl : (window s).length = s.bufend - s.bufstart :=
    window_length s hse (by rw [hlen]; exact heb)
  cases hp : parse_message (window s) with
  | ok r m =>
      obtain ⟨n, hn13, hn52, hnlen, hr⟩ := pf_parse_message.ok_bound _ _ _ hp
      have hrlen : r.length = (window s).length - n := by rw [hr]; simp
      have hnext : nextMsg s = (.msg m,
          { s with bufstart := s.bufend - r.length, in_error_state := false }) := by
        rw [nextMsg, hp]
      rw [hnext]
      exact ⟨⟨hlen, by show s.bufend - r.length ≤ s.bufend; omega, heb⟩, by simp⟩
  | crash =>
      have hnext : nextMsg s = (.crash, s) := by rw [nextMsg, hp]
      rw [hnext]
      exact ⟨⟨hlen, hse, heb⟩, by simp⟩
  | error r k =>
      by_cases hfl : s.in_error_state
      · have hnext : nextMsg s = (.done, s) := by
          rw [nextMsg, hp]
          simp [hfl]
        rw [hnext]
        exact ⟨⟨hlen, hse, heb⟩, by simp⟩
      · by_cases hke : k = ErrKind.eof
        · subst hke
          have hneed : NeedsMore (parse_message (window s)) := by rw [hp]; trivial
          have h100 : s.bufend - s.bufstart < 100 := by
            have := pf_parse_message.needy_short _ hneed
            omega
          rw [nextMsg_eq_fetchCase s (by simpa using hfl) hneed]
          exact fetchCase_B N (fun M hM s1 hl hB1 => IH M hM s1 hl hB1) s hN
            ⟨hlen, hse, heb⟩ h100
        · have hnext : nextMsg s = if s.bufstart + 20 ≤ BUFSIZE
              then (.err (.parse k ((s.buffer.drop s.bufstart).take 20)),
                { s with in_error_state := true })
              else (.crash, s) := by
            rw [nextMsg, hp]
            simp [hfl, hke]
          rw [hnext]
          by_cases hctx : s.bufstart + 20 ≤ BUFSIZE
          · rw [if_pos hctx]
            exact ⟨⟨hlen, hse, heb⟩, by simp⟩
          · rw [if_neg hctx]
            exact ⟨⟨hlen, hse, heb⟩, by simp⟩
  | incomplete n =>
      have hneed : NeedsMore (parse_message (window s)) := by rw [hp]; trivial
      have h100 : s.bufend - s.bufstart < 100 := by
        have := pf_parse_message.needy_short _ hneed
        omega
      rw [nextMsg_incomplete_eq_fetchCase s n hp]
      exact fetchCase_B N (fun M hM s1 hl hB1 => IH M hM s1 hl hB1) s hN
        ⟨hlen, hse, heb⟩ h100

/-! ### Error-latch lemmas -/

/-- A stream latched on a decode failure: the flag is set and the (still
unchanged) window parses to a non-`Eof` error.  `next()` returns `None`
without touching the state, so the condition persists forever. -/
def DecodeLatched (s : MessageStream) : Prop :=
  s.in_error_state = true ∧
  ∃ r k, parse_message (window s) = .error r k ∧ k ≠ .eof

theorem decodeLatched_next (s : MessageStream) (h : DecodeLatched s) :
    nextMsg s = (.done, s) := by
  obtain ⟨hflag, r, k, hp, hk⟩ := h
  rw [nextMsg, hp]
  simp [hflag]

/-- A stream latched after truncation (or an I/O error at a refill point)
whose source will never supply another byte. -/
def EofLatched (s : MessageStream) : Prop :=
  BInv s ∧ s.in_error_state = true ∧
  NeedsMore (parse_message (window s)) ∧
  (s.reader.data = [] ∨ s.reader.plan = [])

theorem eofLatched_next (s : MessageStream) (h : EofLatched s) :
    (nextMsg s).1 = .done ∧ EofLatched (nextMsg s).2 := by
  obtain ⟨⟨hlen, hse, heb⟩, hflag, hneed, hsilent⟩ := h
  have hwl : (window s).length = s.bufend - s.bufstart :=
    window_length s hse (by rw [hlen]; exact heb)
  have h100 : s.bufend - s.bufstart < 100 := by
    have := pf_parse_message.needy_short _ hneed
    omega
  obtain ⟨hfeq, hwinN, hBn, hrdr, hflagN, hdiff, hben⟩ :=
    fetch_eq_norm s ⟨hlen, hse, heb⟩ h100
  obtain ⟨hlenN, hseN, hebN⟩ := hBn
  have hflagN1 : (normS s).in_error_state = true := by rw [hflagN, hflag]
  cases hp : parse_message (window s) with
  | ok r m => rw [hp] at hneed; exact absurd hneed (by simp [NeedsMore])
  | crash => rw [hp] at hneed; exact absurd hneed (by simp [NeedsMore])
  | error r k =>
      have hnext : nextMsg s = (.done, s) := by
        rw [nextMsg, hp]
        simp [hflag]
      rw [hnext]
      exact ⟨rfl, ⟨hlen, hse, heb⟩, hflag, hneed, hsilent⟩
  | incomplete n =>
      rw [nextMsg_incomplete_eq_fetchCase s n hp]
      cases hpl : s.reader.plan with
      | nil =>
          have hfetch : fetch_more_bytes s = (.bytes 0, normS s) := by
            rw [hfeq, readInto_nil _ (by rw [hrdr, hpl])]
          have hfc := fetchCase_bytes s 0 (normS s) hfetch
          rw [if_pos rfl] at hfc
          have hEofN : EofLatched (normS s) := by
            refine ⟨⟨hlenN, hseN, hebN⟩, hflagN1, ?_, ?_⟩
            · rw [hwinN, hp]
              trivial
            · rw [hrdr, hpl]
              exact Or.inr rfl
          by_cases hempty : (normS s).bufstart = (normS s).bufend
          · rw [if_pos hempty] at hfc
            rw [hfc]
            exact ⟨rfl, hEofN⟩
          · rw [if_neg hempty, if_pos hflagN1] at hfc
            rw [hfc]
            exact ⟨rfl, hEofN⟩
      | cons st rest =>
          have hdnil : s.reader.data = [] := by
            rcases hsilent with hd | hplnil
            · exact hd
            · rw [hpl] at hplnil
              exact absurd hplnil (by simp)
          cases st with
          | fail =>
              have hfetch : fetch_more_bytes s = (.readFail,
                  { normS s with reader := ⟨rest, (normS s).reader.data⟩ }) := by
                rw [hfeq, readInto_fail _ rest (by rw [hrdr, hpl])]
              have hfc := fetchCase_readFail s _ hfetch
              rw [if_pos (by show (normS s).in_error_state = true; exact hflagN1)] at hfc
              rw [hfc]
              refine ⟨rfl, ⟨hlenN, hseN, hebN⟩, hflagN1, ?_, ?_⟩
              · show NeedsMore (parse_message (window (normS s)))
                rw [hwinN, hp]
                trivial
              · show (normS s).reader.data = [] ∨ rest = []
                rw [hrdr, hdnil]
                exact Or.inl rfl
          | emit n' =>
              obtain ⟨k, s1, hfetch, hk, hrdr1, hflag1, hbs1, hbe1, hwin1, hB1⟩ :=
                fetch_emit_step s ⟨hlen, hse, heb⟩ h100 n' rest hpl
              have hk0 : k = 0 := by rw [hk, hdnil]; simp
              have hfc := fetchCase_bytes s k s1 hfetch
              rw [hk0, if_pos rfl] at hfc
              have hBs1 : BInv s1 := by
                refine ⟨hB1.1, ?_, ?_⟩
                · have h2 := hB1.2.1
                  rw [hk0] at h2
                  simpa using h2
                · have h2 := hB1.2.2
                  rw [hk0] at h2
                  simpa using h2
              have hw1 : window s1 = window s := by
                have hv := hwin1
                rw [hk0] at hv
                simpa using hv
              have hflag1t : s1.in_error_state = true := by rw [hflag1, hflag]
              have hEof1 : EofLatched s1 := by
                refine ⟨hBs1, hflag1t, ?_, ?_⟩
                · rw [hw1, hp]
                  trivial
                · rw [hrdr1, hdnil]
                  exact Or.inl (by simp)
              by_cases hempty : s1.bufstart = s1.bufend
              · rw [if_pos hempty] at hfc
                rw [hfc]
                exact ⟨rfl, hEof1⟩
              · rw [if_neg hempty, if_pos hflag1t] at hfc
                rw [hfc]
                exact ⟨rfl, hEof1⟩

/-- Refill path of `err_parse_latches`, parameterized by the induction
hypothesis on shorter plans. -/
theorem fetchCase_err_parse (N : Nat)
    (IH : ∀ M, M < N → ∀ s1 : MessageStream, s1.reader.plan.length = M →
      BInv s1 → ∀ s2 k ctx, nextMsg s1 = (.err (.parse k ctx), s2) →
      DecodeLatched s2)
    (s : MessageStream) (hN : s.reader.plan.length = N) (hB : BInv s)
    (h100 : s.bufend - s.bufstart < 100) :
    ∀ s2 k ctx, fetchCase s = (.err (.parse k ctx), s2) → DecodeLatched s2 := by
  intro s2 k ctx hout
  obtain ⟨hfeq, hwinN, hBn, hrdr, hflagN, hdiff, hben⟩ :=
    fetch_eq_norm s hB h100
  cases hpl : s.reader.plan with
  | nil =>
      have hfetch : fetch_more_bytes s = (.bytes 0, normS s) := by
        rw [hfeq, readInto_nil _ (by rw [hrdr, hpl])]
      have hfc := fetchCase_bytes s 0 (normS s) hfetch
      rw [if_pos rfl] at hfc
      rw [hfc] at hout
      by_cases hempty : (normS s).bufstart = (normS s).bufend
      · rw [if_pos hempty] at hout
        simp at hout
      · rw [if_neg hempty] at hout
        by_cases hflg : (normS s).in_error_state
        · rw [if_pos hflg] at hout
          simp at hout
        · rw [if_neg hflg] at hout
          simp at hout
  | cons st rest =>
      cases st with
      | fail =>
          have hfetch : fetch_more_bytes s = (.readFail,
              { normS s with reader := ⟨rest, (normS s).reader.data⟩ }) := by
            rw [hfeq, readInto_fail _ rest (by rw [hrdr, hpl])]
          have hfc := fetchCase_readFail s _ hfetch
          rw [hfc] at hout
          by_cases hflg : ({ normS s with
              reader := (⟨rest, (normS s).reader.data⟩ : Source) }).in_error_state
          · rw [if_pos hflg] at hout
            simp at hout
          · rw [if_neg hflg] at hout
            simp at hout
      | emit n' =>
          obtain ⟨kk, s1, hfetch, hk, hrdr1, hflag1, hbs1, hbe1, hwin1, hB1⟩ :=
            fetch_emit_step s hB h100 n' rest hpl
          have hfc := fetchCase_bytes s kk s1 hfetch
          rw [hfc] at hout
          by_cases hk0 : kk = 0
          · rw [if_pos hk0] at hout
            by_cases hempty : s1.bufstart = s1.bufend
            · rw [if_pos hempty] at hout
              simp at hout
            · rw [if_neg hempty] at hout
              by_cases hflg : s1.in_error_state
              · rw [if_pos hflg] at hout
                simp at hout
              · rw [if_neg hflg] at hout
                simp at hout
          · rw [if_neg hk0] at hout
            exact IH rest.length (by rw [hpl] at hN; simp at hN; omega) _
              (by show s1.reader.plan.length = rest.length; rw [hrdr1]) hB1
              s2 k ctx hout

/-- If `next()` ever yields a decode-failure error, the successor state is
decode-latched. -/
theorem err_parse_latches : ∀ (N : Nat) (s : MessageStream),
    s.reader.plan.length = N → BInv s →
    ∀ s2 k ctx, nextMsg s = (.err (.parse k ctx), s2) → DecodeLatched s2 := by
  intro N
  induction N using Nat.strong_induction_on with
  | _ N IH =>
  intro s hN hB s2 k ctx hout
  obtain ⟨hlen, hse, heb⟩ := hB
  have hwl : (window s).length = s.bufend - s.bufstart :=
    window_length s hse (by rw [hlen]; exact heb)
  cases hp : parse_message (window s) with
  | ok r m =>
      rw [nextMsg, hp] at hout
      simp at hout
  | crash =>
      rw [nextMsg, hp] at hout
      simp at hout
  | error r k1 =>
      by_cases hfl : s.in_error_state
      · rw [show nextMsg s = (.done, s) by rw [nextMsg, hp]; simp [hfl]] at hout
        simp at hout
      · by_cases hke : k1 = ErrKind.eof
        · subst hke
          have hneed : NeedsMore (parse_message (window s)) := by rw [hp]; trivial
          have h100 : s.bufend - s.bufstart < 100 := by
            have := pf_parse_message.needy_short _ hneed
            omega
          rw [nextMsg_eq_fetchCase s (by simpa using hfl) hneed] at hout
          exact fetchCase_err_parse N (fun M hM s1 hl hB1 => IH M hM s1 hl hB1)
            s hN ⟨hlen, hse, heb⟩ h100 s2 k ctx hout
        · have hnext : nextMsg s = if s.bufstart + 20 ≤ BUFSIZE
              then (.err (.parse k1 ((s.buffer.drop s.bufstart).take 20)),
                { s with in_error_state := true })
              else (.crash, s) := by
            rw [nextMsg, hp]
            simp [hfl, hke]
          rw [hnext] at hout
          by_cases hctx : s.bufstart + 20 ≤ BUFSIZE
          · rw [if_pos hctx] at hout
            simp at hout
            obtain ⟨⟨hkk, hcc⟩, hs2⟩ := hout
            refine ⟨by rw [← hs2], r, k1, ?_, hke⟩
            have hww : window s2 = window s := by
              rw [← hs2]
              simp [window]
            rw [hww]
            exact hp
          · rw [if_neg hctx] at hout
            simp at hout
  | incomplete n =>
      have hneed : NeedsMore (parse_message (window s)) := by rw [hp]; trivial
      have h100 : s.bufend - s.bufstart < 100 := by
        have := pf_parse_message.needy_short _ hneed
        omega
      rw [nextMsg_incomplete_eq_fetchCase s n hp] at hout
      exact fetchCase_err_parse N (fun M hM s1 hl hB1 => IH M hM s1 hl hB1)
        s hN ⟨hlen, hse, heb⟩ h100 s2 k ctx hout

theorem decodeLatched_run (s : MessageStream) (h : DecodeLatched s) :
    ∀ kk, runStream kk s = List.replicate kk .done := by
  intro kk
  induction kk with
  | zero => rfl
  | succ kk IH =>
      simp only [runStream, decodeLatched_next s h]
      rw [IH]
      rfl

theorem eofLatched_run (s : MessageStream) (h : EofLatched s) :
    ∀ kk, runStream kk s = List.replicate kk .done := by
  intro kk
  induction kk generalizing s with
  | zero => rfl
  | succ kk IH =>
      obtain ⟨h1, h2⟩ := eofLatched_next s h
      simp only [runStream, h1]
      rw [IH _ h2]
      rfl

/-! ### Enumeration table lemmas -/

theorem lookupB_none_iff {α : Type} (t : List (Byte × α)) (b : Byte) :
    lookupB t b = none ↔ b ∉ t.map Prod.fst := by
  induction t with
  | nil => simp [lookupB]
  | cons hd tl IH =>
      obtain ⟨c, v⟩ := hd
      by_cases hbc : b = c
      · simp [lookupB, hbc]
      · simp [lookupB, hbc, IH]

theorem lookup2_none_iff {α : Type} (t : List ((Byte × Byte) × α))
    (b1 b2 : Byte) :
    lookup2 t b1 b2 = none ↔ (b1, b2) ∉ t.map Prod.fst := by
  induction t with
  | nil => simp [lookup2]
  | cons hd tl IH =>
      obtain ⟨⟨c1, c2⟩, v⟩ := hd
      by_cases hbc : b1 = c1 ∧ b2 = c2
      · simp [lookup2, hbc, Prod.ext_iff, hbc.1, hbc.2]
      · simp only [lookup2, if_neg hbc, IH, List.map_cons, List.mem_cons]
        constructor
        · intro h hc
          rcases hc with hc | hc
          · exact hbc (by simpa [Prod.ext_iff] using hc)
          · exact h hc
        · intro h hc
          exact h (Or.inr hc)

theorem altC_ok_iff {α : Type} (t : List (Byte × α)) (b : Byte) (r : List Byte) :
    (∃ v, altC t (b :: r) = .ok r v) ↔ b ∈ t.map Prod.fst := by
  simp only [altC]
  cases hl : lookupB t b with
  | none =>
      simp only [hl]
      constructor
      · intro ⟨v, hv⟩
        exact absurd hv (by simp)
      · intro hmem
        exact absurd ((lookupB_none_iff t b).mp hl) (by simp [hmem])
  | some v =>
      simp only [hl]
      constructor
      · intro _
        by_contra hmem
        rw [(lookupB_none_iff t b).mpr hmem] at hl
        simp at hl
      · intro _
        exact ⟨v, rfl⟩

theorem altC_notin {α : Type} (t : List (Byte × α)) (b : Byte) (r : List Byte)
    (h : b ∉ t.map Prod.fst) : altC t (b :: r) = .error (b :: r) .char := by
  simp only [altC]
  rw [(lookupB_none_iff t b).mpr h]

/-- An enumeration decoder built from a byte table is exhaustive: it
returns a value exactly on table bytes and rejects anything else with a
`char` decode error — no default fallback. -/
def ExhaustiveEnum {α : Type} (t : List (Byte × α)) : Prop :=
  ∀ b r, ((∃ v, altC t (b :: r) = .ok r v) ↔ b ∈ t.map Prod.fst) ∧
    (b ∉ t.map Prod.fst → altC t (b :: r) = .error (b :: r) .char)

theorem exhaustive_altC {α : Type} (t : List (Byte × α)) : ExhaustiveEnum t :=
  fun b r => ⟨altC_ok_iff t b r, altC_notin t b r⟩

/-! ### Claim theorems -/

/-- C7: every enumeration decoder (event code, market category, financial
status, LULD tier, market-maker mode, market-participant state, Reg SHO
action, trading state, side, imbalance direction, both cross-type tables,
IPO release qualifier, level breached, interest flag, issue
classification, issue subtype) yields a symbolic value exactly for bytes
in its table and fails with a decode error on any other byte, with no
fallback; in particular the trading-state byte 90 (`Z`) fails rather than
decoding to `Trading`. -/
theorem c7_enum_decoders_exhaustive :
    ExhaustiveEnum eventCodeTable ∧
    ExhaustiveEnum marketCategoryTable ∧
    ExhaustiveEnum financialStatusTable ∧
    ExhaustiveEnum luldTable ∧
    ExhaustiveEnum marketMakerModeTable ∧
    ExhaustiveEnum marketParticipantStateTable ∧
    ExhaustiveEnum regShoTable ∧
    ExhaustiveEnum tradingStateTable ∧
    ExhaustiveEnum sideTable ∧
    ExhaustiveEnum imbalanceDirectionTable ∧
    ExhaustiveEnum crossTypeTable4 ∧
    ExhaustiveEnum crossTypeTable5 ∧
    ExhaustiveEnum ipoQualifierTable ∧
    ExhaustiveEnum levelBreachedTable ∧
    ExhaustiveEnum interestFlagTable ∧
    (∀ b r, ((∃ v, parse_issue_classification (b :: r) = .ok r v) ↔
        b ∈ issueClassificationTable.map Prod.fst) ∧
      (b ∉ issueClassificationTable.map Prod.fst →
        parse_issue_classification (b :: r) = .error (b :: r) .mapOpt)) ∧
    (∀ b1 b2 r, ((∃ v, parse_issue_subtype (b1 :: b2 :: r) = .ok r v) ↔
        (b1, b2) ∈ issueSubTypeTable.map Prod.fst) ∧
      ((b1, b2) ∉ issueSubTypeTable.map Prod.fst →
        parse_issue_subtype (b1 :: b2 :: r) = .error (b1 :: b2 :: r) .mapOpt)) ∧
    (∀ r, altC tradingStateTable (90 :: r) = .error (90 :: r) .char) := by
  refine ⟨exhaustive_altC _, exhaustive_altC _, exhaustive_altC _,
    exhaustive_altC _, exhaustive_altC _, exhaustive_altC _, exhaustive_altC _,
    exhaustive_altC _, exhaustive_altC _, exhaustive_altC _, exhaustive_altC _,
    exhaustive_altC _, exhaustive_altC _, exhaustive_altC _, exhaustive_altC _,
    ?_, ?_, ?_⟩
  · intro b r
    constructor
    · simp only [parse_issue_classification]
      cases hl : lookupB issueClassificationTable b with
      | none =>
          simp only [hl]
          constructor
          · intro ⟨v, hv⟩
            exact absurd hv (by simp)
          · intro hmem
            exact absurd ((lookupB_none_iff _ b).mp hl) (by simp [hmem])
      | some v =>
          simp only [hl]
          constructor
          · intro _
            by_contra hmem
            rw [(lookupB_none_iff _ b).mpr hmem] at hl
            simp at hl
          · intro _
            exact ⟨v, rfl⟩
    · intro hmem
      simp only [parse_issue_classification]
      rw [(lookupB_none_iff _ b).mpr hmem]
  · intro b1 b2 r
    constructor
    · simp only [parse_issue_subtype]
      cases hl : lookup2 issueSubTypeTable b1 b2 with
      | none =>
          simp only [hl]
          constructor
          · intro ⟨v, hv⟩
            exact absurd hv (by simp)
          · intro hmem
            exact absurd ((lookup2_none_iff _ b1 b2).mp hl) (by simp [hmem])
      | some v =>
          simp only [hl]
          constructor
          · intro _
            by_contra hmem
            rw [(lookup2_none_iff _ b1 b2).mpr hmem] at hl
            simp at hl
          · intro _
            exact ⟨v, rfl⟩
    · intro hmem
      simp only [parse_issue_subtype]
      rw [(lookup2_none_iff _ b1 b2).mpr hmem]
  · intro r
    exact altC_notin _ 90 r (by decide)

/-- Witness for C7: the trading-state byte 90 (`Z`) is rejected with a
decode error, byte 84 (`T`) decodes, and an out-of-table issue subtype
pair is rejected. -/
theorem c7_enum_decoders_exhaustive_witness :
    altC tradingStateTable (90 :: []) = .error (90 :: []) .char ∧
    (∃ v, altC tradingStateTable (84 :: []) = .ok [] v) ∧
    parse_issue_subtype (48 :: 48 :: []) = .error (48 :: 48 :: []) .mapOpt :=
  ⟨c7_enum_decoders_exhaustive.2.2.2.2.2.2.2.2.2.2.2.2.2.2.2.2.2 [],
   ((c7_enum_decoders_exhaustive.2.2.2.2.2.2.2.1 84 []).1).mpr (by decide),
   (c7_enum_decoders_exhaustive.2.2.2.2.2.2.2.2.2.2.2.2.2.2.2.2.1 48 48 []).2
     (by decide)⟩

/-- C9: `Price4` converts to the exact rational `raw / 10000` and
`Price8` to `raw / 100000000`; in particular `Price4 12340001` is
`1234.0001` and `Price8 123400010002` is `1234.00010002`. -/
theorem c9_price_conversion :
    (∀ v : Nat, price4ToDecimal ⟨v⟩ = (v : ℚ) / 10000) ∧
    (∀ v : Nat, price8ToDecimal ⟨v⟩ = (v : ℚ) / 100000000) ∧
    price4ToDecimal ⟨12340001⟩ = (1234.0001 : ℚ) ∧
    price8ToDecimal ⟨123400010002⟩ = (1234.00010002 : ℚ) := by
  refine ⟨fun v => rfl, fun v => rfl, ?_, ?_⟩ <;>
    norm_num [price4ToDecimal, price8ToDecimal]

/-- C10: `parse_message` reads the 2-byte length field but never uses it:
two inputs that differ only in those two bytes give identical results
(same message, same rest, or the same failure). -/
theorem c10_length_prefix_ignored (a b a2 b2 : Byte) (rest : List Byte) :
    parse_message (a :: b :: rest) = parse_message (a2 :: b2 :: rest) := by
  unfold parse_message
  simp only [bind_def, pbind_eval, be_u16p]

/-! ### The declared wire format (spec side)

The definitions in this section are written from the specification's
declared message layout, not from the parser: `encodeMessage` builds the
hand-made wire bytes (2-byte big-endian length prefix holding
1 tag byte + 10 header bytes + body length, then tag, stock locate,
tracking number, 48-bit timestamp and the per-tag body layout), and
`validMessage` states well-formedness of the field values (integer fields
within their wire width, text fields of the right length and valid UTF-8,
the tag matching the body).  The round-trip theorem compares decoding
these bytes with the embedded `parse_message`. -/

def enc16 (v : Nat) : List Byte := [v / 256 % 256, v % 256]

def enc32 (v : Nat) : List Byte :=
  [v / 16777216 % 256, v / 65536 % 256, v / 256 % 256, v % 256]

def enc48 (v : Nat) : List Byte :=
  [v / 1099511627776 % 256, v / 4294967296 % 256, v / 16777216 % 256,
   v / 65536 % 256, v / 256 % 256, v % 256]

def enc64 (v : Nat) : List Byte :=
  [v / 72057594037927936 % 256, v / 281474976710656 % 256,
   v / 1099511627776 % 256, v / 4294967296 % 256,
   v / 16777216 % 256, v / 65536 % 256, v / 256 % 256, v % 256]

def encBool : Bool → Byte
  | true => 89
  | false => 78

def encMaybeBool : Option Bool → Byte
  | some true => 89
  | some false => 78
  | none => 32

def encAuth : Bool → Byte
  | true => 80
  | false => 84

def encEventCode : EventCode → Byte
  | .StartOfMessages => 79
  | .StartOfSystemHours => 83
  | .StartOfMarketHours => 81
  | .EndOfMarketHours => 77
  | .EndOfSystemHours => 69
  | .EndOfMessages => 67

def encMarketCategory : MarketCategory → Byte
  | .NasdaqGlobalSelect => 81
  | .NasdaqGlobalMarket => 71
  | .NasdaqCapitalMarket => 83
  | .Nyse => 78
  | .NyseMkt => 65
  | .NyseArca => 80
  | .BatsZExchange => 90
  | .InvestorsExchange => 86
  | .Unavailable => 32

def encFinancialStatus : FinancialStatus → Byte
  | .Normal => 78
  | .Deficient => 68
  | .Delinquent => 69
  | .Bankrupt => 81
  | .Suspended => 83
  | .DeficientBankrupt => 71
  | .DeficientDelinquent => 72
  | .DelinquentBankrupt => 74
  | .DeficientDelinquentBankrupt => 75
  | .EtpSuspended => 67
  | .Unavailable => 32

def encLuld : LuldRefPriceTier → Byte
  | .Na => 32
  | .Tier1 => 49
  | .Tier2 => 50

def encMMMode : MarketMakerMode → Byte
  | .Normal => 78
  | .Passive => 80
  | .Syndicate => 83
  | .Presyndicate => 82
  | .Penalty => 76

def encMPState : MarketParticipantState → Byte
  | .Active => 65
  | .Excused => 69
  | .Withdrawn => 87
  | .Suspended => 83
  | .Deleted => 68

def encRegSho : RegShoAction → Byte
  | .None => 48
  | .Intraday => 49
  | .Extant => 50

def encTradingState : TradingState → Byte
  | .Halted => 72
  | .Paused => 80
  | .QuotationOnly => 81
  | .Trading => 84

def encSide : Side → Byte
  | .Buy => 66
  | .Sell => 83

def encImbDir : ImbalanceDirection → Byte
  | .Buy => 66
  | .Sell => 83
  | .NoImbalance => 78
  | .InsufficientOrders => 79

def encCrossType : CrossType → Byte
  | .Opening => 79
  | .Closing => 67
  | .IpoOrHalted => 72
  | .Intraday => 73
  | .ExtendedTradingClose => 65

def encIpoQual : IpoReleaseQualifier → Byte
  | .Anticipated => 65
  | .Cancelled => 67

def encLevel : LevelBreached → Byte
  | .L1 => 49
  | .L2 => 50
  | .L3 => 51

def encInterestFlag : InterestFlag → Byte
  | .RPIAvailableBuySide => 66
  | .RPIAvailableSellSide => 83
  | .RPIAvailableBothSides => 65
  | .RPINoneAvailable => 78

def encIssueClassification : IssueClassification → Byte
  | .AmericanDepositaryShare => 65
  | .Bond => 66
  | .CommonStock => 67
  | .DepositoryReceipt => 70
  | .A144 => 73
  | .LimitedPartnership => 76
  | .Notes => 78
  | .OrdinaryShare => 79
  | .PreferredStock => 80
  | .OtherSecurities => 81
  | .Right => 82
  | .SharesOfBeneficialInterest => 83
  | .ConvertibleDebenture => 84
  | .Unit => 85
  | .UnitsPerBenifInt => 86
  | .Warrant => 87

def encIssueSubType : IssueSubType → List Byte
  | .PreferredTrustSecurities => [65, 32]
  | .AlphaIndexETNs => [65, 73]
  | .IndexBasedDerivative => [66, 32]
  | .CommonShares => [67, 32]
  | .CommodityBasedTrustShares => [67, 66]
  | .CommodityFuturesTrustShares => [67, 70]
  | .CommodityLinkedSecurities => [67, 76]
  | .CommodityIndexTrustShares => [67, 77]
  | .CollateralizedMortgageObligation => [67, 79]
  | .CurrencyTrustShares => [67, 84]
  | .CommodityCurrencyLinkedSecurities => [67, 85]
  | .CurrencyWarrants => [67, 87]
  | .GlobalDepositaryShares => [68, 32]
  | .ETFPortfolioDepositaryReceipt => [69, 32]
  | .EquityGoldShares => [69, 71]
  | .ETNEquityIndexLinkedSecurities => [69, 73]
  | .ExchangeTradedManagedFunds => [69, 77]
  | .ExchangeTradedNotes => [69, 78]
  | .EquityUnits => [69, 85]
  | .Holdrs => [70, 32]
  | .ETNFixedIncomeLinkedSecurities => [70, 73]
  | .ETNFuturesLinkedSecurities => [70, 76]
  | .GlobalShares => [71, 32]
  | .ETFIndexFundShares => [73, 32]
  | .InterestRate => [73, 82]
  | .IndexWarrant => [73, 87]
  | .IndexLinkedExchangeableNotes => [73, 88]
  | .CorporateBackedTrustSecurity => [74, 32]
  | .ContingentLitigationRight => [76, 32]
  | .Llc => [76, 76]
  | .EquityBasedDerivative => [77, 32]
  | .ManagedFundShares => [77, 70]
  | .ETNMultiFactorIndexLinkedSecurities => [77, 76]
  | .ManagedTrustSecurities => [77, 84]
  | .NYRegistryShares => [78, 32]
  | .OpenEndedMutualFund => [79, 32]
  | .PrivatelyHeldSecurity => [80, 32]
  | .PoisonPill => [80, 80]
  | .PartnershipUnits => [80, 85]
  | .ClosedEndFunds => [81, 32]
  | .RegS => [82, 32]
  | .CommodityRedeemableCommodityLinkedSecurities => [82, 67]
  | .ETNRedeemableFuturesLinkedSecurities => [82, 70]
  | .REIT => [82, 84]
  | .CommodityRedeemableCurrencyLinkedSecurities => [82, 85]
  | .Seed => [83, 32]
  | .SpotRateClosing => [83, 67]
  | .SpotRateIntraday => [83, 73]
  | .TrackingStock => [84, 32]
  | .TrustCertificates => [84, 67]
  | .TrustUnits => [84, 85]
  | .Portal => [85, 32]
  | .ContingentValueRight => [86, 32]
  | .TrustIssuedReceipts => [87, 32]
  | .WorldCurrencyOption => [87, 67]
  | .Trust => [88, 32]
  | .Other => [89, 32]
  | .NotApplicable => [90, 32]

def encMpid : Option ByteStr → List Byte
  | none => []
  | some s => s

/-- The catalog tag for a body (`A`/`F` distinguished by attribution). -/
def bodyTag : Body → Byte
  | .AddOrder a => match a.mpid with | none => 65 | some _ => 70
  | .Breach _ => 87
  | .BrokenTrade _ => 66
  | .CrossTrade _ => 81
  | .DeleteOrder _ => 68
  | .Imbalance _ => 73
  | .IpoQuotingPeriod _ => 75
  | .LULDAuctionCollar _ _ _ _ _ => 74
  | .MwcbDeclineLevel _ _ _ => 86
  | .NonCrossTrade _ => 80
  | .OrderCancelled _ _ => 88
  | .OrderExecuted _ _ _ => 69
  | .OrderExecutedWithPrice _ _ _ _ _ => 67
  | .ParticipantPosition _ => 76
  | .RegShoRestriction _ _ => 89
  | .ReplaceOrder _ => 85
  | .StockDirectory _ => 82
  | .SystemEvent _ => 83
  | .TradingAction _ _ _ => 72
  | .RetailPriceImprovementIndicator _ => 78

/-- The declared body layout, field by field in wire order (the appends
are grouped to the right, one group per field). -/
def encBody : Body → List Byte
  | .AddOrder a =>
      enc64 a.reference ++ ([encSide a.side] ++ (enc32 a.shares ++ (a.stock ++
      (enc32 a.price.raw ++ encMpid a.mpid))))
  | .Breach l => [encLevel l]
  | .BrokenTrade n => enc64 n
  | .CrossTrade ct =>
      enc64 ct.shares ++ (ct.stock ++ (enc32 ct.cross_price.raw ++
      (enc64 ct.match_number ++ [encCrossType ct.cross_type])))
  | .DeleteOrder n => enc64 n
  | .Imbalance ii =>
      enc64 ii.paired_shares ++ (enc64 ii.imbalance_shares ++
      ([encImbDir ii.imbalance_direction] ++ (ii.stock ++ (enc32 ii.far_price.raw ++
      (enc32 ii.near_price.raw ++ (enc32 ii.current_ref_price.raw ++
      ([encCrossType ii.cross_type] ++ [ii.price_variation_indicator])))))))
  | .IpoQuotingPeriod ipo =>
      ipo.stock ++ (enc32 ipo.release_time ++ ([encIpoQual ipo.release_qualifier] ++
      enc32 ipo.price.raw))
  | .LULDAuctionCollar st p1 p2 p3 ext =>
      st ++ (enc32 p1.raw ++ (enc32 p2.raw ++ (enc32 p3.raw ++ enc32 ext)))
  | .MwcbDeclineLevel l1 l2 l3 => enc64 l1.raw ++ (enc64 l2.raw ++ enc64 l3.raw)
  | .NonCrossTrade t =>
      enc64 t.reference ++ ([encSide t.side] ++ (enc32 t.shares ++ (t.stock ++
      (enc32 t.price.raw ++ enc64 t.match_number))))
  | .OrderCancelled r c => enc64 r ++ enc32 c
  | .OrderExecuted r e mn => enc64 r ++ (enc32 e ++ enc64 mn)
  | .OrderExecutedWithPrice r e mn p pr =>
      enc64 r ++ (enc32 e ++ (enc64 mn ++ ([encBool p] ++ enc32 pr.raw)))
  | .ParticipantPosition mpp =>
      mpp.mpid ++ (mpp.stock ++ ([encBool mpp.primary_market_maker] ++
      ([encMMMode mpp.market_maker_mode] ++
       [encMPState mpp.market_participant_state])))
  | .RegShoRestriction st a => st ++ [encRegSho a]
  | .ReplaceOrder ro =>
      enc64 ro.old_reference ++ (enc64 ro.new_reference ++ (enc32 ro.shares ++
      enc32 ro.price.raw))
  | .StockDirectory sd =>
      sd.stock ++ ([encMarketCategory sd.market_category] ++
      ([encFinancialStatus sd.financial_status] ++ (enc32 sd.round_lot_size ++
      ([encBool sd.round_lots_only] ++
      ([encIssueClassification sd.issue_classification] ++
      (encIssueSubType sd.issue_subtype ++ ([encAuth sd.authenticity] ++
      ([encMaybeBool sd.short_sale_threshold] ++ ([encMaybeBool sd.ipo_flag] ++
      ([encLuld sd.luld_ref_price_tier] ++ ([encMaybeBool sd.etp_flag] ++
      (enc32 sd.etp_leverage_factor ++ [encBool sd.inverse_indicator]))))))))))))
  | .SystemEvent e => [encEventCode e]
  | .TradingAction st ts reason =>
      st ++ ([encTradingState ts] ++ ([32] ++ reason))
  | .RetailPriceImprovementIndicator rpii =>
      rpii.stock ++ [encInterestFlag rpii.interest_flag]

/-- The hand-built frame: length prefix (1 tag + 10 header + body), tag,
stock locate, tracking number, timestamp, body. -/
def encodeMessage (m : Message) : List Byte :=
  enc16 (11 + (encBody m.body).length) ++ ([m.tag] ++ (enc16 m.stock_locate ++
  (enc16 m.tracking_number ++ (enc48 m.timestamp ++ encBody m.body))))

/-- A fixed-width 8-byte text field value. -/
abbrev validStr8 (s : ByteStr) : Prop := s.length = 8 ∧ utf8Valid s = true

/-- A fixed-width 4-byte text field value. -/
abbrev validStr4 (s : ByteStr) : Prop := s.length = 4 ∧ utf8Valid s = true

/-- Well-formedness of the body field values for the declared layout. -/
abbrev validBody : Body → Prop
  | .AddOrder a =>
      a.reference < 18446744073709551616 ∧ a.shares < 4294967296 ∧
      validStr8 a.stock ∧ a.price.raw < 4294967296 ∧
      (match a.mpid with | none => True | some s => validStr4 s)
  | .Breach _ => True
  | .BrokenTrade n => n < 18446744073709551616
  | .CrossTrade ct =>
      ct.shares < 18446744073709551616 ∧ validStr8 ct.stock ∧
      ct.cross_price.raw < 4294967296 ∧ ct.match_number < 18446744073709551616
  | .DeleteOrder n => n < 18446744073709551616
  | .Imbalance ii =>
      ii.paired_shares < 18446744073709551616 ∧
      ii.imbalance_shares < 18446744073709551616 ∧ validStr8 ii.stock ∧
      ii.far_price.raw < 4294967296 ∧ ii.near_price.raw < 4294967296 ∧
      ii.current_ref_price.raw < 4294967296 ∧
      ii.cross_type ≠ CrossType.Intraday ∧ ii.price_variation_indicator < 256
  | .IpoQuotingPeriod ipo =>
      validStr8 ipo.stock ∧ ipo.release_time < 4294967296 ∧
      ipo.price.raw < 4294967296
  | .LULDAuctionCollar st p1 p2 p3 ext =>
      validStr8 st ∧ p1.raw < 4294967296 ∧ p2.raw < 4294967296 ∧
      p3.raw < 4294967296 ∧ ext < 4294967296
  | .MwcbDeclineLevel l1 l2 l3 =>
      l1.raw < 18446744073709551616 ∧ l2.raw < 18446744073709551616 ∧
      l3.raw < 18446744073709551616
  | .NonCrossTrade t =>
      t.reference < 18446744073709551616 ∧ t.shares < 4294967296 ∧
      validStr8 t.stock ∧ t.price.raw < 4294967296 ∧
      t.match_number < 18446744073709551616
  | .OrderCancelled r c => r < 18446744073709551616 ∧ c < 4294967296
  | .OrderExecuted r e mn =>
      r < 18446744073709551616 ∧ e < 4294967296 ∧ mn < 18446744073709551616
  | .OrderExecutedWithPrice r e mn _ pr =>
      r < 18446744073709551616 ∧ e < 4294967296 ∧
      mn < 18446744073709551616 ∧ pr.raw < 4294967296
  | .ParticipantPosition mpp => validStr4 mpp.mpid ∧ validStr8 mpp.stock
  | .RegShoRestriction st _ => validStr8 st
  | .ReplaceOrder ro =>
      ro.old_reference < 18446744073709551616 ∧
      ro.new_reference < 18446744073709551616 ∧ ro.shares < 4294967296 ∧
      ro.price.raw < 4294967296
  | .StockDirectory sd =>
      validStr8 sd.stock ∧ sd.round_lot_size < 4294967296 ∧
      sd.etp_leverage_factor < 4294967296
  | .SystemEvent _ => True
  | .TradingAction st _ reason => validStr8 st ∧ validStr4 reason
  | .RetailPriceImprovementIndicator rpii => validStr8 rpii.stock

/-- Well-formedness of a whole message for the declared wire format. -/
abbrev validMessage (m : Message) : Prop :=
  m.tag = bodyTag m.body ∧ m.stock_locate < 65536 ∧
  m.tracking_number < 65536 ∧ m.timestamp < 281474976710656 ∧
  validBody m.body

/-- `p` decodes exactly `bytes` to `v`, leaving any appended suffix. -/
def Parses {α : Type} (p : Parsr α) (bytes : List Byte) (v : α) : Prop :=
  ∀ r, p (bytes ++ r) = .ok r v

theorem parses_bind {α β : Type} {p : Parsr α} {b1 : List Byte} {v : α}
    {f : α → Parsr β} {b2 : List Byte} {w : β}
    (h1 : Parses p b1 v) (h2 : Parses (f v) b2 w) :
    Parses (pbind p f) (b1 ++ b2) w := by
  intro r
  show pbind p f (b1 ++ b2 ++ r) = .ok r w
  rw [List.append_assoc]
  unfold pbind
  rw [h1 (b2 ++ r)]
  exact h2 r

theorem parses_bind_end {α β : Type} {p : Parsr α} {b1 : List Byte} {v : α}
    {f : α → Parsr β} {w : β}
    (h1 : Parses p b1 v) (h2 : Parses (f v) [] w) :
    Parses (pbind p f) b1 w := by
  have h3 := parses_bind h1 h2
  rwa [List.append_nil] at h3

theorem parses_pure {α : Type} (v : α) : Parses (ppure v) [] v := fun _ => rfl

theorem parses_u8 (v : Nat) : Parses be_u8p [v] v := fun _ => rfl

theorem parses_enc16 (v : Nat) :
    Parses be_u16p (enc16 v) (v / 256 % 256 * 256 + v % 256) := fun _ => rfl

theorem parses_u16 {v : Nat} (h : v < 65536) : Parses be_u16p (enc16 v) v := by
  intro r
  rw [parses_enc16 v r]
  congr 1
  omega

theorem parses_u32 {v : Nat} (h : v < 4294967296) :
    Parses be_u32p (enc32 v) v := by
  intro r
  show PResult.ok r (v / 16777216 % 256 * 16777216 + v / 65536 % 256 * 65536 +
    v / 256 % 256 * 256 + v % 256) = PResult.ok r v
  congr 1
  omega

theorem parses_u48 {v : Nat} (h : v < 281474976710656) :
    Parses be_u48 (enc48 v) v := by
  intro r
  show PResult.ok r (v / 1099511627776 % 256 * 1099511627776 +
    v / 4294967296 % 256 * 4294967296 + v / 16777216 % 256 * 16777216 +
    v / 65536 % 256 * 65536 + v / 256 % 256 * 256 + v % 256) = PResult.ok r v
  congr 1
  omega

theorem parses_u64 {v : Nat} (h : v < 18446744073709551616) :
    Parses be_u64p (enc64 v) v := by
  intro r
  show PResult.ok r (v / 72057594037927936 % 256 * 72057594037927936 +
    v / 281474976710656 % 256 * 281474976710656 +
    v / 1099511627776 % 256 * 1099511627776 +
    v / 4294967296 % 256 * 4294967296 + v / 16777216 % 256 * 16777216 +
    v / 65536 % 256 * 65536 + v / 256 % 256 * 256 + v % 256) = PResult.ok r v
  congr 1
  omega

theorem parses_stock {s : List Byte} (h8 : s.length = 8)
    (hu : utf8Valid s = true) : Parses stock s s := by
  intro r
  unfold stock
  have hlen : (s ++ r).length = 8 + r.length := by rw [List.length_append, h8]
  have ht : (s ++ r).take 8 = s := by rw [← h8]; exact List.take_left s r
  have hd : (s ++ r).drop 8 = r := by rw [← h8]; exact List.drop_left s r
  rw [if_neg (by omega), ht, hd, if_pos hu]

theorem parses_take4str {s : List Byte} (h4 : s.length = 4)
    (hu : utf8Valid s = true) : Parses take4str s s := by
  intro r
  unfold take4str
  have hlen : (s ++ r).length = 4 + r.length := by rw [List.length_append, h4]
  have ht : (s ++ r).take 4 = s := by rw [← h4]; exact List.take_left s r
  have hd : (s ++ r).drop 4 = r := by rw [← h4]; exact List.drop_left s r
  rw [if_neg (by omega), ht, hd, if_pos hu]

theorem parses_encBool (b : Bool) : Parses char2bool [encBool b] b := by
  cases b <;> exact fun _ => rfl

theorem parses_encMaybeBool (o : Option Bool) :
    Parses maybe_char2bool [encMaybeBool o] o := by
  rcases o with _ | b
  · exact fun _ => rfl
  · cases b <;> exact fun _ => rfl

theorem parses_encEtp (o : Option Bool) :
    Parses parse_etp_flag [encMaybeBool o] o := by
  rcases o with _ | b
  · exact fun _ => rfl
  · cases b <;> exact fun _ => rfl

theorem parses_encAuth (b : Bool) :
    Parses (altC [(80, true), (84, false)]) [encAuth b] b := by
  cases b <;> exact fun _ => rfl

theorem parses_encEventCode (e : EventCode) :
    Parses (altC eventCodeTable) [encEventCode e] e := by
  cases e <;> exact fun _ => rfl

theorem parses_encMarketCategory (c : MarketCategory) :
    Parses (altC marketCategoryTable) [encMarketCategory c] c := by
  cases c <;> exact fun _ => rfl

theorem parses_encFinancialStatus (c : FinancialStatus) :
    Parses (altC financialStatusTable) [encFinancialStatus c] c := by
  cases c <;> exact fun _ => rfl

theorem parses_encLuld (c : LuldRefPriceTier) :
    Parses (altC luldTable) [encLuld c] c := by
  cases c <;> exact fun _ => rfl

theorem parses_encMMMode (c : MarketMakerMode) :
    Parses (altC marketMakerModeTable) [encMMMode c] c := by
  cases c <;> exact fun _ => rfl

theorem parses_encMPState (c : MarketParticipantState) :
    Parses (altC marketParticipantStateTable) [encMPState c] c := by
  cases c <;> exact fun _ => rfl

theorem parses_encRegSho (c : RegShoAction) :
    Parses (altC regShoTable) [encRegSho c] c := by
  cases c <;> exact fun _ => rfl

theorem parses_encTradingState (c : TradingState) :
    Parses (altC tradingStateTable) [encTradingState c] c := by
  cases c <;> exact fun _ => rfl

theorem parses_encSide (c : Side) :
    Parses (altC sideTable) [encSide c] c := by
  cases c <;> exact fun _ => rfl

theorem parses_encImbDir (c : ImbalanceDirection) :
    Parses (altC imbalanceDirectionTable) [encImbDir c] c := by
  cases c <;> exact fun _ => rfl

theorem parses_encCrossType5 (c : CrossType) :
    Parses (altC crossTypeTable5) [encCrossType c] c := by
  cases c <;> exact fun _ => rfl

theorem parses_encCrossType4 (c : CrossType) (h : c ≠ CrossType.Intraday) :
    Parses (altC crossTypeTable4) [encCrossType c] c := by
  cases c <;> first
    | exact fun _ => rfl
    | exact absurd rfl h

theorem parses_encIpoQual (c : IpoReleaseQualifier) :
    Parses (altC ipoQualifierTable) [encIpoQual c] c := by
  cases c <;> exact fun _ => rfl

theorem parses_encLevel (c : LevelBreached) :
    Parses (altC levelBreachedTable) [encLevel c] c := by
  cases c <;> exact fun _ => rfl

theorem parses_encInterestFlag (c : InterestFlag) :
    Parses (altC interestFlagTable) [encInterestFlag c] c := by
  cases c <;> exact fun _ => rfl

theorem parses_encIssueClassification (c : IssueClassification) :
    Parses parse_issue_classification [encIssueClassification c] c := by
  cases c <;> exact fun _ => rfl

theorem parses_encIssueSubType (c : IssueSubType) :
    Parses parse_issue_subtype (encIssueSubType c) c := by
  cases c <;> exact fun _ => rfl

/-- Per-tag round trip: the declared body layout decodes back to the body. -/
theorem parses_bodyFor (b : Body) (hv : validBody b) :
    Parses (bodyFor (bodyTag b)) (encBody b) b := by
  cases b with
  | AddOrder a =>
      obtain ⟨ref, sde, sh, st, pr, mp⟩ := a
      cases mp with
      | none =>
          obtain ⟨h1, h2, ⟨h8, hu⟩, h3, -⟩ := hv
          exact parses_bind_end
            (parses_bind (parses_u64 h1)
              (parses_bind (parses_encSide sde)
                (parses_bind (parses_u32 h2)
                  (parses_bind (parses_stock h8 hu)
                    (parses_bind (parses_u32 h3)
                      (parses_bind_end (parses_pure (Option.none : Option ByteStr))
                        (parses_pure _)))))))
            (parses_pure _)
      | some s4 =>
          obtain ⟨h1, h2, ⟨h8, hu⟩, h3, h4, hu4⟩ := hv
          exact parses_bind_end
            (parses_bind (parses_u64 h1)
              (parses_bind (parses_encSide sde)
                (parses_bind (parses_u32 h2)
                  (parses_bind (parses_stock h8 hu)
                    (parses_bind (parses_u32 h3)
                      (parses_bind_end (parses_take4str h4 hu4)
                        (parses_bind_end (parses_pure _) (parses_pure _))))))))
            (parses_pure _)
  | Breach l =>
      exact parses_bind_end (parses_encLevel l) (parses_pure _)
  | BrokenTrade n =>
      exact parses_bind_end (parses_u64 hv) (parses_pure _)
  | CrossTrade ct =>
      obtain ⟨csh, cst, cp, cmn, cct⟩ := ct
      obtain ⟨h1, ⟨h8, hu⟩, h2, h3⟩ := hv
      exact parses_bind_end
        (parses_bind (parses_u64 h1)
          (parses_bind (parses_stock h8 hu)
            (parses_bind (parses_u32 h2)
              (parses_bind (parses_u64 h3)
                (parses_bind_end (parses_encCrossType5 cct) (parses_pure _))))))
        (parses_pure _)
  | DeleteOrder n =>
      exact parses_bind_end (parses_u64 hv) (parses_pure _)
  | Imbalance ii =>
      obtain ⟨ps, ish, idir, st, fp, np, cp, ct, pvi⟩ := ii
      obtain ⟨h1, h2, ⟨h8, hu⟩, h3, h4, h5, hct, h6⟩ := hv
      exact parses_bind_end
        (parses_bind (parses_u64 h1)
          (parses_bind (parses_u64 h2)
            (parses_bind (parses_encImbDir idir)
              (parses_bind (parses_stock h8 hu)
                (parses_bind (parses_u32 h3)
                  (parses_bind (parses_u32 h4)
                    (parses_bind (parses_u32 h5)
                      (parses_bind (parses_encCrossType4 ct hct)
                        (parses_bind_end (parses_u8 pvi) (parses_pure _))))))))))
        (parses_pure _)
  | IpoQuotingPeriod ipo =>
      obtain ⟨st, rt, rq, pr⟩ := ipo
      obtain ⟨⟨h8, hu⟩, h1, h2⟩ := hv
      exact parses_bind_end
        (parses_bind (parses_stock h8 hu)
          (parses_bind (parses_u32 h1)
            (parses_bind (parses_encIpoQual rq)
              (parses_bind_end (parses_u32 h2) (parses_pure _)))))
        (parses_pure _)
  | LULDAuctionCollar st p1 p2 p3 ext =>
      obtain ⟨⟨h8, hu⟩, h1, h2, h3, h4⟩ := hv
      exact parses_bind (parses_stock h8 hu)
        (parses_bind (parses_u32 h1)
          (parses_bind (parses_u32 h2)
            (parses_bind (parses_u32 h3)
              (parses_bind_end (parses_u32 h4) (parses_pure _)))))
  | MwcbDeclineLevel l1 l2 l3 =>
      obtain ⟨v1⟩ := l1
      obtain ⟨v2⟩ := l2
      obtain ⟨v3⟩ := l3
      obtain ⟨h1, h2, h3⟩ := hv
      exact parses_bind (parses_u64 h1)
        (parses_bind (parses_u64 h2)
          (parses_bind_end (parses_u64 h3) (parses_pure _)))
  | NonCrossTrade t =>
      obtain ⟨ref, sde, sh, st, pr, mn⟩ := t
      obtain ⟨h1, h2, ⟨h8, hu⟩, h3, h4⟩ := hv
      exact parses_bind_end
        (parses_bind (parses_u64 h1)
          (parses_bind (parses_encSide sde)
            (parses_bind (parses_u32 h2)
              (parses_bind (parses_stock h8 hu)
                (parses_bind (parses_u32 h3)
                  (parses_bind_end (parses_u64 h4) (parses_pure _)))))))
        (parses_pure _)
  | OrderCancelled r c =>
      obtain ⟨h1, h2⟩ := hv
      exact parses_bind (parses_u64 h1)
        (parses_bind_end (parses_u32 h2) (parses_pure _))
  | OrderExecuted r e mn =>
      obtain ⟨h1, h2, h3⟩ := hv
      exact parses_bind (parses_u64 h1)
        (parses_bind (parses_u32 h2)
          (parses_bind_end (parses_u64 h3) (parses_pure _)))
  | OrderExecutedWithPrice r e mn p pr =>
      obtain ⟨prv⟩ := pr
      obtain ⟨h1, h2, h3, h4⟩ := hv
      exact parses_bind (parses_u64 h1)
        (parses_bind (parses_u32 h2)
          (parses_bind (parses_u64 h3)
            (parses_bind (parses_encBool p)
              (parses_bind_end (parses_u32 h4) (parses_pure _)))))
  | ParticipantPosition mpp =>
      obtain ⟨mp4, st, pmm, mmm, mps⟩ := mpp
      obtain ⟨⟨h4, hu4⟩, h8, hu⟩ := hv
      exact parses_bind_end
        (parses_bind (parses_take4str h4 hu4)
          (parses_bind (parses_stock h8 hu)
            (parses_bind (parses_encBool pmm)
              (parses_bind (parses_encMMMode mmm)
                (parses_bind_end (parses_encMPState mps) (parses_pure _))))))
        (parses_pure _)
  | RegShoRestriction st a =>
      obtain ⟨h8, hu⟩ := hv
      exact parses_bind (parses_stock h8 hu)
        (parses_bind_end (parses_encRegSho a) (parses_pure _))
  | ReplaceOrder ro =>
      obtain ⟨ro1, ro2, rsh, rpr⟩ := ro
      obtain ⟨h1, h2, h3, h4⟩ := hv
      exact parses_bind_end
        (parses_bind (parses_u64 h1)
          (parses_bind (parses_u64 h2)
            (parses_bind (parses_u32 h3)
              (parses_bind_end (parses_u32 h4) (parses_pure _)))))
        (parses_pure _)
  | StockDirectory sd =>
      obtain ⟨st, mc, fs, rls, rlo, ic, ist, auth, sst, ipo, luld, etp, elf, inv⟩ := sd
      obtain ⟨⟨h8, hu⟩, h1, h2⟩ := hv
      exact parses_bind_end
        (parses_bind (parses_stock h8 hu)
          (parses_bind (parses_encMarketCategory mc)
            (parses_bind (parses_encFinancialStatus fs)
              (parses_bind (parses_u32 h1)
                (parses_bind (parses_encBool rlo)
                  (parses_bind (parses_encIssueClassification ic)
                    (parses_bind (parses_encIssueSubType ist)
                      (parses_bind (parses_encAuth auth)
                        (parses_bind (parses_encMaybeBool sst)
                          (parses_bind (parses_encMaybeBool ipo)
                            (parses_bind (parses_encLuld luld)
                              (parses_bind (parses_encEtp etp)
                                (parses_bind (parses_u32 h2)
                                  (parses_bind_end (parses_encBool inv)
                                    (parses_pure _)))))))))))))))
        (parses_pure _)
  | SystemEvent e =>
      exact parses_bind_end (parses_encEventCode e) (parses_pure _)
  | TradingAction st ts reason =>
      obtain ⟨⟨h8, hu⟩, h4, hu4⟩ := hv
      exact parses_bind (parses_stock h8 hu)
        (parses_bind (parses_encTradingState ts)
          (parses_bind (parses_u8 32)
            (parses_bind_end (parses_take4str h4 hu4) (parses_pure _))))
  | RetailPriceImprovementIndicator rpii =>
      obtain ⟨st, f⟩ := rpii
      obtain ⟨h8, hu⟩ := hv
      exact parses_bind_end
        (parses_bind (parses_stock h8 hu)
          (parses_bind_end (parses_encInterestFlag f) (parses_pure _)))
        (parses_pure _)

/-- Whole-frame round trip. -/
theorem parses_message (m : Message) (hv : validMessage m) :
    Parses parse_message (encodeMessage m) m := by
  obtain ⟨htag, hsl, htn, hts, hb⟩ := hv
  have hbody : Parses (bodyFor m.tag) (encBody m.body) m.body := by
    rw [htag]
    exact parses_bodyFor m.body hb
  exact parses_bind (parses_enc16 _)
    (parses_bind (parses_u8 m.tag)
      (parses_bind (parses_u16 hsl)
        (parses_bind (parses_u16 htn)
          (parses_bind (parses_u48 hts)
            (parses_bind_end hbody (parses_pure _))))))

/-! ### A fuel-indexed executable mirror of the iterator

`nextMsg` is defined by well-founded recursion on the plan length, so the
kernel cannot evaluate it on concrete states.  `nextMsgF` is the same
function with an explicit fuel argument and structural recursion; the
equivalence lemma below transfers concrete computations. -/

theorem fetchCase_assert (s s1 : MessageStream)
    (h : fetch_more_bytes s = (.assertFail, s1)) :
    fetchCase s = (.assertFail, s1) := by
  rw [fetchCase]
  split
  · rename_i s1h heq
    rw [h] at heq
    simp at heq
    rw [heq]
  · rename_i s1h heq
    rw [h] at heq
    simp at heq
  · rename_i ct s1h heq
    rw [h] at heq
    simp at heq

/-- The refill-and-retry continuation with the retry abstracted, used to
tie the fuel-indexed mirror to `fetchCase`. -/
def fetchCaseGen (k : MessageStream → StepOut × MessageStream)
    (s : MessageStream) : StepOut × MessageStream :=
  match fetch_more_bytes s with
  | (.assertFail, s1) => (.assertFail, s1)
  | (.readFail, s1) =>
      if s1.in_error_state then (.done, s1)
      else (.err .readErr, { s1 with in_error_state := true })
  | (.bytes ct, s1) =>
      if ct = 0 then
        if s1.bufstart = s1.bufend then (.done, s1)
        else if s1.in_error_state then (.done, s1)
        else (.err .unexpectedEof, { s1 with in_error_state := true })
      else k { s1 with bufend := s1.bufend + ct }

theorem fetchCaseGen_eq (k : MessageStream → StepOut × MessageStream)
    (s : MessageStream)
    (hk : ∀ s1 : MessageStream,
      s1.reader.plan.length < s.reader.plan.length → k s1 = nextMsg s1) :
    fetchCaseGen k s = fetchCase s := by
  rcases hfm : fetch_more_bytes s with ⟨out, s1⟩
  cases out with
  | assertFail =>
      rw [fetchCase_assert s s1 hfm]
      simp only [fetchCaseGen, hfm]
  | readFail =>
      rw [fetchCase_readFail s s1 hfm]
      simp only [fetchCaseGen, hfm]
  | bytes ct =>
      rw [fetchCase_bytes s ct s1 hfm]
      simp only [fetchCaseGen, hfm]
      by_cases hc : ct = 0
      · rw [if_pos hc, if_pos hc]
      · rw [if_neg hc, if_neg hc]
        exact hk _ (fetch_plan_lt s ct s1 hfm hc)

/-- Structural mirror of `nextMsg`.  Out of fuel it returns a value never
produced when the fuel exceeds the plan length (see `nextMsgF_eq`). -/
def nextMsgF : Nat → MessageStream → StepOut × MessageStream
  | 0, s => (.assertFail, s)
  | fuel + 1, s =>
      match parse_message (window s) with
      | .ok r m =>
          (.msg m, { s with bufstart := s.bufend - r.length, in_error_state := false })
      | .error _ k =>
          if s.in_error_state then (.done, s)
          else if k = .eof then fetchCaseGen (nextMsgF fuel) s
          else
            if s.bufstart + 20 ≤ BUFSIZE then
              (.err (.parse k ((s.buffer.drop s.bufstart).take 20)),
               { s with in_error_state := true })
            else (.crash, s)
      | .incomplete _ => fetchCaseGen (nextMsgF fuel) s
      | .crash => (.crash, s)

theorem nextMsgF_eq (fuel : Nat) : ∀ s : MessageStream,
    s.reader.plan.length < fuel → nextMsgF fuel s = nextMsg s := by
  induction fuel with
  | zero => intro s h; exact absurd h (by omega)
  | succ n ih =>
      intro s h
      rw [nextMsg]
      simp only [nextMsgF]
      cases hp : parse_message (window s) with
      | ok r m => simp only [hp]
      | crash => simp only [hp]
      | incomplete m =>
          simp only [hp]
          rw [fetchCaseGen_eq (nextMsgF n) s (fun s1 h1 => ih s1 (by omega))]
          rfl
      | error r k =>
          simp only [hp]
          by_cases hflag : s.in_error_state = true
          · rw [if_pos hflag, if_pos hflag]
          · rw [if_neg hflag, if_neg hflag]
            by_cases hk : k = ErrKind.eof
            · rw [if_pos hk, if_pos hk,
                  fetchCaseGen_eq (nextMsgF n) s (fun s1 h1 => ih s1 (by omega))]
              rfl
            · rw [if_neg hk, if_neg hk]

theorem readInto_plan_le (s : MessageStream) :
    (readInto s).2.reader.plan.length ≤ s.reader.plan.length := by
  unfold readInto srcRead
  cases hp : s.reader.plan with
  | nil => simp [hp]
  | cons st rest =>
      cases st with
      | emit n =>
          simp only [hp]
          simp [hp]
      | fail =>
          simp only [hp]
          simp [hp]

theorem fetch_plan_le (s : MessageStream) :
    (fetch_more_bytes s).2.reader.plan.length ≤ s.reader.plan.length := by
  unfold fetch_more_bytes
  split
  · split
    · exact readInto_plan_le (compactBuf s)
    · simp
  · exact readInto_plan_le s

theorem fetchCase_plan_le (N : Nat)
    (IH : ∀ M, M < N → ∀ s1 : MessageStream, s1.reader.plan.length = M →
      (nextMsg s1).2.reader.plan.length ≤ s1.reader.plan.length)
    (s : MessageStream) (hN : s.reader.plan.length = N) :
    (fetchCase s).2.reader.plan.length ≤ s.reader.plan.length := by
  rcases hfm : fetch_more_bytes s with ⟨out, s1⟩
  have hle : s1.reader.plan.length ≤ s.reader.plan.length := by
    have h2 := fetch_plan_le s
    rw [hfm] at h2
    exact h2
  cases out with
  | assertFail =>
      rw [fetchCase_assert s s1 hfm]
      exact hle
  | readFail =>
      rw [fetchCase_readFail s s1 hfm]
      by_cases hflg : s1.in_error_state = true
      · rw [if_pos hflg]
        exact hle
      · rw [if_neg hflg]
        exact hle
  | bytes ct =>
      rw [fetchCase_bytes s ct s1 hfm]
      by_cases hc : ct = 0
      · rw [if_pos hc]
        by_cases he : s1.bufstart = s1.bufend
        · rw [if_pos he]
          exact hle
        · rw [if_neg he]
          by_cases hflg : s1.in_error_state = true
          · rw [if_pos hflg]
            exact hle
          · rw [if_neg hflg]
            exact hle
      · rw [if_neg hc]
        have hlt : s1.reader.plan.length < s.reader.plan.length :=
          fetch_plan_lt s ct s1 hfm hc
        have h3 := IH s1.reader.plan.length (by omega)
          { s1 with bufend := s1.bufend + ct } rfl
        calc (nextMsg { s1 with bufend := s1.bufend + ct }).2.reader.plan.length
            ≤ s1.reader.plan.length := h3
          _ ≤ s.reader.plan.length := hle

/-- `next()` never grows the plan. -/
theorem nextMsg_plan_le : ∀ (N : Nat) (s : MessageStream),
    s.reader.plan.length = N →
    (nextMsg s).2.reader.plan.length ≤ s.reader.plan.length := by
  intro N
  induction N using Nat.strong_induction_on with
  | _ N IH =>
  intro s hN
  cases hp : parse_message (window s) with
  | ok r m =>
      rw [nextMsg, hp]
  | crash =>
      rw [nextMsg, hp]
  | incomplete n =>
      rw [nextMsg_incomplete_eq_fetchCase s n hp]
      exact fetchCase_plan_le N IH s hN
  | error r k =>
      by_cases hfl : s.in_error_state = true
      · rw [nextMsg, hp]
        simp [hfl]
      · by_cases hke : k = ErrKind.eof
        · subst hke
          rw [nextMsg_eq_fetchCase s (by simpa using hfl) (by rw [hp]; trivial)]
          exact fetchCase_plan_le N IH s hN
        · rw [nextMsg, hp]
          simp only [if_neg hfl, if_neg hke]
          by_cases hctx : s.bufstart + 20 ≤ BUFSIZE
          · rw [if_pos hctx]
          · rw [if_neg hctx]

/-- Structural mirror of `runStream`. -/
def runStreamF (fuel : Nat) : Nat → MessageStream → List StepOut
  | 0, _ => []
  | k + 1, s =>
      let r := nextMsgF fuel s
      r.1 :: runStreamF fuel k r.2

theorem runStreamF_eq (fuel : Nat) : ∀ (k : Nat) (s : MessageStream),
    s.reader.plan.length < fuel → runStreamF fuel k s = runStream k s := by
  intro k
  induction k with
  | zero => intro s h; rfl
  | succ n ih =>
      intro s h
      show (nextMsgF fuel s).1 :: runStreamF fuel n (nextMsgF fuel s).2
        = (nextMsg s).1 :: runStream n (nextMsg s).2
      rw [nextMsgF_eq fuel s h]
      have h2 : (nextMsg s).2.reader.plan.length < fuel := by
        have h3 := nextMsg_plan_le s.reader.plan.length s rfl
        omega
      rw [ih _ h2]

/-- A well-formed 14-byte System Event frame (the one from the crate's
own `test_parse_one_message`). -/
def oneMsgBytes : List Byte :=
  [0x00, 0x0c, 0x53, 0x00, 0x00, 0x00, 0x00, 0x28, 0x6a, 0xab, 0x3b, 0x3a, 0x99, 0x4f]

/-- The message encoded by `oneMsgBytes`. -/
def oneMsgVal : Message :=
  ⟨0x53, 0, 0, 0x286aab3b3a99, Body.SystemEvent EventCode.StartOfMessages⟩

/-- Counterexample to C2 as stated: a byte source whose first read fails
with an I/O error and whose second read delivers a complete frame.  The
stream yields the I/O `Err` and then, on the very next call, a decoded
message — so an `Err` is not necessarily the last output. -/
theorem c2_counterexample :
    runStream 2 (freshStream ⟨[.fail, .emit 14], oneMsgBytes⟩)
      = [.err .readErr, .msg oneMsgVal] := by
  rw [← runStreamF_eq 3 2 (freshStream ⟨[.fail, .emit 14], oneMsgBytes⟩) (by decide)]
  decide

/-- C2 (amended): (1) once the stream yields a decode-failure `Err`, every
subsequent `next()` yields nothing, forever; (2) after any latching (the
flag set with the window still insufficient — the truncation and I/O
cases), every subsequent `next()` yields nothing as long as the source
never supplies another byte.  A source that does supply bytes after a
truncation or I/O error can make the stream resume, as the counterexample
shows. -/
theorem c2_error_latch_amended :
    (∀ (s s2 : MessageStream) (k : ErrKind) (ctx : List Byte) (kk : Nat),
       BInv s → nextMsg s = (.err (.parse k ctx), s2) →
       runStream kk s2 = List.replicate kk .done) ∧
    (∀ (s : MessageStream) (kk : Nat), EofLatched s →
       runStream kk s = List.replicate kk .done) := by
  constructor
  · intro s s2 k ctx kk hB hout
    exact decodeLatched_run s2
      (err_parse_latches s.reader.plan.length s rfl hB s2 k ctx hout) kk
  · intro s kk h
    exact eofLatched_run s h kk

/-- A 14-byte `W` (breach) frame whose body byte 120 is not a valid level
code, followed by six visible bytes. -/
def badWBytes : List Byte :=
  [0, 3, 87, 0, 0, 0, 0, 0, 0, 0, 0, 0, 0, 120]

/-- A latched state whose window holds the bad `W` frame. -/
def c2LatchState : MessageStream :=
  ⟨⟨[], []⟩, badWBytes ++ List.replicate 8178 0, 0, 14, false⟩

/-- A truncation-latched state: flag set, a one-byte window that cannot
complete, exhausted source. -/
def eofLatchState : MessageStream :=
  ⟨⟨[], []⟩, List.replicate 8192 0, 0, 1, true⟩

/-- Witness for the amended C2: from a concrete state whose window parses
to a decode failure, `next()` yields the error and the latched stream then
yields nothing three times; and a concrete truncation-latched state yields
nothing three times. -/
theorem c2_error_latch_amended_witness :
    BInv c2LatchState ∧
    nextMsg c2LatchState = (.err (.parse .char (badWBytes ++ [0, 0, 0, 0, 0, 0])),
      (nextMsg c2LatchState).2) ∧
    runStream 3 (nextMsg c2LatchState).2 = List.replicate 3 .done ∧
    EofLatched eofLatchState ∧
    runStream 3 eofLatchState = List.replicate 3 .done := by
  have hblen : (badWBytes ++ List.replicate 8178 0).length = BUFSIZE := by
    rw [List.length_append, List.length_replicate]
    decide
  have hB : BInv c2LatchState := ⟨hblen, by decide, by decide⟩
  have h1 : (nextMsg c2LatchState).1
      = .err (.parse .char (badWBytes ++ [0, 0, 0, 0, 0, 0])) := by
    rw [← nextMsgF_eq 1 c2LatchState (by decide)]
    decide
  have h2 : nextMsg c2LatchState
      = (.err (.parse .char (badWBytes ++ [0, 0, 0, 0, 0, 0])),
         (nextMsg c2LatchState).2) := by
    rw [← h1]
  have helen : (List.replicate 8192 (0 : Byte)).length = BUFSIZE := by
    rw [List.length_replicate]
    decide
  have hE : EofLatched eofLatchState := by
    refine ⟨⟨helen, by decide, by decide⟩, rfl, ?_, Or.inl rfl⟩
    have hpm : parse_message (window eofLatchState) = .incomplete 1 := by decide
    rw [hpm]
    trivial
  exact ⟨hB, h2, c2_error_latch_amended.1 c2LatchState _ .char _ 3 hB h2,
    hE, c2_error_latch_amended.2 eofLatchState 3 hE⟩

/-- Counterexample to C3 as stated: the same 20 bytes fed in one big read
versus one byte per read yield different outputs — the parse-error
diagnostic embeds 20 buffer bytes, and bytes past the current fill differ
between the two runs. -/
theorem c3_counterexample :
    runStream 2 (freshStream ⟨[.emit BUFSIZE, .emit BUFSIZE],
        badWBytes ++ [1, 2, 3, 4, 5, 6]⟩)
      ≠ runStream 2 (freshStream ⟨List.replicate 20 (.emit 1),
        badWBytes ++ [1, 2, 3, 4, 5, 6]⟩) := by
  rw [← runStreamF_eq 21 2 (freshStream ⟨[.emit BUFSIZE, .emit BUFSIZE],
        badWBytes ++ [1, 2, 3, 4, 5, 6]⟩) (by decide),
      ← runStreamF_eq 21 2 (freshStream ⟨List.replicate 20 (.emit 1),
        badWBytes ++ [1, 2, 3, 4, 5, 6]⟩) (by decide)]
  decide

/-- C3 (amended): feeding the same bytes through any two honest chunk
plans (every read step delivers at least one byte when data remains, and
there are enough steps to drain the data) yields exactly the same decoded
messages, namely those of the canonical straight-line decode, and the two
terminal outcomes both agree with the canonical one — identically for a
clean end, truncation or a parser panic, while a decode failure surfaces
as either the error or the diagnostic context-slice panic, whose
payload (as the counterexample shows) may depend on the chunking. -/
theorem c3_chunking_amended (data : List Byte) (p1 p2 : List ReadStep)
    (f1 f2 : Nat)
    (hp1 : ∀ st ∈ p1, ∃ n, st = ReadStep.emit n ∧ 1 ≤ n)
    (hp2 : ∀ st ∈ p2, ∃ n, st = ReadStep.emit n ∧ 1 ≤ n)
    (hl1 : data.length ≤ p1.length) (hl2 : data.length ≤ p2.length)
    (hf1 : data.length < f1) (hf2 : data.length < f2) :
    (streamTrace f1 (freshStream ⟨p1, data⟩)).1
      = (streamTrace f2 (freshStream ⟨p2, data⟩)).1 ∧
    (streamTrace f1 (freshStream ⟨p1, data⟩)).1 = (specTrace data).1 ∧
    TermRel (specTrace data).2 (streamTrace f1 (freshStream ⟨p1, data⟩)).2 ∧
    TermRel (specTrace data).2 (streamTrace f2 (freshStream ⟨p2, data⟩)).2 := by
  have hfresh : ∀ p : List ReadStep, remaining (freshStream ⟨p, data⟩) = data := by
    intro p
    rw [remaining]
    simp [window, freshStream]
  have hinv : ∀ p : List ReadStep,
      (∀ st ∈ p, ∃ n, st = ReadStep.emit n ∧ 1 ≤ n) →
      data.length ≤ p.length → StreamInv (freshStream ⟨p, data⟩) := by
    intro p hp hl
    exact ⟨⟨by simp [freshStream], by simp [freshStream], by simp [freshStream]⟩,
      rfl, hp, hl⟩
  have h1 := stream_sim f1 _ (hinv p1 hp1 hl1) (by rw [hfresh]; exact hf1)
  have h2 := stream_sim f2 _ (hinv p2 hp2 hl2) (by rw [hfresh]; exact hf2)
  rw [hfresh] at h1 h2
  exact ⟨by rw [h1.1, h2.1], h1.1, h1.2, h2.2⟩

/-- Witness for the amended C3: a single-read plan and a 1-byte-per-read
plan over the crate's own System Event frame decode identically. -/
theorem c3_chunking_amended_witness :
    (∀ st ∈ List.replicate 14 (ReadStep.emit BUFSIZE),
      ∃ n, st = ReadStep.emit n ∧ 1 ≤ n) ∧
    (∀ st ∈ List.replicate 14 (ReadStep.emit 1),
      ∃ n, st = ReadStep.emit n ∧ 1 ≤ n) ∧
    oneMsgBytes.length ≤ (List.replicate 14 (ReadStep.emit BUFSIZE)).length ∧
    oneMsgBytes.length ≤ (List.replicate 14 (ReadStep.emit 1)).length ∧
    oneMsgBytes.length < 15 ∧
    ((streamTrace 15 (freshStream
        ⟨List.replicate 14 (ReadStep.emit BUFSIZE), oneMsgBytes⟩)).1
      = (streamTrace 15 (freshStream
          ⟨List.replicate 14 (ReadStep.emit 1), oneMsgBytes⟩)).1 ∧
     (streamTrace 15 (freshStream
        ⟨List.replicate 14 (ReadStep.emit BUFSIZE), oneMsgBytes⟩)).1
      = (specTrace oneMsgBytes).1 ∧
     TermRel (specTrace oneMsgBytes).2
       (streamTrace 15 (freshStream
         ⟨List.replicate 14 (ReadStep.emit BUFSIZE), oneMsgBytes⟩)).2 ∧
     TermRel (specTrace oneMsgBytes).2
       (streamTrace 15 (freshStream
         ⟨List.replicate 14 (ReadStep.emit 1), oneMsgBytes⟩)).2) := by
  have hp1 : ∀ st ∈ List.replicate 14 (ReadStep.emit BUFSIZE),
      ∃ n, st = ReadStep.emit n ∧ 1 ≤ n := by
    intro st hst
    rw [List.eq_of_mem_replicate hst]
    exact ⟨BUFSIZE, rfl, by decide⟩
  have hp2 : ∀ st ∈ List.replicate 14 (ReadStep.emit 1),
      ∃ n, st = ReadStep.emit n ∧ 1 ≤ n := by
    intro st hst
    rw [List.eq_of_mem_replicate hst]
    exact ⟨1, rfl, le_refl 1⟩
  refine ⟨hp1, hp2, by decide, by decide, by decide, ?_⟩
  exact c3_chunking_amended oneMsgBytes _ _ 15 15 hp1 hp2
    (by decide) (by decide) (by decide) (by decide)

/-- A 13-byte frame whose tag byte 90 (`Z`) matches no catalog entry. -/
def c4Input : List Byte := [0, 12, 90, 0, 0, 0, 0, 0, 0, 0, 0, 0, 0]

/-- C4 (code bug evidence): an unknown tag byte does not produce an `Err`;
it hits the `unreachable!()` arm of `parse_message` and panics, and the
iterator therefore panics instead of yielding a decode failure. -/
theorem c4_unknown_tag_panics :
    parse_message c4Input = .crash ∧
    runStream 1 (freshStream ⟨[.emit 13], c4Input⟩) = [.crash] := by
  refine ⟨by decide, ?_⟩
  rw [← runStreamF_eq 2 1 (freshStream ⟨[.emit 13], c4Input⟩) (by decide)]
  decide

/-- A 27-byte `H` (trading action) frame whose stock field starts with the
byte 255, which is not valid UTF-8. -/
def c5Input : List Byte :=
  [0, 26, 72, 0, 0, 0, 0, 0, 0, 0, 0, 0, 0,
   255, 32, 32, 32, 32, 32, 32, 32, 72, 0, 32, 32, 32, 32]

/-- C5 (code bug evidence): a fixed-width text field with invalid UTF-8 is
not reported as a decode error; the `str::from_utf8(..).unwrap()` in
`stock` panics, and so does `parse_message` on a frame containing such a
field.  (A valid field is stored verbatim with its trailing spaces, as the
C1 round-trip theorem shows.) -/
theorem c5_invalid_utf8_panics :
    stock [255, 32, 32, 32, 32, 32, 32, 32] = .crash ∧
    parse_message c5Input = .crash ∧
    runStream 1 (freshStream ⟨[.emit 27], c5Input⟩) = [.crash] := by
  refine ⟨by decide, by decide, ?_⟩
  rw [← runStreamF_eq 2 1 (freshStream ⟨[.emit 27], c5Input⟩) (by decide)]
  decide

/-- C6: when a refill returns 0 bytes (the source is exhausted) on a
stream that is not latched, `next()` yields an error exactly when the
unread window is non-empty: a partial frame gives the unexpected-EOF
error, a clean frame boundary (including a completely empty source) ends
iteration with no message and no error. -/
theorem c6_eof_boundary (s : MessageStream) (hB : BInv s)
    (hflag : s.in_error_state = false)
    (hneed : NeedsMore (parse_message (window s)))
    (hzero : ∀ sp, (srcRead s.reader sp).1 = .chunk []) :
    (nextMsg s).1 = if window s = [] then .done else .err .unexpectedEof := by
  obtain ⟨hlen, hse, heb⟩ := hB
  have hwl : (window s).length = s.bufend - s.bufstart :=
    window_length s hse (by rw [hlen]; exact heb)
  have h100 : s.bufend - s.bufstart < 100 := by
    have := pf_parse_message.needy_short _ hneed
    omega
  rw [nextMsg_eq_fetchCase s hflag hneed]
  obtain ⟨hfeq, hwinN, ⟨hlenN, hseN, hebN⟩, hrdr, hflagN, hdiff, hben⟩ :=
    fetch_eq_norm s ⟨hlen, hse, heb⟩ h100
  rcases hsr : srcRead (normS s).reader (BUFSIZE - (normS s).bufend) with ⟨out, src⟩
  have hout0 : out = .chunk [] := by
    have hz := hzero (BUFSIZE - (normS s).bufend)
    rw [hrdr] at hsr
    rw [hsr] at hz
    exact hz
  subst hout0
  have hread : readInto (normS s) = (.bytes 0, { normS s with reader := src }) := by
    unfold readInto
    rw [hsr]
    simp
  have hfetch : fetch_more_bytes s = (.bytes 0, { normS s with reader := src }) := by
    rw [hfeq, hread]
  have hfc := fetchCase_bytes s 0 _ hfetch
  rw [if_pos rfl] at hfc
  have hkey : (normS s).bufstart = (normS s).bufend ↔ window s = [] := by
    constructor
    · intro hq
      refine List.eq_nil_of_length_eq_zero ?_
      omega
    · intro hq
      have h0 : (window s).length = 0 := by rw [hq]; rfl
      omega
  rw [hfc]
  by_cases hwemp : window s = []
  · rw [if_pos hwemp]
    split
    · rfl
    · rename_i hA
      exact absurd (hkey.mpr hwemp) hA
  · rw [if_neg hwemp]
    split
    · rename_i hA
      exact absurd (hkey.mp hA) hwemp
    · split
      · rename_i hfl3
        have hfl4 : (normS s).in_error_state = true := hfl3
        rw [hflagN, hflag] at hfl4
        exact absurd hfl4 (by simp)
      · rfl

/-- Witness for C6: the empty byte source yields no message and no error. -/
theorem c6_eof_boundary_witness :
    BInv (freshStream ⟨[], []⟩) ∧
    (nextMsg (freshStream ⟨[], []⟩)).1
      = if window (freshStream ⟨[], []⟩) = [] then .done
        else .err .unexpectedEof := by
  have hB : BInv (freshStream ⟨[], []⟩) :=
    ⟨by simp [freshStream], by decide, by decide⟩
  have hneed : NeedsMore (parse_message (window (freshStream ⟨[], []⟩))) := by
    have hpm : parse_message (window (freshStream ⟨[], []⟩)) = .incomplete 2 := by
      decide
    rw [hpm]
    trivial
  exact ⟨hB, c6_eof_boundary _ hB rfl hneed (fun sp => rfl)⟩

/-- C8: every `next()` call preserves the buffer-cursor invariant
`0 ≤ bufstart ≤ bufend ≤ BUFSIZE` and never trips the compaction
assertions, over any byte source; a refill with a non-full buffer never
compacts (cursors unchanged, the already-buffered prefix intact); and
when the buffer is completely full and the assertion preconditions hold,
compaction shifts the unread window unchanged to the front. -/
theorem c8_buffer_invariant (s : MessageStream) (hB : BInv s) :
    BInv (nextMsg s).2 ∧
    (nextMsg s).1 ≠ .assertFail ∧
    (s.bufend < BUFSIZE →
      (fetch_more_bytes s).2.bufstart = s.bufstart ∧
      (fetch_more_bytes s).2.bufend = s.bufend ∧
      (fetch_more_bytes s).2.buffer.take s.bufend = s.buffer.take s.bufend) ∧
    (s.bufend = BUFSIZE → BUFSIZE / 2 < s.bufstart → BUFSIZE - s.bufstart < 100 →
      fetch_more_bytes s = readInto (compactBuf s) ∧
      window (compactBuf s) = window s ∧
      (compactBuf s).bufstart = 0 ∧
      (compactBuf s).bufend = s.bufend - s.bufstart) := by
  obtain ⟨hBp, hass⟩ := nextMsg_B_aux s.reader.plan.length s rfl hB
  obtain ⟨hlen, hse, heb⟩ := hB
  refine ⟨hBp, hass, ?_, ?_⟩
  · intro hlt
    unfold fetch_more_bytes
    rw [if_neg (by omega)]
    unfold readInto
    rcases hsr : srcRead s.reader (BUFSIZE - s.bufend) with ⟨out, src⟩
    cases out with
    | chunk c =>
        refine ⟨rfl, rfl, ?_⟩
        show (setSlice s.buffer s.bufend c).take s.bufend = s.buffer.take s.bufend
        exact setSlice_take s.buffer s.bufend c (by omega)
    | readFail => exact ⟨rfl, rfl, rfl⟩
  · intro hbe h1 h2
    obtain ⟨hw, hl, hs0, he⟩ := window_compact s hlen hbe hse
    refine ⟨?_, hw, hs0, he⟩
    unfold fetch_more_bytes
    rw [if_pos hbe, if_pos ⟨h1, h2⟩]

/-- Witness for C8 at a concrete fresh stream over a one-frame source. -/
theorem c8_buffer_invariant_witness :
    BInv (freshStream ⟨[.emit 14], oneMsgBytes⟩) ∧
    BInv (nextMsg (freshStream ⟨[.emit 14], oneMsgBytes⟩)).2 ∧
    (nextMsg (freshStream ⟨[.emit 14], oneMsgBytes⟩)).1 ≠ .assertFail := by
  have hB : BInv (freshStream ⟨[.emit 14], oneMsgBytes⟩) :=
    ⟨by simp [freshStream], by decide, by decide⟩
  have h := c8_buffer_invariant (freshStream ⟨[.emit 14], oneMsgBytes⟩) hB
  exact ⟨hB, h.1, h.2.1⟩

/-- C1: for every message in the catalog with well-formed field values,
decoding the hand-built wire frame (length prefix = 1 tag byte + 10 header
bytes + body length, tag, stock locate, tracking number, 48-bit timestamp,
body layout for that tag) succeeds and returns exactly the encoded
message, consuming exactly the 2 prefix bytes plus the declared length and
leaving any appended suffix unconsumed. -/
theorem c1_wire_roundtrip (m : Message) (extra : List Byte)
    (hv : validMessage m) :
    parse_message (encodeMessage m ++ extra) = .ok extra m ∧
    (encodeMessage m).length = 2 + (11 + (encBody m.body).length) := by
  refine ⟨parses_message m hv extra, ?_⟩
  simp only [encodeMessage, enc16, enc48, List.length_append, List.length_cons,
    List.length_nil]
  omega

/-- Witness for C1: a concrete valid System Event message round-trips,
leaving a 2-byte suffix unconsumed. -/
theorem c1_wire_roundtrip_witness :
    validMessage oneMsgVal ∧
    (parse_message (encodeMessage oneMsgVal ++ [9, 9]) = .ok [9, 9] oneMsgVal ∧
     (encodeMessage oneMsgVal).length
       = 2 + (11 + (encBody oneMsgVal.body).length)) := by
  refine ⟨?_, c1_wire_roundtrip oneMsgVal [9, 9] ?_⟩
  · show validMessage ⟨0x53, 0, 0, 0x286aab3b3a99,
      Body.SystemEvent EventCode.StartOfMessages⟩
    decide
  · show validMessage ⟨0x53, 0, 0, 0x286aab3b3a99,
      Body.SystemEvent EventCode.StartOfMessages⟩
    decide

end Itchy
